import Mathlib

/-!
# pcidb: the pci.ids parser (`pci_linux.go`)

A shallow embedding of `parsePCIIdsFile` and of the records it builds.

Go pointers are addresses into per-type heaps (lists, address = index), so that
a write through `curClass`, `curSubclass`, `curVendor` or `curProduct` is seen
by every holder of the same pointer (the maps of the database, the child
slices).  A slice of pointers is the list of its visible elements: the only
writes to a backing array are the ones of `append`, which land at an index at
or above the length of every slice header taken earlier, so no header ever
sees one of its elements change.  A nil slice and an empty slice are both `[]`.

A run-time panic (slice bounds out of range, nil pointer dereference) is `none`.
The input is the list of the lines the scanner yields, as valid Unicode text;
`[]rune(line)` is the list of its code points.
-/

namespace Pcidb

/-- Address of a heap-allocated record: the value of a Go pointer. -/
abbrev Addr := Nat

/-- Modelled from the spec: the declaration of `PCIProgrammingInterface` is not
in the source files at hand; the fields are the ones `parsePCIIdsFile` writes. -/
structure PCIProgrammingInterface where
  Id : String
  Name : String
deriving DecidableEq, Repr

/-- Modelled from the spec: the declaration of `PCISubclass` is not in the
source files at hand; `ProgrammingInterfaces` is a slice of pointers. -/
structure PCISubclass where
  Id : String
  Name : String
  ProgrammingInterfaces : List Addr
deriving DecidableEq, Repr

/-- Modelled from the spec: the declaration of `PCIClass` is not in the source
files at hand; `Subclasses` is a slice of pointers. -/
structure PCIClass where
  Id : String
  Name : String
  Subclasses : List Addr
deriving DecidableEq, Repr

/-- Modelled from the spec: the declaration of `PCIProduct` is not in the source
files at hand; `Subsystems` is a slice of pointers to records of the same type. -/
structure PCIProduct where
  VendorId : String
  Id : String
  Name : String
  Subsystems : List Addr
deriving DecidableEq, Repr

/-- Modelled from the spec: the declaration of `PCIVendor` is not in the source
files at hand; `Products` is a slice of pointers. -/
structure PCIVendor where
  Id : String
  Name : String
  Products : List Addr
deriving DecidableEq, Repr

/-- The heaps: one per record type, a record's address is its index. -/
structure Memory where
  classes : List PCIClass
  subclasses : List PCISubclass
  progIfaces : List PCIProgrammingInterface
  vendors : List PCIVendor
  products : List PCIProduct
deriving DecidableEq, Repr

/-- A Go `map[string]*T`: at most one entry per key (see `GoMap.store`). -/
structure GoMap where
  entries : List (String × Addr)
deriving DecidableEq, Repr

/-- The result of `make(map[string]*T, n)`. -/
def GoMap.empty : GoMap := ⟨[]⟩

/-- The map read `m[k]`, `none` when the key is absent. -/
def GoMap.lookup (m : GoMap) (k : String) : Option Addr :=
  (m.entries.find? (fun e => e.1 == k)).map Prod.snd

/-- The map write `m[k] = v`: an entry under the same key is replaced. -/
def GoMap.store (m : GoMap) (k : String) (v : Addr) : GoMap :=
  ⟨(k, v) :: m.entries.filter (fun e => e.1 != k)⟩

/-- The keys of a map. -/
def GoMap.keys (m : GoMap) : List String := m.entries.map Prod.fst

/-- Modelled from the spec: the declaration of `PCIDB` is not in the source
files at hand; it holds the three mappings of the Database of the spec. -/
structure PCIDB where
  Classes : GoMap
  Vendors : GoMap
  Products : GoMap
deriving DecidableEq, Repr

/-- The local variables of `parsePCIIdsFile`, with the heaps and `*db`. -/
structure ParserState where
  mem : Memory
  db : PCIDB
  inClassBlock : Bool
  subclasses : List Addr
  progIfaces : List Addr
  curClass : Option Addr
  curSubclass : Option Addr
  curProgIface : Option Addr
  vendorProducts : List Addr
  curVendor : Option Addr
  curProduct : Option Addr
  curSubsystem : Option Addr
  productSubsystems : List Addr
deriving DecidableEq, Repr

/-- The conversion `string(lineBytes[lo:hi])`; `none` is the slice-bounds panic.
The capacity of `[]rune(line)` is left open by the language, but every branch
of the parser also takes `lineBytes[n:]` with `n` at least the largest `hi` of
the branch, so the branch panics exactly when the line is shorter than `n`. -/
def slice (lineBytes : List Char) (lo hi : Nat) : Option String :=
  if hi ≤ lineBytes.length then some (String.mk ((lineBytes.drop lo).take (hi - lo))) else none

/-- The conversion `string(lineBytes[lo:])`; `none` is the slice-bounds panic. -/
def sliceFrom (lineBytes : List Char) (lo : Nat) : Option String :=
  if lo ≤ lineBytes.length then some (String.mk (lineBytes.drop lo)) else none

/-- Lines 74 to 78: `if curClass != nil { curClass.Subclasses = subclasses; ... }`. -/
def finalizeClass (s : ParserState) : ParserState :=
  match s.curClass with
  | some a =>
    { s with
      mem := { s.mem with
        classes := s.mem.classes.modify (fun c => { c with Subclasses := s.subclasses }) a }
      subclasses := [] }
  | none => s

/-- Lines 79 and 82 to 87: `curClass = &PCIClass{...}; db.Classes[curClass.Id] = curClass`. -/
def openClass (s1 : ParserState) (classId className : String) : ParserState :=
  { s1 with
    inClassBlock := true
    mem := { s1.mem with
      classes := s1.mem.classes ++ [{ Id := classId, Name := className, Subclasses := s1.subclasses }] }
    curClass := some s1.mem.classes.length
    db := { s1.db with Classes := s1.db.Classes.store classId s1.mem.classes.length } }

/-- Lines 73 to 89: a line whose first rune is `C`. -/
def classHeader (s : ParserState) (lineBytes : List Char) : Option ParserState :=
  let s1 := finalizeClass s
  (slice lineBytes 2 4).bind fun classId =>
  (sliceFrom lineBytes 6).bind fun className =>
  some (openClass s1 classId className)

/-- Lines 97 to 101: `if curVendor != nil { curVendor.Products = vendorProducts; ... }`. -/
def finalizeVendor (s : ParserState) : ParserState :=
  match s.curVendor with
  | some a =>
    { s with
      mem := { s.mem with
        vendors := s.mem.vendors.modify (fun v => { v with Products := s.vendorProducts }) a }
      vendorProducts := [] }
  | none => s

/-- Lines 102 and 105 to 110: `curVendor = &PCIVendor{...}; db.Vendors[curVendor.Id] = curVendor`. -/
def openVendor (s1 : ParserState) (vendorId vendorName : String) : ParserState :=
  { s1 with
    inClassBlock := false
    mem := { s1.mem with
      vendors := s1.mem.vendors ++ [{ Id := vendorId, Name := vendorName, Products := s1.vendorProducts }] }
    curVendor := some s1.mem.vendors.length
    db := { s1.db with Vendors := s1.db.Vendors.store vendorId s1.mem.vendors.length } }

/-- Lines 96 to 112: a line whose first rune is neither `C` nor a tab. -/
def vendorHeader (s : ParserState) (lineBytes : List Char) : Option ParserState :=
  let s1 := finalizeVendor s
  (slice lineBytes 0 4).bind fun vendorId =>
  (sliceFrom lineBytes 6).bind fun vendorName =>
  some (openVendor s1 vendorId vendorName)

/-- Lines 129 to 133: `if curSubclass != nil { curSubclass.ProgrammingInterfaces = progIfaces; ... }`. -/
def finalizeSubclass (s : ParserState) : ParserState :=
  match s.curSubclass with
  | some a =>
    { s with
      mem := { s.mem with
        subclasses :=
          s.mem.subclasses.modify (fun c => { c with ProgrammingInterfaces := s.progIfaces }) a }
      progIfaces := [] }
  | none => s

/-- Lines 136 to 141: `curSubclass = &PCISubclass{...}; subclasses = append(subclasses, curSubclass)`. -/
def openSubclass (s1 : ParserState) (subclassId subclassName : String) : ParserState :=
  { s1 with
    mem := { s1.mem with
      subclasses := s1.mem.subclasses ++
        [{ Id := subclassId, Name := subclassName, ProgrammingInterfaces := s1.progIfaces }] }
    curSubclass := some s1.mem.subclasses.length
    subclasses := s1.subclasses ++ [s1.mem.subclasses.length] }

/-- Lines 128 to 141: a one-tab line read in a class block. -/
def subclassEntry (s : ParserState) (lineBytes : List Char) : Option ParserState :=
  let s1 := finalizeSubclass s
  (slice lineBytes 1 3).bind fun subclassId =>
  (sliceFrom lineBytes 5).bind fun subclassName =>
  some (openSubclass s1 subclassId subclassName)

/-- Lines 143 to 147: `if curProduct != nil { curProduct.Subsystems = productSubsystems; ... }`. -/
def finalizeProduct (s : ParserState) : ParserState :=
  match s.curProduct with
  | some a =>
    { s with
      mem := { s.mem with
        products := s.mem.products.modify (fun p => { p with Subsystems := s.productSubsystems }) a }
      productSubsystems := [] }
  | none => s

/-- Lines 150 to 157: `productKey := curVendor.Id + productId; curProduct = &PCIProduct{...}`,
the append to `vendorProducts` and the write to `db.Products`; `vendorId` is `curVendor.Id`. -/
def openProduct (s1 : ParserState) (vendorId productId productName : String) : ParserState :=
  { s1 with
    mem := { s1.mem with
      products := s1.mem.products ++
        [{ VendorId := vendorId, Id := productId, Name := productName, Subsystems := [] }] }
    curProduct := some s1.mem.products.length
    vendorProducts := s1.vendorProducts ++ [s1.mem.products.length]
    db := { s1.db with
      Products := s1.db.Products.store (vendorId ++ productId) s1.mem.products.length } }

/-- Lines 142 to 158: a one-tab line read outside a class block.  `curVendor.Id`
is a nil dereference when no vendor header has been read. -/
def productEntry (s : ParserState) (lineBytes : List Char) : Option ParserState :=
  let s1 := finalizeProduct s
  (slice lineBytes 1 5).bind fun productId =>
  (sliceFrom lineBytes 7).bind fun productName =>
  (s1.curVendor.bind fun a => s1.mem.vendors[a]?).bind fun curVendor =>
  some (openProduct s1 curVendor.Id productId productName)

/-- Lines 176 to 180: `curProgIface = &PCIProgrammingInterface{...}` and the append. -/
def addProgIface (s : ParserState) (progIfaceId progIfaceName : String) : ParserState :=
  { s with
    mem := { s.mem with
      progIfaces := s.mem.progIfaces ++ [{ Id := progIfaceId, Name := progIfaceName }] }
    curProgIface := some s.mem.progIfaces.length
    progIfaces := s.progIfaces ++ [s.mem.progIfaces.length] }

/-- Lines 173 to 180: a line that is not a one-tab line, read in a class block. -/
def progIfaceLeaf (s : ParserState) (lineBytes : List Char) : Option ParserState :=
  (slice lineBytes 2 4).bind fun progIfaceId =>
  (sliceFrom lineBytes 6).bind fun progIfaceName =>
  some (addProgIface s progIfaceId progIfaceName)

/-- Lines 185 to 190: `curSubsystem = &PCIProduct{...}` and the append. -/
def addSubsystem (s : ParserState) (vendorId subsystemId subsystemName : String) : ParserState :=
  { s with
    mem := { s.mem with
      products := s.mem.products ++
        [{ VendorId := vendorId, Id := subsystemId, Name := subsystemName, Subsystems := [] }] }
    curSubsystem := some s.mem.products.length
    productSubsystems := s.productSubsystems ++ [s.mem.products.length] }

/-- Lines 181 to 191: a line that is not a one-tab line, read outside a class block. -/
def subsystemLeaf (s : ParserState) (lineBytes : List Char) : Option ParserState :=
  (slice lineBytes 2 6).bind fun vendorId =>
  (slice lineBytes 7 11).bind fun subsystemId =>
  (sliceFrom lineBytes 13).bind fun subsystemName =>
  some (addSubsystem s vendorId subsystemId subsystemName)

/-- Lines 62 to 192: the body of the scanner loop for one line.  An empty line
and a line that starts with `#` are skipped (line 64); on every other line
`lineBytes[0]` exists, and `lineBytes[1]` is read only when `len(lineBytes) > 1`. -/
def step (s : ParserState) (line : String) : Option ParserState :=
  let lineBytes := line.data
  match lineBytes with
  | [] => some s
  | c0 :: rest =>
    if c0 = '#' then some s
    else if c0 = 'C' then classHeader s lineBytes
    else if c0 ≠ '\t' then vendorHeader s lineBytes
    else if 1 < lineBytes.length ∧ rest.head? ≠ some '\t' then
      if s.inClassBlock then subclassEntry s lineBytes else productEntry s lineBytes
    else
      if s.inClassBlock then progIfaceLeaf s lineBytes else subsystemLeaf s lineBytes

/-- Lines 47 to 60: the state before the first line.  The three maps of `*db`
are replaced by fresh ones; the heaps are the memory as the caller left it. -/
def initState (m : Memory) (db : PCIDB) : ParserState :=
  { mem := m
    db := { db with Classes := GoMap.empty, Vendors := GoMap.empty, Products := GoMap.empty }
    inClassBlock := false
    subclasses := []
    progIfaces := []
    curClass := none
    curSubclass := none
    curProgIface := none
    vendorProducts := []
    curVendor := none
    curProduct := none
    curSubsystem := none
    productSubsystems := [] }

/-- The loop `for scanner.Scan()` over the lines the scanner yields. -/
def run (s : ParserState) : List String → Option ParserState
  | [] => some s
  | line :: rest => (step s line).bind fun s1 => run s1 rest

/-- What the caller holds when `parsePCIIdsFile` returns: the memory, `*db`
and the returned `error` (`none` is `nil`). -/
structure ParseResult where
  mem : Memory
  db : PCIDB
  err : Option String
deriving DecidableEq, Repr

/-- Lines 46 to 195: `parsePCIIdsFile(db, scanner)`, `none` when it panics. -/
def parsePCIIdsFile (m : Memory) (db : PCIDB) (scanner : List String) : Option ParseResult :=
  (run (initState m db) scanner).map fun s => { mem := s.mem, db := s.db, err := none }

/-! ## Reading the result -/

/-- The record `db.Classes[k]` points to. -/
def ParseResult.classAt (r : ParseResult) (k : String) : Option PCIClass :=
  (r.db.Classes.lookup k).bind fun a => r.mem.classes[a]?

/-- The record `db.Vendors[k]` points to. -/
def ParseResult.vendorAt (r : ParseResult) (k : String) : Option PCIVendor :=
  (r.db.Vendors.lookup k).bind fun a => r.mem.vendors[a]?

/-- The record `db.Products[k]` points to. -/
def ParseResult.productAt (r : ParseResult) (k : String) : Option PCIProduct :=
  (r.db.Products.lookup k).bind fun a => r.mem.products[a]?

/-- Id and Name of a Subclass. -/
def PCISubclass.ident (x : PCISubclass) : String × String := (x.Id, x.Name)

/-- VendorId, Id and Name of a Product (or Subsystem). -/
def PCIProduct.ident (x : PCIProduct) : String × String × String := (x.VendorId, x.Id, x.Name)

/-- Id and Name of the records a slice of Subclass pointers points to, in order. -/
def Memory.subclassIdents (m : Memory) (ps : List Addr) : List (Option (String × String)) :=
  ps.map fun a => (m.subclasses[a]?).map PCISubclass.ident

/-- VendorId, Id and Name of the records a slice of Product pointers points to, in order. -/
def Memory.productIdents (m : Memory) (ps : List Addr) :
    List (Option (String × String × String)) :=
  ps.map fun a => (m.products[a]?).map PCIProduct.ident

/-- The records a slice of Subclass pointers points to, in order. -/
def Memory.subclassesAt (m : Memory) (ps : List Addr) : List (Option PCISubclass) :=
  ps.map fun a => m.subclasses[a]?

/-- The records a slice of ProgrammingInterface pointers points to, in order. -/
def Memory.progIfacesAt (m : Memory) (ps : List Addr) : List (Option PCIProgrammingInterface) :=
  ps.map fun a => m.progIfaces[a]?

/-- The records a slice of Product pointers points to, in order. -/
def Memory.productsAt (m : Memory) (ps : List Addr) : List (Option PCIProduct) :=
  ps.map fun a => m.products[a]?

/-! ## The vocabulary of the specification: columns, kinds of lines, reading context -/

/-- Columns `[lo, hi)` of a line, in code points. -/
def cols (lo hi : Nat) (line : String) : String :=
  String.mk ((line.data.drop lo).take (hi - lo))

/-- Column `lo` to the end of a line, in code points. -/
def colsFrom (lo : Nat) (line : String) : String :=
  String.mk (line.data.drop lo)

/-- The first character of a line. -/
def firstChar (line : String) : Option Char := line.data.head?

/-- The kinds of lines of the grammar, spec section 4.2. -/
inductive LineKind where
  | blank
  | classHeader
  | vendorHeader
  | oneTab
  | tabs
deriving DecidableEq, Repr

/-- The kind of a line: empty or comment; first character `C`; first character
not a tab; one leading tab followed by a character that is not a tab; any other
line that starts with a tab. -/
def lineKind (line : String) : LineKind :=
  match line.data with
  | [] => .blank
  | c0 :: rest =>
    if c0 = '#' then .blank
    else if c0 = 'C' then .classHeader
    else if c0 ≠ '\t' then .vendorHeader
    else match rest with
      | [] => .tabs
      | c1 :: _ => if c1 ≠ '\t' then .oneTab else .tabs

/-- A two-tab line: the first two characters are tabs. -/
def isTwoTab (line : String) : Bool :=
  match line.data with
  | c0 :: c1 :: _ => c0 = '\t' ∧ c1 = '\t'
  | _ => false

/-- The reading context of a line: whether the most recent header is a Class
header, and the id of the most recent Vendor header. -/
structure Ctx where
  inClass : Bool
  vendor : Option String
deriving DecidableEq, Repr

/-- The context before the first line. -/
def Ctx.init : Ctx := ⟨false, none⟩

/-- The context after one more line. -/
def Ctx.read (c : Ctx) (line : String) : Ctx :=
  match lineKind line with
  | .classHeader => { c with inClass := true }
  | .vendorHeader => { inClass := false, vendor := some (cols 0 4 line) }
  | _ => c

/-- The context after a list of lines. -/
def ctxAfter (c : Ctx) (lines : List String) : Ctx := lines.foldl Ctx.read c

/-- Each line with the context it is read in. -/
def annotate (c : Ctx) : List String → List (Ctx × String)
  | [] => []
  | line :: rest => (c, line) :: annotate (c.read line) rest

/-- A Subclass line: a one-tab line read while the most recent header is a Class header. -/
def isSubclassLine (e : Ctx × String) : Bool :=
  e.1.inClass ∧ lineKind e.2 = .oneTab

/-- A Product line: a one-tab line read while the most recent header is not a Class header. -/
def isProductLine (e : Ctx × String) : Bool :=
  e.1.inClass = false ∧ lineKind e.2 = .oneTab

/-- A Subsystem line: a two-tab line read while the most recent header is not a Class header. -/
def isSubsystemLine (e : Ctx × String) : Bool :=
  e.1.inClass = false ∧ isTwoTab e.2

/-- The Subclass lines of a list of lines read from context `c`, in file order. -/
def subclassLines (c : Ctx) (lines : List String) : List String :=
  ((annotate c lines).filter isSubclassLine).map Prod.snd

/-- The Product lines of a list of lines read from context `c`, in file order,
each with the context it is read in. -/
def productLines (c : Ctx) (lines : List String) : List (Ctx × String) :=
  (annotate c lines).filter isProductLine

/-- The Subsystem lines of a list of lines read from context `c`, in file order. -/
def subsystemLines (c : Ctx) (lines : List String) : List String :=
  ((annotate c lines).filter isSubsystemLine).map Prod.snd

/-- The Products key a Product line produces: the id of its Vendor header, then
columns `[1, 5)`. -/
def productKeyOf (e : Ctx × String) : String :=
  (e.1.vendor.getD "") ++ cols 1 5 e.2

/-- The Product lines of the input that produce the key `k`, in file order. -/
def productLinesWithKey (k : String) (lines : List String) : List (Ctx × String) :=
  (productLines Ctx.init lines).filter fun e => productKeyOf e = k

/-- The ids of the Class headers: columns `[2, 4)` of the lines whose first
character is `C`. -/
def classIds (lines : List String) : List String :=
  (lines.filter fun l => firstChar l = some 'C').map (cols 2 4)

/-- The ids of the Vendor headers: columns `[0, 4)` of the non-empty lines whose
first character is none of `#`, `C` and tab. -/
def vendorIds (lines : List String) : List String :=
  (lines.filter fun l => l ≠ "" ∧ firstChar l ≠ some '#' ∧ firstChar l ≠ some 'C' ∧
    firstChar l ≠ some '\t').map (cols 0 4)

/-- Whether a two-tab line precedes the first Product line of the lines read
from context `c`. -/
def twoTabBeforeFirstProduct : Ctx → List String → Bool
  | _, [] => false
  | c, line :: rest =>
    if isProductLine (c, line) then false
    else isTwoTab line || twoTabBeforeFirstProduct (c.read line) rest

/-! ## Invariants of the loop -/

/-- The parser state agrees with the reading context: the mode flag, the
current Vendor (whose id is four characters wide). -/
structure Link (c : Ctx) (s : ParserState) : Prop where
  mode : s.inClassBlock = c.inClass
  vendorNone : c.vendor = none → s.curVendor = none
  vendorSome : ∀ v, c.vendor = some v →
    ∃ a cell, s.curVendor = some a ∧ s.mem.vendors[a]? = some cell ∧ cell.Id = v
  width : ∀ v, c.vendor = some v → v.length = 4

/-- The keys of `Classes` and `Vendors` are the header ids read so far, each
once, and each key leads to a record with that id. -/
structure KeysInv (pre : List String) (s : ParserState) : Prop where
  classKeys : ∀ k, k ∈ s.db.Classes.keys ↔ k ∈ classIds pre
  classNodup : s.db.Classes.keys.Nodup
  classCell : ∀ k a, s.db.Classes.lookup k = some a →
    ∃ c, s.mem.classes[a]? = some c ∧ c.Id = k
  vendorKeys : ∀ k, k ∈ s.db.Vendors.keys ↔ k ∈ vendorIds pre
  vendorNodup : s.db.Vendors.keys.Nodup
  vendorCell : ∀ k a, s.db.Vendors.lookup k = some a →
    ∃ c, s.mem.vendors[a]? = some c ∧ c.Id = k

/-- The `Products` map holds, under each key, the record of the last Product
line that produced the key, and nothing under any other key. -/
structure ProductsInv (pre : List String) (s : ParserState) : Prop where
  absent : ∀ k, productLinesWithKey k pre = [] → s.db.Products.lookup k = none
  present : ∀ k e, (productLinesWithKey k pre).getLast? = some e →
    ∃ a p, s.db.Products.lookup k = some a ∧ s.mem.products[a]? = some p ∧
      p.VendorId ++ p.Id = k ∧ p.VendorId.length = 4 ∧ p.Name = colsFrom 7 e.2
  wide : ∀ e ∈ productLines Ctx.init pre,
    ∃ v, e.1.vendor = some v ∧ v.length = 4 ∧ (cols 1 5 e.2).length = 4

/-- While no Class header has been read the Subclass accumulator is empty and
the mode flag is off; while no Vendor header has been read the Product
accumulator is empty. -/
structure Quiet (s : ParserState) : Prop where
  noClass : s.curClass = none → s.subclasses = [] ∧ s.inClassBlock = false
  noVendor : s.curVendor = none → s.vendorProducts = []

/-- If `curProduct` is nil no Product line has been read yet, and while no
two-tab line has been read the Subsystem accumulator is empty. -/
structure SubsysInv (pre : List String) (s : ParserState) : Prop where
  noProduct : s.curProduct = none → productLines Ctx.init pre = []
  noTabs : (∀ l ∈ pre, isTwoTab l = false) → s.productSubsystems = []

/-! ## Concrete inputs -/

/-- The empty memory. -/
def Memory.empty : Memory := ⟨[], [], [], [], []⟩

/-- A database whose three maps are empty. -/
def PCIDB.empty : PCIDB := ⟨GoMap.empty, GoMap.empty, GoMap.empty⟩

/-- The end-to-end example of the spec, section 8. -/
def exampleLines : List String :=
  ["C 02  Network controller",
   "\t00  Ethernet controller",
   "\t\t00  Interface A",
   "0a89  BREA Technologies Inc",
   "\t0001  Widget",
   "\t\t0a89 0001  SubWidget"]

/-- What the parse of `exampleLines` returns. -/
def exampleResult : ParseResult :=
  { mem :=
      { classes := [{ Id := "02", Name := "Network controller", Subclasses := [] }]
        subclasses := [{ Id := "00", Name := "Ethernet controller", ProgrammingInterfaces := [] }]
        progIfaces := [{ Id := "00", Name := "Interface A" }]
        vendors := [{ Id := "0a89", Name := "BREA Technologies Inc", Products := [] }]
        products :=
          [{ VendorId := "0a89", Id := "0001", Name := "Widget", Subsystems := [] },
           { VendorId := "0a89", Id := "0001", Name := "SubWidget", Subsystems := [] }] }
    db :=
      { Classes := ⟨[("02", 0)]⟩
        Vendors := ⟨[("0a89", 0)]⟩
        Products := ⟨[("0a890001", 0)]⟩ }
    err := none }

/-- The same product id under two Vendors. -/
def twoVendorLines : List String :=
  ["0a89  Vendor A",
   "\t0001  Widget",
   "0b00  Vendor B",
   "\t0001  Gadget"]

/-- What the parse of `twoVendorLines` returns. -/
def twoVendorResult : ParseResult :=
  { mem :=
      { classes := []
        subclasses := []
        progIfaces := []
        vendors :=
          [{ Id := "0a89", Name := "Vendor A", Products := [0] },
           { Id := "0b00", Name := "Vendor B", Products := [] }]
        products :=
          [{ VendorId := "0a89", Id := "0001", Name := "Widget", Subsystems := [] },
           { VendorId := "0b00", Id := "0001", Name := "Gadget", Subsystems := [] }] }
    db :=
      { Classes := ⟨[]⟩
        Vendors := ⟨[("0b00", 1), ("0a89", 0)]⟩
        Products := ⟨[("0b000001", 1), ("0a890001", 0)]⟩ }
    err := none }

/-- Blank lines and comments only. -/
def commentLines : List String := ["", "# pci.ids", "", "#"]

/-- Two Class blocks, the first with two Subclasses. -/
def twoClassLines : List String :=
  ["C 02  Network controller",
   "\t00  Ethernet controller",
   "\t01  Token ring",
   "C 03  Display controller",
   "\t00  VGA"]

/-- What the parse of `twoClassLines` returns. -/
def twoClassResult : ParseResult :=
  { mem :=
      { classes :=
          [{ Id := "02", Name := "Network controller", Subclasses := [0, 1] },
           { Id := "03", Name := "Display controller", Subclasses := [] }]
        subclasses :=
          [{ Id := "00", Name := "Ethernet controller", ProgrammingInterfaces := [] },
           { Id := "01", Name := "Token ring", ProgrammingInterfaces := [] },
           { Id := "00", Name := "VGA", ProgrammingInterfaces := [] }]
        progIfaces := []
        vendors := []
        products := [] }
    db :=
      { Classes := ⟨[("03", 1), ("02", 0)]⟩
        Vendors := ⟨[]⟩
        Products := ⟨[]⟩ }
    err := none }

/-- Two Vendor blocks, the first with two Products. -/
def twoBlockLines : List String :=
  ["0a89  Vendor A",
   "\t0001  Widget",
   "\t0002  Gadget",
   "0b00  Vendor B",
   "\t0001  Sprocket"]

/-- What the parse of `twoBlockLines` returns. -/
def twoBlockResult : ParseResult :=
  { mem :=
      { classes := []
        subclasses := []
        progIfaces := []
        vendors :=
          [{ Id := "0a89", Name := "Vendor A", Products := [0, 1] },
           { Id := "0b00", Name := "Vendor B", Products := [] }]
        products :=
          [{ VendorId := "0a89", Id := "0001", Name := "Widget", Subsystems := [] },
           { VendorId := "0a89", Id := "0002", Name := "Gadget", Subsystems := [] },
           { VendorId := "0b00", Id := "0001", Name := "Sprocket", Subsystems := [] }] }
    db :=
      { Classes := ⟨[]⟩
        Vendors := ⟨[("0b00", 1), ("0a89", 0)]⟩
        Products := ⟨[("0b000001", 2), ("0a890002", 1), ("0a890001", 0)]⟩ }
    err := none }

/-- A Vendor block whose first Product has two Subsystems. -/
def subsystemExampleLines : List String :=
  ["0a89  Vendor A",
   "\t0001  Widget",
   "\t\t0a89 0010  Widget Pro",
   "\t\t0b00 0020  Widget Lite",
   "\t0002  Gadget",
   "\t\t0a89 0030  Gadget Pro"]

/-- What the parse of `subsystemExampleLines` returns. -/
def subsystemExampleResult : ParseResult :=
  { mem :=
      { classes := []
        subclasses := []
        progIfaces := []
        vendors := [{ Id := "0a89", Name := "Vendor A", Products := [] }]
        products :=
          [{ VendorId := "0a89", Id := "0001", Name := "Widget", Subsystems := [1, 2] },
           { VendorId := "0a89", Id := "0010", Name := "Widget Pro", Subsystems := [] },
           { VendorId := "0b00", Id := "0020", Name := "Widget Lite", Subsystems := [] },
           { VendorId := "0a89", Id := "0002", Name := "Gadget", Subsystems := [] },
           { VendorId := "0a89", Id := "0030", Name := "Gadget Pro", Subsystems := [] }] }
    db :=
      { Classes := ⟨[]⟩
        Vendors := ⟨[("0a89", 0)]⟩
        Products := ⟨[("0a890002", 3), ("0a890001", 0)]⟩ }
    err := none }

/-- Two Class headers with the same id, then another Class. -/
def repeatedClassLines : List String :=
  ["C 02  First name",
   "\t00  Old subclass",
   "C 02  Second name",
   "\t01  New subclass",
   "C 03  Display controller"]

/-- What the parse of `repeatedClassLines` returns. -/
def repeatedClassResult : ParseResult :=
  { mem :=
      { classes :=
          [{ Id := "02", Name := "First name", Subclasses := [0] },
           { Id := "02", Name := "Second name", Subclasses := [1] },
           { Id := "03", Name := "Display controller", Subclasses := [] }]
        subclasses :=
          [{ Id := "00", Name := "Old subclass", ProgrammingInterfaces := [] },
           { Id := "01", Name := "New subclass", ProgrammingInterfaces := [] }]
        progIfaces := []
        vendors := []
        products := [] }
    db :=
      { Classes := ⟨[("03", 2), ("02", 1)]⟩
        Vendors := ⟨[]⟩
        Products := ⟨[]⟩ }
    err := none }

/-- Two Vendor headers with the same id, then another Vendor. -/
def repeatedVendorLines : List String :=
  ["0a89  First name",
   "\t0001  Old product",
   "0a89  Second name",
   "\t0002  New product",
   "0b00  Vendor B"]

/-- What the parse of `repeatedVendorLines` returns. -/
def repeatedVendorResult : ParseResult :=
  { mem :=
      { classes := []
        subclasses := []
        progIfaces := []
        vendors :=
          [{ Id := "0a89", Name := "First name", Products := [0] },
           { Id := "0a89", Name := "Second name", Products := [1] },
           { Id := "0b00", Name := "Vendor B", Products := [] }]
        products :=
          [{ VendorId := "0a89", Id := "0001", Name := "Old product", Subsystems := [] },
           { VendorId := "0a89", Id := "0002", Name := "New product", Subsystems := [] }] }
    db :=
      { Classes := ⟨[]⟩
        Vendors := ⟨[("0b00", 2), ("0a89", 1)]⟩
        Products := ⟨[("0a890002", 1), ("0a890001", 0)]⟩ }
    err := none }

/-- A Vendor block with a Product, then a Class block with a Subclass and a
ProgrammingInterface that ends the input. -/
def lastBlockLines : List String :=
  ["0a89  Vendor A",
   "\t0001  Widget",
   "\t\t0a89 0010  Widget Pro",
   "C 02  Network controller",
   "\t00  Ethernet controller",
   "\t\t00  Interface A"]

/-! ## The loader -/

/-- Lines 20 to 25: the candidate paths, in the order they are tried. -/
def pciIdsFilePaths : List String :=
  ["/usr/share/hwdata/pci.ids",
   "/usr/share/misc/pci.ids"]

/-- The file system as `load` sees it: whether `os.Stat` succeeds on a path, and
the lines a scanner yields on the file `os.Open` returns (`none` when `os.Open`
fails). -/
structure FileSystem where
  stat : String → Bool
  openFile : String → Option (List String)

/-- Lines 28 to 42: the loop of `load` over the candidate paths that are left.
`none` is a panic of the parser, which nothing recovers. -/
def loadLoop (fs : FileSystem) : List String → Memory → PCIDB → Option ParseResult
  | [], m, db => some { mem := m, db := db, err := none }
  | fp :: rest, m, db =>
    if fs.stat fp = false then loadLoop fs rest m db
    else
      match fs.openFile fp with
      | none => loadLoop fs rest m db
      | some lines =>
        match parsePCIIdsFile m db lines with
        | none => none
        | some r =>
          if r.err = none then some { mem := r.mem, db := r.db, err := none }
          else loadLoop fs rest r.mem r.db

/-- Lines 27 to 44: `db.load()`; line 43 returns nil whatever the loop did. -/
def load (fs : FileSystem) (m : Memory) (db : PCIDB) : Option ParseResult :=
  loadLoop fs pciIdsFilePaths m db

/-- The lines of the first candidate path that exists and can be opened. -/
def firstOpenable (fs : FileSystem) : List String → Option (List String)
  | [] => none
  | fp :: rest =>
    if fs.stat fp = false then firstOpenable fs rest
    else
      match fs.openFile fp with
      | none => firstOpenable fs rest
      | some lines => some lines

/-- A file system without any file. -/
def noFiles : FileSystem := { stat := fun _ => false, openFile := fun _ => none }

/-- A file system whose only file is an empty `/usr/share/misc/pci.ids`. -/
def emptyMiscFile : FileSystem :=
  { stat := fun p => p = "/usr/share/misc/pci.ids"
    openFile := fun p => if p = "/usr/share/misc/pci.ids" then some [] else none }

/-! ## More vocabulary: skipped lines, required lengths -/

/-- A line the parser skips: empty, or first character `#`. -/
def isSkipped (line : String) : Bool :=
  line = "" ∨ firstChar line = some '#'

/-- The length the column offsets of a line require, by its kind and the
context it is read in (spec section 4.2): the column the Name starts at. -/
def requiredLength (e : Ctx × String) : Nat :=
  match lineKind e.2 with
  | .blank => 0
  | .classHeader => 6
  | .vendorHeader => 6
  | .oneTab => if e.1.inClass then 5 else 7
  | .tabs => if e.1.inClass then 6 else 13

/-- A line that is too short for the column offsets its classification requires. -/
def tooShort (e : Ctx × String) : Bool :=
  e.2.length < requiredLength e

/-- A line that is long enough for its slices and, when it is read as a Product
line, is preceded by a Vendor header. -/
def wellFormedLine (e : Ctx × String) : Bool :=
  match lineKind e.2 with
  | .blank => true
  | .classHeader => 6 ≤ e.2.length
  | .vendorHeader => 6 ≤ e.2.length
  | .oneTab => if e.1.inClass then 5 ≤ e.2.length else (7 ≤ e.2.length ∧ e.1.vendor.isSome)
  | .tabs => if e.1.inClass then 6 ≤ e.2.length else 13 ≤ e.2.length

/-- A Vendor header and a one-tab line of four characters. -/
def shortLineLines : List String := ["0a89  Vendor A", "\t00"]

/-- A two-tab line before any other line. -/
def orphanLines : List String := ["\t\t0a89 0010  Widget Pro"]

/-- What the parse of `orphanLines` returns. -/
def orphanResult : ParseResult :=
  { mem :=
      { classes := []
        subclasses := []
        progIfaces := []
        vendors := []
        products := [{ VendorId := "0a89", Id := "0010", Name := "Widget Pro", Subsystems := [] }] }
    db := { Classes := ⟨[]⟩, Vendors := ⟨[]⟩, Products := ⟨[]⟩ }
    err := none }

/-- A ProgrammingInterface line: a two-tab line read while the most recent
header is a Class header. -/
def isProgIfaceLine (e : Ctx × String) : Bool :=
  e.1.inClass ∧ isTwoTab e.2

/-- The ProgrammingInterface lines of a list of lines read from context `c`, in
file order. -/
def progIfaceLines (c : Ctx) (lines : List String) : List String :=
  ((annotate c lines).filter isProgIfaceLine).map Prod.snd

/-- Three Class blocks; a ProgrammingInterface line stands directly under the
third Class header, before the first Subclass line of that Class. -/
def crossClassLines : List String :=
  ["C 01  Storage",
   "\t00  SCSI",
   "C 02  Network",
   "\t00  Ethernet",
   "\t\t00  Interface A",
   "C 03  Display",
   "\t\t01  Interface B",
   "\t00  VGA"]

/-- What the parse of `crossClassLines` returns. -/
def crossClassResult : ParseResult :=
  { mem :=
      { classes :=
          [{ Id := "01", Name := "Storage", Subclasses := [0] },
           { Id := "02", Name := "Network", Subclasses := [1] },
           { Id := "03", Name := "Display", Subclasses := [] }]
        subclasses :=
          [{ Id := "00", Name := "SCSI", ProgrammingInterfaces := [] },
           { Id := "00", Name := "Ethernet", ProgrammingInterfaces := [0, 1] },
           { Id := "00", Name := "VGA", ProgrammingInterfaces := [] }]
        progIfaces := [{ Id := "00", Name := "Interface A" }, { Id := "01", Name := "Interface B" }]
        vendors := []
        products := [] }
    db :=
      { Classes := ⟨[("03", 2), ("02", 1), ("01", 0)]⟩
        Vendors := ⟨[]⟩
        Products := ⟨[]⟩ }
    err := none }

/-! ## Relocation: the same records behind a prior memory -/

/-- A Class record with its Subclass pointers moved up by `n`. -/
def PCIClass.shift (n : Nat) (c : PCIClass) : PCIClass :=
  { c with Subclasses := c.Subclasses.map (n + ·) }

/-- A Subclass record with its ProgrammingInterface pointers moved up by `n`. -/
def PCISubclass.shift (n : Nat) (c : PCISubclass) : PCISubclass :=
  { c with ProgrammingInterfaces := c.ProgrammingInterfaces.map (n + ·) }

/-- A Vendor record with its Product pointers moved up by `n`. -/
def PCIVendor.shift (n : Nat) (c : PCIVendor) : PCIVendor :=
  { c with Products := c.Products.map (n + ·) }

/-- A Product record with its Subsystem pointers moved up by `n`. -/
def PCIProduct.shift (n : Nat) (c : PCIProduct) : PCIProduct :=
  { c with Subsystems := c.Subsystems.map (n + ·) }

/-- A map with its pointers moved up by `n`. -/
def GoMap.shift (n : Nat) (mp : GoMap) : GoMap :=
  ⟨mp.entries.map fun e => (e.1, n + e.2)⟩

/-- The memory `x` placed behind the memory `m`: every record of `x` keeps its
fields, and every pointer is moved up by the size of the heap of `m` it points
into. -/
def Memory.relocate (m x : Memory) : Memory :=
  { classes := m.classes ++ x.classes.map (PCIClass.shift m.subclasses.length)
    subclasses := m.subclasses ++ x.subclasses.map (PCISubclass.shift m.progIfaces.length)
    progIfaces := m.progIfaces ++ x.progIfaces
    vendors := m.vendors ++ x.vendors.map (PCIVendor.shift m.products.length)
    products := m.products ++ x.products.map (PCIProduct.shift m.products.length) }

/-- A Database with its pointers moved behind the memory `m`. -/
def PCIDB.relocate (m : Memory) (db : PCIDB) : PCIDB :=
  { Classes := db.Classes.shift m.classes.length
    Vendors := db.Vendors.shift m.vendors.length
    Products := db.Products.shift m.products.length }

/-- A parser state with its memory and pointers moved behind the memory `m`. -/
def ParserState.relocate (m : Memory) (s : ParserState) : ParserState :=
  { mem := m.relocate s.mem
    db := s.db.relocate m
    inClassBlock := s.inClassBlock
    subclasses := s.subclasses.map (m.subclasses.length + ·)
    progIfaces := s.progIfaces.map (m.progIfaces.length + ·)
    curClass := s.curClass.map (m.classes.length + ·)
    curSubclass := s.curSubclass.map (m.subclasses.length + ·)
    curProgIface := s.curProgIface.map (m.progIfaces.length + ·)
    vendorProducts := s.vendorProducts.map (m.products.length + ·)
    curVendor := s.curVendor.map (m.vendors.length + ·)
    curProduct := s.curProduct.map (m.products.length + ·)
    curSubsystem := s.curSubsystem.map (m.products.length + ·)
    productSubsystems := s.productSubsystems.map (m.products.length + ·) }

/-- A result with its memory and pointers moved behind the memory `m`. -/
def ParseResult.relocate (m : Memory) (r : ParseResult) : ParseResult :=
  { mem := m.relocate r.mem, db := r.db.relocate m, err := r.err }

/-! ## The Database as a value: every pointer replaced by its record -/

/-- A Subclass with its ProgrammingInterfaces (`none` stands for a pointer that
leads nowhere). -/
structure SubclassValue where
  Id : String
  Name : String
  ProgrammingInterfaces : List (Option PCIProgrammingInterface)
deriving DecidableEq, Repr

/-- A Class with its Subclasses. -/
structure ClassValue where
  Id : String
  Name : String
  Subclasses : List (Option SubclassValue)
deriving DecidableEq, Repr

/-- A Subsystem: a Product-shaped record, with VendorId, Id and Name of the
records its own `Subsystems` points to. -/
structure SubsystemValue where
  VendorId : String
  Id : String
  Name : String
  Subsystems : List (Option (String × String × String))
deriving DecidableEq, Repr

/-- A Product with its Subsystems. -/
structure ProductValue where
  VendorId : String
  Id : String
  Name : String
  Subsystems : List (Option SubsystemValue)
deriving DecidableEq, Repr

/-- A Vendor with its Products. -/
structure VendorValue where
  Id : String
  Name : String
  Products : List (Option ProductValue)
deriving DecidableEq, Repr

/-- The three mappings of a Database, each key with the value it leads to. -/
structure DatabaseValue where
  Classes : List (String × Option ClassValue)
  Vendors : List (String × Option VendorValue)
  Products : List (String × Option ProductValue)
deriving DecidableEq, Repr

/-- The Subclass a pointer leads to, with its ProgrammingInterfaces. -/
def Memory.subclassValue (m : Memory) (a : Addr) : Option SubclassValue :=
  (m.subclasses[a]?).map fun c =>
    { Id := c.Id, Name := c.Name, ProgrammingInterfaces := m.progIfacesAt c.ProgrammingInterfaces }

/-- The Class a pointer leads to, with its Subclasses. -/
def Memory.classValue (m : Memory) (a : Addr) : Option ClassValue :=
  (m.classes[a]?).map fun c =>
    { Id := c.Id, Name := c.Name, Subclasses := c.Subclasses.map m.subclassValue }

/-- The Subsystem a pointer leads to. -/
def Memory.subsystemValue (m : Memory) (a : Addr) : Option SubsystemValue :=
  (m.products[a]?).map fun p =>
    { VendorId := p.VendorId, Id := p.Id, Name := p.Name,
      Subsystems := m.productIdents p.Subsystems }

/-- The Product a pointer leads to, with its Subsystems. -/
def Memory.productValue (m : Memory) (a : Addr) : Option ProductValue :=
  (m.products[a]?).map fun p =>
    { VendorId := p.VendorId, Id := p.Id, Name := p.Name,
      Subsystems := p.Subsystems.map m.subsystemValue }

/-- The Vendor a pointer leads to, with its Products. -/
def Memory.vendorValue (m : Memory) (a : Addr) : Option VendorValue :=
  (m.vendors[a]?).map fun v =>
    { Id := v.Id, Name := v.Name, Products := v.Products.map m.productValue }

/-- The Database a parse returns, as a value. -/
def ParseResult.value (r : ParseResult) : DatabaseValue :=
  { Classes := r.db.Classes.entries.map fun e => (e.1, r.mem.classValue e.2)
    Vendors := r.db.Vendors.entries.map fun e => (e.1, r.mem.vendorValue e.2)
    Products := r.db.Products.entries.map fun e => (e.1, r.mem.productValue e.2) }

/-! ## The records stored in the Database, and the lines they come from -/

/-- Every record the Database leads to satisfies the predicate of its type: the
Classes of `Classes` with their Subclasses and the ProgrammingInterfaces of
those, the Vendors of `Vendors` with their Products and the Subsystems of those,
the Products of `Products` with their Subsystems (Products and Subsystems are
records of one type, and share a predicate). -/
def ParseResult.allStored (r : ParseResult) (Pc : PCIClass → Prop) (Ps : PCISubclass → Prop)
    (Pi : PCIProgrammingInterface → Prop) (Pv : PCIVendor → Prop) (Pp : PCIProduct → Prop) :
    Prop :=
  (∀ (k : String) (c : PCIClass), r.classAt k = some c → Pc c ∧
    ∀ x ∈ c.Subclasses, ∀ (sc : PCISubclass), r.mem.subclasses[x]? = some sc → Ps sc ∧
      ∀ y ∈ sc.ProgrammingInterfaces, ∀ (pi : PCIProgrammingInterface),
        r.mem.progIfaces[y]? = some pi → Pi pi) ∧
  (∀ (k : String) (v : PCIVendor), r.vendorAt k = some v → Pv v ∧
    ∀ x ∈ v.Products, ∀ (p : PCIProduct), r.mem.products[x]? = some p → Pp p ∧
      ∀ y ∈ p.Subsystems, ∀ (q : PCIProduct), r.mem.products[y]? = some q → Pp q) ∧
  (∀ (k : String) (p : PCIProduct), r.productAt k = some p → Pp p ∧
    ∀ y ∈ p.Subsystems, ∀ (q : PCIProduct), r.mem.products[y]? = some q → Pp q)

/-- A Class record built from a Class header of `L`. -/
def classFromLine (L : List String) (c : PCIClass) : Prop :=
  ∃ l ∈ L, lineKind l = .classHeader ∧ 6 ≤ l.length ∧ c.Id = cols 2 4 l ∧ c.Name = colsFrom 6 l

/-- A Subclass record built from a one-tab line of `L`. -/
def subclassFromLine (L : List String) (c : PCISubclass) : Prop :=
  ∃ l ∈ L, lineKind l = .oneTab ∧ 5 ≤ l.length ∧ c.Id = cols 1 3 l ∧ c.Name = colsFrom 5 l

/-- A ProgrammingInterface record built from a line of two tabs or more of `L`. -/
def progIfaceFromLine (L : List String) (c : PCIProgrammingInterface) : Prop :=
  ∃ l ∈ L, lineKind l = .tabs ∧ 6 ≤ l.length ∧ c.Id = cols 2 4 l ∧ c.Name = colsFrom 6 l

/-- A Vendor record built from a Vendor header of `L`. -/
def vendorFromLine (L : List String) (c : PCIVendor) : Prop :=
  ∃ l ∈ L, lineKind l = .vendorHeader ∧ 6 ≤ l.length ∧ c.Id = cols 0 4 l ∧ c.Name = colsFrom 6 l

/-- A Product-shaped record built from a line of `L`: a Product from a one-tab
line (its VendorId, taken from the current Vendor, is four characters wide), or
a Subsystem from a line of two tabs or more. -/
def productFromLine (L : List String) (p : PCIProduct) : Prop :=
  (∃ l ∈ L, lineKind l = .oneTab ∧ 7 ≤ l.length ∧ p.VendorId.length = 4 ∧
    p.Id = cols 1 5 l ∧ p.Name = colsFrom 7 l) ∨
  (∃ l ∈ L, lineKind l = .tabs ∧ 13 ≤ l.length ∧ p.VendorId = cols 2 6 l ∧
    p.Id = cols 7 11 l ∧ p.Name = colsFrom 13 l)

/-- Every record allocated since the prior memory `m` comes from a line read so far. -/
structure Prov (m : Memory) (pre : List String) (s : ParserState) : Prop where
  classes : ∀ (a : Addr) (c : PCIClass), s.mem.classes[a]? = some c →
    m.classes.length ≤ a → classFromLine pre c
  subclasses : ∀ (a : Addr) (c : PCISubclass), s.mem.subclasses[a]? = some c →
    m.subclasses.length ≤ a → subclassFromLine pre c
  progIfaces : ∀ (a : Addr) (c : PCIProgrammingInterface), s.mem.progIfaces[a]? = some c →
    m.progIfaces.length ≤ a → progIfaceFromLine pre c
  vendors : ∀ (a : Addr) (c : PCIVendor), s.mem.vendors[a]? = some c →
    m.vendors.length ≤ a → vendorFromLine pre c
  products : ∀ (a : Addr) (c : PCIProduct), s.mem.products[a]? = some c →
    m.products.length ≤ a → productFromLine pre c

/-- Every pointer a result holds, in its maps and in the child lists of the
records allocated since the prior memory `m`, points behind `m`. -/
structure PointersNew (m : Memory) (r : ParseResult) : Prop where
  classMap : ∀ (k : String) (a : Addr), r.db.Classes.lookup k = some a → m.classes.length ≤ a
  vendorMap : ∀ (k : String) (a : Addr), r.db.Vendors.lookup k = some a → m.vendors.length ≤ a
  productMap : ∀ (k : String) (a : Addr),
    r.db.Products.lookup k = some a → m.products.length ≤ a
  subclassesOf : ∀ (a : Addr) (c : PCIClass), r.mem.classes[a]? = some c →
    m.classes.length ≤ a → ∀ x ∈ c.Subclasses, m.subclasses.length ≤ x
  progIfacesOf : ∀ (a : Addr) (c : PCISubclass), r.mem.subclasses[a]? = some c →
    m.subclasses.length ≤ a → ∀ x ∈ c.ProgrammingInterfaces, m.progIfaces.length ≤ x
  productsOf : ∀ (a : Addr) (c : PCIVendor), r.mem.vendors[a]? = some c →
    m.vendors.length ≤ a → ∀ x ∈ c.Products, m.products.length ≤ x
  subsystemsOf : ∀ (a : Addr) (c : PCIProduct), r.mem.products[a]? = some c →
    m.products.length ≤ a → ∀ x ∈ c.Subsystems, m.products.length ≤ x

/-- A string without leading and without trailing whitespace. -/
def isTrimmed (s : String) : Bool :=
  (s.data.head?.all fun c => !c.isWhitespace) && (s.data.getLast?.all fun c => !c.isWhitespace)

/-- A Class header whose name field has a space before and after the name. -/
def paddedLines : List String := ["C 02   Network controller "]

/-- What the parse of `paddedLines` returns. -/
def paddedResult : ParseResult :=
  { mem :=
      { classes := [{ Id := "02", Name := " Network controller ", Subclasses := [] }]
        subclasses := []
        progIfaces := []
        vendors := []
        products := [] }
    db := { Classes := ⟨[("02", 0)]⟩, Vendors := ⟨[]⟩, Products := ⟨[]⟩ }
    err := none }

/-! ## The line a record was built from -/

/-- The line `e.2` of `L`, read in the context `e.1`, is the line at which the
address `a` of a heap was allocated: `a` is the size of that heap in the state
the lines before `e.2` have built. -/
def AllocatedAt (m : Memory) (db : PCIDB) (L : List String) (size : Memory → Nat) (a : Addr)
    (e : Ctx × String) : Prop :=
  ∃ pre post s0, L = pre ++ e.2 :: post ∧ e.1 = ctxAfter Ctx.init pre ∧
    run (initState m db) pre = some s0 ∧ size s0.mem = a

/-- The Class record `c` at the address `a` is the one built from the line at
which `a` was allocated, a Class header: `c` has its id field and, as Name, its
text from column 6 to the end. -/
def classBuiltAt (m : Memory) (db : PCIDB) (L : List String) (a : Addr) (c : PCIClass) : Prop :=
  ∃ e, AllocatedAt m db L (fun x => x.classes.length) a e ∧ lineKind e.2 = .classHeader ∧
    c.Id = cols 2 4 e.2 ∧ c.Name = colsFrom 6 e.2

/-- The Subclass record `c` at the address `a` is the one built from the line at
which `a` was allocated, a Subclass line: `c` has its id field and, as Name, its
text from column 5 to the end. -/
def subclassBuiltAt (m : Memory) (db : PCIDB) (L : List String) (a : Addr) (c : PCISubclass) :
    Prop :=
  ∃ e, AllocatedAt m db L (fun x => x.subclasses.length) a e ∧ isSubclassLine e = true ∧
    c.Id = cols 1 3 e.2 ∧ c.Name = colsFrom 5 e.2

/-- The ProgrammingInterface record `c` at the address `a` is the one built from
the line at which `a` was allocated, a ProgrammingInterface line: `c` has its id
field and, as Name, its text from column 6 to the end. -/
def progIfaceBuiltAt (m : Memory) (db : PCIDB) (L : List String) (a : Addr)
    (c : PCIProgrammingInterface) : Prop :=
  ∃ e, AllocatedAt m db L (fun x => x.progIfaces.length) a e ∧ isProgIfaceLine e = true ∧
    c.Id = cols 2 4 e.2 ∧ c.Name = colsFrom 6 e.2

/-- The Vendor record `c` at the address `a` is the one built from the line at
which `a` was allocated, a Vendor header: `c` has its id field and, as Name, its
text from column 6 to the end. -/
def vendorBuiltAt (m : Memory) (db : PCIDB) (L : List String) (a : Addr) (c : PCIVendor) :
    Prop :=
  ∃ e, AllocatedAt m db L (fun x => x.vendors.length) a e ∧ lineKind e.2 = .vendorHeader ∧
    c.Id = cols 0 4 e.2 ∧ c.Name = colsFrom 6 e.2

/-- The record `p` at the address `a` of the Product heap is the Product built
from the line at which `a` was allocated, a Product line: `p` has the id of the
most recent Vendor header as VendorId, the id field of the line and, as Name, its
text from column 7 to the end. -/
def productBuiltAt (m : Memory) (db : PCIDB) (L : List String) (a : Addr) (p : PCIProduct) :
    Prop :=
  ∃ e, AllocatedAt m db L (fun x => x.products.length) a e ∧ isProductLine e = true ∧
    e.1.vendor = some p.VendorId ∧ p.Id = cols 1 5 e.2 ∧ p.Name = colsFrom 7 e.2

/-- The record `p` at the address `a` of the Product heap is the Subsystem built
from the line at which `a` was allocated, a Subsystem line: `p` has its two id
fields and, as Name, its text from column 13 to the end. -/
def subsystemBuiltAt (m : Memory) (db : PCIDB) (L : List String) (a : Addr) (p : PCIProduct) :
    Prop :=
  ∃ e, AllocatedAt m db L (fun x => x.products.length) a e ∧ isSubsystemLine e = true ∧
    p.VendorId = cols 2 6 e.2 ∧ p.Id = cols 7 11 e.2 ∧ p.Name = colsFrom 13 e.2

/-- Every record the Database leads to satisfies, with its address, the predicate
of its kind: the Classes of `Classes` with their Subclasses and the
ProgrammingInterfaces of those, the Vendors of `Vendors` with their Products and
the Subsystems of those, the Products of `Products` with their Subsystems. -/
def ParseResult.eachStored (r : ParseResult) (Pc : Addr → PCIClass → Prop)
    (Ps : Addr → PCISubclass → Prop) (Pi : Addr → PCIProgrammingInterface → Prop)
    (Pv : Addr → PCIVendor → Prop) (Pp : Addr → PCIProduct → Prop)
    (Pq : Addr → PCIProduct → Prop) : Prop :=
  (∀ (k : String) (a : Addr) (c : PCIClass),
    r.db.Classes.lookup k = some a → r.mem.classes[a]? = some c → Pc a c ∧
    ∀ x ∈ c.Subclasses, ∀ (sc : PCISubclass), r.mem.subclasses[x]? = some sc → Ps x sc ∧
      ∀ y ∈ sc.ProgrammingInterfaces, ∀ (pi : PCIProgrammingInterface),
        r.mem.progIfaces[y]? = some pi → Pi y pi) ∧
  (∀ (k : String) (a : Addr) (v : PCIVendor),
    r.db.Vendors.lookup k = some a → r.mem.vendors[a]? = some v → Pv a v ∧
    ∀ x ∈ v.Products, ∀ (p : PCIProduct), r.mem.products[x]? = some p → Pp x p ∧
      ∀ y ∈ p.Subsystems, ∀ (q : PCIProduct), r.mem.products[y]? = some q → Pq y q) ∧
  (∀ (k : String) (a : Addr) (p : PCIProduct),
    r.db.Products.lookup k = some a → r.mem.products[a]? = some p → Pp a p ∧
    ∀ y ∈ p.Subsystems, ∀ (q : PCIProduct), r.mem.products[y]? = some q → Pq y q)

/-- Every record allocated since the prior memory `m` is the one built from the
line at which its address was allocated, and every pointer to the Product heap
points to a record of the kind its holder expects: the Vendor accumulator, the
Vendors and `Products` to Products, the Subsystem accumulator and the Products to
Subsystems. -/
structure Origin (m : Memory) (db : PCIDB) (pre : List String) (s : ParserState) : Prop where
  trace : run (initState m db) pre = some s
  classes : ∀ (a : Addr) (c : PCIClass), s.mem.classes[a]? = some c →
    m.classes.length ≤ a → classBuiltAt m db pre a c
  subclasses : ∀ (a : Addr) (c : PCISubclass), s.mem.subclasses[a]? = some c →
    m.subclasses.length ≤ a → subclassBuiltAt m db pre a c
  progIfaces : ∀ (a : Addr) (c : PCIProgrammingInterface), s.mem.progIfaces[a]? = some c →
    m.progIfaces.length ≤ a → progIfaceBuiltAt m db pre a c
  vendors : ∀ (a : Addr) (c : PCIVendor), s.mem.vendors[a]? = some c →
    m.vendors.length ≤ a → vendorBuiltAt m db pre a c
  vendorProducts : ∀ x ∈ s.vendorProducts,
    ∃ p, s.mem.products[x]? = some p ∧ productBuiltAt m db pre x p
  productSubsystems : ∀ x ∈ s.productSubsystems,
    ∃ p, s.mem.products[x]? = some p ∧ subsystemBuiltAt m db pre x p
  productsOf : ∀ (a : Addr) (v : PCIVendor), s.mem.vendors[a]? = some v →
    m.vendors.length ≤ a →
    ∀ x ∈ v.Products, ∃ p, s.mem.products[x]? = some p ∧ productBuiltAt m db pre x p
  subsystemsOf : ∀ (a : Addr) (p : PCIProduct), s.mem.products[a]? = some p →
    m.products.length ≤ a →
    ∀ y ∈ p.Subsystems, ∃ q, s.mem.products[y]? = some q ∧ subsystemBuiltAt m db pre y q
  productMap : ∀ (k : String) (a : Addr), s.db.Products.lookup k = some a →
    ∃ p, s.mem.products[a]? = some p ∧ productBuiltAt m db pre a p

/-- Two Class blocks and two Vendor blocks in which the name fields of the first
block of each kind are wider than the names: three spaces after the id, one after
the name. -/
def paddedFileLines : List String :=
  ["C 02   Network ",
   "\t00   Ethernet ",
   "\t\t00   Interface A ",
   "\t01  Other",
   "C 03  Display",
   "0a89   Vendor A ",
   "\t0001   Widget ",
   "\t\t0a89 0010   Widget Pro ",
   "\t0002  Gadget",
   "0b00  Vendor B"]

/-- What the parse of `paddedFileLines` returns. -/
def paddedFileResult : ParseResult :=
  { mem :=
      { classes :=
          [{ Id := "02", Name := " Network ", Subclasses := [0, 1] },
           { Id := "03", Name := "Display", Subclasses := [] }]
        subclasses :=
          [{ Id := "00", Name := " Ethernet ", ProgrammingInterfaces := [0] },
           { Id := "01", Name := "Other", ProgrammingInterfaces := [] }]
        progIfaces := [{ Id := "00", Name := " Interface A " }]
        vendors :=
          [{ Id := "0a89", Name := " Vendor A ", Products := [0, 2] },
           { Id := "0b00", Name := "Vendor B", Products := [] }]
        products :=
          [{ VendorId := "0a89", Id := "0001", Name := " Widget ", Subsystems := [1] },
           { VendorId := "0a89", Id := "0010", Name := " Widget Pro ", Subsystems := [] },
           { VendorId := "0a89", Id := "0002", Name := "Gadget", Subsystems := [] }] }
    db :=
      { Classes := ⟨[("03", 1), ("02", 0)]⟩
        Vendors := ⟨[("0b00", 1), ("0a89", 0)]⟩
        Products := ⟨[("0a890002", 2), ("0a890001", 0)]⟩ }
    err := none }

/-- A file system whose first candidate path holds a Vendor header followed by a
one-tab line of four characters. -/
def shortFile : FileSystem :=
  { stat := fun p => p = "/usr/share/hwdata/pci.ids"
    openFile := fun p => if p = "/usr/share/hwdata/pci.ids" then some shortLineLines else none }

/-! ## Theorems -/

theorem slice_eq_some {lb : List Char} {lo hi : Nat} {x : String} (h : slice lb lo hi = some x) :
    hi ≤ lb.length ∧ x = String.mk ((lb.drop lo).take (hi - lo)) := by
  unfold slice at h
  split at h
  · exact ⟨by assumption, by simpa using h.symm⟩
  · simp at h

theorem sliceFrom_eq_some {lb : List Char} {lo : Nat} {x : String} (h : sliceFrom lb lo = some x) :
    lo ≤ lb.length ∧ x = String.mk (lb.drop lo) := by
  unfold sliceFrom at h
  split at h
  · exact ⟨by assumption, by simpa using h.symm⟩
  · simp at h

theorem step_eq (s : ParserState) (l : String) :
    step s l = match lineKind l with
      | .blank => some s
      | .classHeader => classHeader s l.data
      | .vendorHeader => vendorHeader s l.data
      | .oneTab => if s.inClassBlock then subclassEntry s l.data else productEntry s l.data
      | .tabs => if s.inClassBlock then progIfaceLeaf s l.data else subsystemLeaf s l.data := by
  unfold step lineKind
  cases h : l.data with
  | nil => simp
  | cons c0 rest =>
    simp only
    by_cases h1 : c0 = '#'
    · simp [h1]
    · by_cases h2 : c0 = 'C'
      · simp [h1, h2]
      · by_cases h3 : c0 = '\t'
        · cases rest with
          | nil => simp [h1, h2, h3]
          | cons c1 r2 =>
            by_cases h4 : c1 = '\t'
            · simp [h1, h2, h3, h4]
            · simp [h1, h2, h3, h4]
        · simp [h1, h2, h3]

/-! ### Maps -/

theorem GoMap.lookup_empty (k : String) : GoMap.empty.lookup k = none := rfl

theorem GoMap.lookup_store (m : GoMap) (k k' : String) (v : Addr) :
    (m.store k v).lookup k' = if k = k' then some v else m.lookup k' := by
  unfold GoMap.lookup GoMap.store
  by_cases h : k = k'
  · simp [h]
  · simp only [h, if_false]
    rw [List.find?_cons_of_neg _ (by simpa using h)]
    congr 1
    induction m.entries with
    | nil => rfl
    | cons e es ih =>
      by_cases h1 : e.1 = k
      · have h2 : ¬ e.1 = k' := fun h3 => h (h1.symm.trans h3)
        have h1b : (e.1 != k) = false := by simp [h1]
        have h2b : (e.1 == k') = false := by simpa using h2
        rw [List.filter_cons, h1b, List.find?_cons, h2b]
        simpa using ih
      · have h1b : (e.1 != k) = true := by simpa using h1
        rw [List.filter_cons, h1b]
        simp only [if_true, List.find?_cons]
        cases (e.1 == k')
        · simpa using ih
        · rfl

theorem GoMap.mem_keys_store (m : GoMap) (k k' : String) (v : Addr) :
    k' ∈ (m.store k v).keys ↔ k' = k ∨ k' ∈ m.keys := by
  unfold GoMap.keys GoMap.store
  simp only [List.map_cons, List.mem_cons, List.mem_map, List.mem_filter]
  constructor
  · rintro (h | ⟨e, ⟨he, _⟩, rfl⟩)
    · exact Or.inl h
    · exact Or.inr ⟨e, he, rfl⟩
  · rintro (h | ⟨e, he, rfl⟩)
    · exact Or.inl h
    · by_cases h1 : e.1 = k
      · exact Or.inl h1
      · exact Or.inr ⟨e, ⟨he, by simpa using h1⟩, rfl⟩

theorem GoMap.nodup_keys_store (m : GoMap) (k : String) (v : Addr) (h : m.keys.Nodup) :
    (m.store k v).keys.Nodup := by
  unfold GoMap.keys GoMap.store at *
  simp only [List.map_cons, List.nodup_cons, List.mem_map, List.mem_filter]
  refine ⟨?_, ?_⟩
  · rintro ⟨e, ⟨_, he⟩, rfl⟩
    simp at he
  · exact (List.Nodup.sublist ((List.filter_sublist _).map _) h)

theorem GoMap.lookup_eq_none_iff (m : GoMap) (k : String) :
    m.lookup k = none ↔ k ∉ m.keys := by
  unfold GoMap.lookup GoMap.keys
  simp only [Option.map_eq_none', List.find?_eq_none, List.mem_map, not_exists, not_and]
  constructor
  · intro h e he hk
    exact h e he (by simpa using hk)
  · intro h e he hk
    exact h e he (by simpa using hk)

theorem GoMap.mem_keys_of_lookup {m : GoMap} {k : String} {a : Addr} (h : m.lookup k = some a) :
    k ∈ m.keys := by
  by_contra hk
  rw [(GoMap.lookup_eq_none_iff m k).2 hk] at h
  cases h

theorem GoMap.lookup_of_mem_keys {m : GoMap} {k : String} (h : k ∈ m.keys) :
    ∃ a, m.lookup k = some a := by
  cases hl : m.lookup k with
  | none => exact absurd h ((GoMap.lookup_eq_none_iff m k).1 hl)
  | some a => exact ⟨a, rfl⟩

/-! ### One step of the loop -/

theorem step_cases {s s' : ParserState} {l : String} (h : step s l = some s') :
    (lineKind l = .blank ∧ s' = s) ∨
    (lineKind l = .classHeader ∧ 6 ≤ l.length ∧
      s' = openClass (finalizeClass s) (cols 2 4 l) (colsFrom 6 l)) ∨
    (lineKind l = .vendorHeader ∧ 6 ≤ l.length ∧
      s' = openVendor (finalizeVendor s) (cols 0 4 l) (colsFrom 6 l)) ∨
    (lineKind l = .oneTab ∧ s.inClassBlock = true ∧ 5 ≤ l.length ∧
      s' = openSubclass (finalizeSubclass s) (cols 1 3 l) (colsFrom 5 l)) ∨
    (lineKind l = .oneTab ∧ s.inClassBlock = false ∧ 7 ≤ l.length ∧
      ∃ a v, s.curVendor = some a ∧ s.mem.vendors[a]? = some v ∧
        s' = openProduct (finalizeProduct s) v.Id (cols 1 5 l) (colsFrom 7 l)) ∨
    (lineKind l = .tabs ∧ s.inClassBlock = true ∧ 6 ≤ l.length ∧
      s' = addProgIface s (cols 2 4 l) (colsFrom 6 l)) ∨
    (lineKind l = .tabs ∧ s.inClassBlock = false ∧ 13 ≤ l.length ∧
      s' = addSubsystem s (cols 2 6 l) (cols 7 11 l) (colsFrom 13 l)) := by
  rw [step_eq] at h
  cases hk : lineKind l <;> simp only [hk] at h
  · left; exact ⟨rfl, by simpa using h.symm⟩
  · right; left
    simp only [classHeader, Option.bind_eq_some] at h
    obtain ⟨x, hx, y, hy, h⟩ := h
    obtain ⟨-, rfl⟩ := slice_eq_some hx
    obtain ⟨hlen, rfl⟩ := sliceFrom_eq_some hy
    exact ⟨rfl, hlen, by simpa [cols, colsFrom] using h.symm⟩
  · right; right; left
    simp only [vendorHeader, Option.bind_eq_some] at h
    obtain ⟨x, hx, y, hy, h⟩ := h
    obtain ⟨-, rfl⟩ := slice_eq_some hx
    obtain ⟨hlen, rfl⟩ := sliceFrom_eq_some hy
    exact ⟨rfl, hlen, by simpa [cols, colsFrom] using h.symm⟩
  · cases hb : s.inClassBlock <;> simp only [hb] at h
    · right; right; right; right; left
      simp only [Bool.false_eq_true, if_false, productEntry, Option.bind_eq_some] at h
      obtain ⟨x, hx, y, hy, v, ⟨a, ha, hv⟩, h⟩ := h
      obtain ⟨-, rfl⟩ := slice_eq_some hx
      obtain ⟨hlen, rfl⟩ := sliceFrom_eq_some hy
      refine ⟨rfl, rfl, hlen, a, v, ?_, ?_, by simpa [cols, colsFrom] using h.symm⟩
      · unfold finalizeProduct at ha
        split at ha <;> simpa using ha
      · unfold finalizeProduct at hv
        split at hv <;> simpa using hv
    · right; right; right; left
      simp only [if_true, subclassEntry, Option.bind_eq_some] at h
      obtain ⟨x, hx, y, hy, h⟩ := h
      obtain ⟨-, rfl⟩ := slice_eq_some hx
      obtain ⟨hlen, rfl⟩ := sliceFrom_eq_some hy
      exact ⟨rfl, rfl, hlen, by simpa [cols, colsFrom] using h.symm⟩
  · cases hb : s.inClassBlock <;> simp only [hb] at h
    · right; right; right; right; right; right
      simp only [Bool.false_eq_true, if_false, subsystemLeaf, Option.bind_eq_some] at h
      obtain ⟨x, hx, y, hy, z, hz, h⟩ := h
      obtain ⟨-, rfl⟩ := slice_eq_some hx
      obtain ⟨-, rfl⟩ := slice_eq_some hy
      obtain ⟨hlen, rfl⟩ := sliceFrom_eq_some hz
      exact ⟨rfl, rfl, hlen, by simpa [cols, colsFrom] using h.symm⟩
    · right; right; right; right; right; left
      simp only [if_true, progIfaceLeaf, Option.bind_eq_some] at h
      obtain ⟨x, hx, y, hy, h⟩ := h
      obtain ⟨-, rfl⟩ := slice_eq_some hx
      obtain ⟨hlen, rfl⟩ := sliceFrom_eq_some hy
      exact ⟨rfl, rfl, hlen, by simpa [cols, colsFrom] using h.symm⟩

/-! ### Runs -/

theorem run_append (s : ParserState) (xs ys : List String) :
    run s (xs ++ ys) = (run s xs).bind fun s1 => run s1 ys := by
  induction xs generalizing s with
  | nil => simp [run]
  | cons x xs ih =>
    simp only [List.cons_append, run]
    cases step s x with
    | none => simp
    | some s1 => simpa using ih s1

theorem run_append_eq_some {s s' : ParserState} {xs ys : List String}
    (h : run s (xs ++ ys) = some s') : ∃ s1, run s xs = some s1 ∧ run s1 ys = some s' := by
  rw [run_append] at h
  cases h1 : run s xs with
  | none => simp [h1] at h
  | some s1 => exact ⟨s1, rfl, by simpa [h1] using h⟩

theorem run_cons_eq_some {s s' : ParserState} {x : String} {xs : List String}
    (h : run s (x :: xs) = some s') : ∃ s1, step s x = some s1 ∧ run s1 xs = some s' := by
  simp only [run] at h
  cases h1 : step s x with
  | none => simp [h1] at h
  | some s1 => exact ⟨s1, rfl, by simpa [h1] using h⟩

theorem parse_eq_some {m : Memory} {db : PCIDB} {lines : List String} {r : ParseResult}
    (h : parsePCIIdsFile m db lines = some r) :
    ∃ s, run (initState m db) lines = some s ∧ r = { mem := s.mem, db := s.db, err := none } := by
  unfold parsePCIIdsFile at h
  cases h1 : run (initState m db) lines with
  | none => simp [h1] at h
  | some s => exact ⟨s, rfl, by simpa [h1] using h.symm⟩

/-- An invariant that every step on a line of `ls` keeps, holds after the run. -/
theorem run_invariant {P : ParserState → Prop} {ls : List String}
    (hstep : ∀ s l s', l ∈ ls → P s → step s l = some s' → P s') :
    ∀ {s s'}, P s → run s ls = some s' → P s' := by
  induction ls with
  | nil => intro s s' hP h; simp only [run, Option.some.injEq] at h; exact h ▸ hP
  | cons x xs ih =>
    intro s s' hP h
    obtain ⟨s1, h1, h2⟩ := run_cons_eq_some h
    exact ih (fun s l s' hl => hstep s l s' (List.mem_cons_of_mem _ hl))
      (hstep s x s1 (List.mem_cons_self _ _) hP h1) h2

/-- An invariant relating the state to the context, kept by every step. -/
theorem run_ctx {R : Ctx → ParserState → Prop}
    (hstep : ∀ c s l s', R c s → step s l = some s' → R (c.read l) s') :
    ∀ (ls : List String) {c s s'}, R c s → run s ls = some s' → R (ctxAfter c ls) s' := by
  intro ls
  induction ls with
  | nil => intro c s s' hR h; simp only [run, Option.some.injEq] at h; exact h ▸ hR
  | cons x xs ih =>
    intro c s s' hR h
    obtain ⟨s1, h1, h2⟩ := run_cons_eq_some h
    exact ih (hstep c s x s1 hR h1) h2

/-! ### Contexts -/

theorem ctxAfter_append (c : Ctx) (xs ys : List String) :
    ctxAfter c (xs ++ ys) = ctxAfter (ctxAfter c xs) ys := by
  simp [ctxAfter, List.foldl_append]

theorem ctxAfter_cons (c : Ctx) (x : String) (xs : List String) :
    ctxAfter c (x :: xs) = ctxAfter (c.read x) xs := rfl

theorem annotate_append (c : Ctx) (xs ys : List String) :
    annotate c (xs ++ ys) = annotate c xs ++ annotate (ctxAfter c xs) ys := by
  induction xs generalizing c with
  | nil => rfl
  | cons x xs ih => simp [annotate, ih, ctxAfter_cons]

theorem length_cols {lo hi : Nat} {l : String} (h : hi ≤ l.length) (hlo : lo ≤ hi) :
    (cols lo hi l).length = hi - lo := by
  simp only [cols, String.length, List.length_take, List.length_drop]
  simp only [String.length] at h
  omega

/-! ### The link between the state and the context -/

theorem link_init (m : Memory) (db : PCIDB) : Link Ctx.init (initState m db) :=
  ⟨rfl, fun _ => rfl, fun v h => by simp [Ctx.init] at h, fun v h => by simp [Ctx.init] at h⟩

theorem link_step {c : Ctx} {s s' : ParserState} {l : String} (hL : Link c s)
    (h : step s l = some s') : Link (c.read l) s' := by
  obtain ⟨hm, hn, hs, hw⟩ := hL
  rcases step_cases h with ⟨hk, rfl⟩ | ⟨hk, hlen, rfl⟩ | ⟨hk, hlen, rfl⟩ | ⟨hk, hb, hlen, rfl⟩ |
    ⟨hk, hb, hlen, a, v, ha, hv, rfl⟩ | ⟨hk, hb, hlen, rfl⟩ | ⟨hk, hb, hlen, rfl⟩
  · simp only [Ctx.read, hk]; exact ⟨hm, hn, hs, hw⟩
  · simp only [Ctx.read, hk]
    refine ⟨rfl, ?_, ?_, hw⟩
    · intro h0; have := hn h0
      simp only [openClass, finalizeClass]; split <;> simpa using this
    · intro v h0; obtain ⟨a, cell, h1, h2, h3⟩ := hs v h0
      refine ⟨a, cell, ?_, ?_, h3⟩
      · simp only [openClass, finalizeClass]; split <;> simpa using h1
      · simp only [openClass, finalizeClass]; split <;> simpa using h2
  · simp only [Ctx.read, hk]
    refine ⟨rfl, fun h0 => by simp at h0, ?_, ?_⟩
    · intro v h0
      simp only [Option.some.injEq] at h0
      subst h0
      simp only [openVendor, finalizeVendor]
      split <;> simp
    · intro v h0
      simp only [Option.some.injEq] at h0
      subst h0
      exact length_cols (by omega) (by omega)
  · simp only [Ctx.read, hk]
    refine ⟨?_, ?_, ?_, hw⟩
    · simp only [openSubclass, finalizeSubclass]; split <;> simpa using hm
    · intro h0; have := hn h0
      simp only [openSubclass, finalizeSubclass]; split <;> simpa using this
    · intro v h0; obtain ⟨a, cell, h1, h2, h3⟩ := hs v h0
      refine ⟨a, cell, ?_, ?_, h3⟩
      · simp only [openSubclass, finalizeSubclass]; split <;> simpa using h1
      · simp only [openSubclass, finalizeSubclass]; split <;> simpa using h2
  · simp only [Ctx.read, hk]
    refine ⟨?_, ?_, ?_, hw⟩
    · simp only [openProduct, finalizeProduct]; split <;> simpa using hm
    · intro h0; have := hn h0
      simp only [openProduct, finalizeProduct]; split <;> simpa using this
    · intro v h0; obtain ⟨a, cell, h1, h2, h3⟩ := hs v h0
      refine ⟨a, cell, ?_, ?_, h3⟩
      · simp only [openProduct, finalizeProduct]; split <;> simpa using h1
      · simp only [openProduct, finalizeProduct]; split <;> simpa using h2
  · simp only [Ctx.read, hk]
    exact ⟨hm, hn, hs, hw⟩
  · simp only [Ctx.read, hk]
    exact ⟨hm, hn, hs, hw⟩

theorem link_run {c : Ctx} {s s' : ParserState} (ls : List String) (hL : Link c s)
    (h : run s ls = some s') : Link (ctxAfter c ls) s' :=
  run_ctx (fun _ _ _ _ hR hs => link_step hR hs) ls hL h

theorem run_ghost {R : List String → ParserState → Prop}
    (hstep : ∀ pre s l s', R pre s → step s l = some s' → R (pre ++ [l]) s') :
    ∀ (ls pre : List String) {s s'}, R pre s → run s ls = some s' → R (pre ++ ls) s' := by
  intro ls
  induction ls with
  | nil => intro pre s s' hR h; simp only [run, Option.some.injEq] at h; simpa using h ▸ hR
  | cons x xs ih =>
    intro pre s s' hR h
    obtain ⟨s1, h1, h2⟩ := run_cons_eq_some h
    have := ih (pre ++ [x]) (hstep pre s x s1 hR h1) h2
    simpa using this

/-! ### Kinds of lines -/

theorem firstChar_C_iff (l : String) : firstChar l = some 'C' ↔ lineKind l = .classHeader := by
  unfold firstChar lineKind
  cases l.data with
  | nil => simp
  | cons c0 rest =>
    by_cases h1 : c0 = '#'
    · simp [h1]
    · by_cases h2 : c0 = 'C'
      · simp [h2]
      · by_cases h3 : c0 = '\t'
        · cases rest with
          | nil => simp [h3]
          | cons c1 r => by_cases h4 : c1 = '\t' <;> simp [h3, h4]
        · simp [h1, h2, h3]

theorem vendorLine_iff (l : String) :
    (l ≠ "" ∧ firstChar l ≠ some '#' ∧ firstChar l ≠ some 'C' ∧ firstChar l ≠ some '\t') ↔
      lineKind l = .vendorHeader := by
  have hne : l ≠ "" ↔ l.data ≠ [] := by
    constructor
    · intro h h1; exact h (by cases l; simp_all)
    · intro h h1; exact h (by simp [h1])
  rw [hne]
  unfold firstChar lineKind
  cases l.data with
  | nil => simp
  | cons c0 rest =>
    by_cases h1 : c0 = '#'
    · simp [h1]
    · by_cases h2 : c0 = 'C'
      · simp [h2]
      · by_cases h3 : c0 = '\t'
        · cases rest with
          | nil => simp [h3]
          | cons c1 r => by_cases h4 : c1 = '\t' <;> simp [h3, h4]
        · simp [h1, h2, h3]

theorem classIds_snoc (pre : List String) (l : String) :
    classIds (pre ++ [l]) =
      classIds pre ++ (if lineKind l = .classHeader then [cols 2 4 l] else []) := by
  unfold classIds
  by_cases h : lineKind l = .classHeader
  · simp [List.filter_append, List.filter_cons, (firstChar_C_iff l).2 h, h]
  · have : ¬ firstChar l = some 'C' := fun h1 => h ((firstChar_C_iff l).1 h1)
    simp [List.filter_append, List.filter_cons, this, h]

theorem vendorIds_snoc (pre : List String) (l : String) :
    vendorIds (pre ++ [l]) =
      vendorIds pre ++ (if lineKind l = .vendorHeader then [cols 0 4 l] else []) := by
  unfold vendorIds
  by_cases h : lineKind l = .vendorHeader
  · have h1 := (vendorLine_iff l).2 h
    rw [List.filter_append, List.filter_cons, if_pos (by simpa using h1)]
    simp [h]
  · have h1 : ¬ _ := fun h1 => h ((vendorLine_iff l).1 h1)
    rw [List.filter_append, List.filter_cons, if_neg (by simpa using h1)]
    simp [h]

/-! ### Frames: what a step leaves alone -/

/-- A line that is not a Class header leaves the Class heap, the `Classes` map
and `curClass` alone. -/
theorem step_class_frame {s s' : ParserState} {l : String} (h : step s l = some s')
    (hk : lineKind l ≠ .classHeader) :
    s'.mem.classes = s.mem.classes ∧ s'.db.Classes = s.db.Classes ∧ s'.curClass = s.curClass := by
  rcases step_cases h with ⟨_, rfl⟩ | ⟨hk1, _, rfl⟩ | ⟨_, _, rfl⟩ | ⟨_, _, _, rfl⟩ |
    ⟨_, _, _, a, v, _, _, rfl⟩ | ⟨_, _, _, rfl⟩ | ⟨_, _, _, rfl⟩
  · exact ⟨rfl, rfl, rfl⟩
  · exact absurd hk1 hk
  · simp only [openVendor, finalizeVendor]; split <;> simp
  · simp only [openSubclass, finalizeSubclass]; split <;> simp
  · simp only [openProduct, finalizeProduct]; split <;> simp
  · simp [addProgIface]
  · simp [addSubsystem]

/-- A line that is not a Vendor header leaves the Vendor heap, the `Vendors` map
and `curVendor` alone. -/
theorem step_vendor_frame {s s' : ParserState} {l : String} (h : step s l = some s')
    (hk : lineKind l ≠ .vendorHeader) :
    s'.mem.vendors = s.mem.vendors ∧ s'.db.Vendors = s.db.Vendors ∧ s'.curVendor = s.curVendor := by
  rcases step_cases h with ⟨_, rfl⟩ | ⟨_, _, rfl⟩ | ⟨hk1, _, rfl⟩ | ⟨_, _, _, rfl⟩ |
    ⟨_, _, _, a, v, _, _, rfl⟩ | ⟨_, _, _, rfl⟩ | ⟨_, _, _, rfl⟩
  · exact ⟨rfl, rfl, rfl⟩
  · simp only [openClass, finalizeClass]; split <;> simp
  · exact absurd hk1 hk
  · simp only [openSubclass, finalizeSubclass]; split <;> simp
  · simp only [openProduct, finalizeProduct]; split <;> simp
  · simp [addProgIface]
  · simp [addSubsystem]

/-- The Class heap after the finalize of a Class header. -/
theorem getElem?_finalizeClass (s : ParserState) (a : Addr) :
    (finalizeClass s).mem.classes[a]? =
      if s.curClass = some a then
        (s.mem.classes[a]?).map fun c => { c with Subclasses := s.subclasses }
      else s.mem.classes[a]? := by
  unfold finalizeClass
  cases hc : s.curClass with
  | none => simp
  | some b =>
    by_cases hb : b = a
    · subst hb; simp
    · simp [List.getElem?_modify, hb]

theorem length_finalizeClass (s : ParserState) :
    (finalizeClass s).mem.classes.length = s.mem.classes.length := by
  unfold finalizeClass; split <;> simp

/-- The Vendor heap after the finalize of a Vendor header. -/
theorem getElem?_finalizeVendor (s : ParserState) (a : Addr) :
    (finalizeVendor s).mem.vendors[a]? =
      if s.curVendor = some a then
        (s.mem.vendors[a]?).map fun c => { c with Products := s.vendorProducts }
      else s.mem.vendors[a]? := by
  unfold finalizeVendor
  cases hc : s.curVendor with
  | none => simp
  | some b =>
    by_cases hb : b = a
    · subst hb; simp
    · simp [List.getElem?_modify, hb]

theorem length_finalizeVendor (s : ParserState) :
    (finalizeVendor s).mem.vendors.length = s.mem.vendors.length := by
  unfold finalizeVendor; split <;> simp

theorem classId_finalizeClass {s : ParserState} {a : Addr} {c : PCIClass}
    (h : s.mem.classes[a]? = some c) :
    ∃ c', (finalizeClass s).mem.classes[a]? = some c' ∧ c'.Id = c.Id ∧ c'.Name = c.Name := by
  rw [getElem?_finalizeClass]
  split
  · exact ⟨{ c with Subclasses := s.subclasses }, by rw [h]; rfl, rfl, rfl⟩
  · exact ⟨c, h, rfl, rfl⟩

theorem vendorId_finalizeVendor {s : ParserState} {a : Addr} {c : PCIVendor}
    (h : s.mem.vendors[a]? = some c) :
    ∃ c', (finalizeVendor s).mem.vendors[a]? = some c' ∧ c'.Id = c.Id ∧ c'.Name = c.Name := by
  rw [getElem?_finalizeVendor]
  split
  · exact ⟨{ c with Products := s.vendorProducts }, by rw [h]; rfl, rfl, rfl⟩
  · exact ⟨c, h, rfl, rfl⟩

theorem lt_length_of_getElem? {α : Type} {h : List α} {a : Nat} {x : α} (hx : h[a]? = some x) :
    a < h.length := by
  by_contra hlt
  rw [List.getElem?_eq_none (by omega)] at hx
  cases hx

theorem keysInv_init (m : Memory) (db : PCIDB) : KeysInv [] (initState m db) where
  classKeys := by intro k; simp [initState, GoMap.empty, GoMap.keys, classIds]
  classNodup := by simp [initState, GoMap.empty, GoMap.keys]
  classCell := by intro k a h; simp [initState, GoMap.empty, GoMap.lookup] at h
  vendorKeys := by intro k; simp [initState, GoMap.empty, GoMap.keys, vendorIds]
  vendorNodup := by simp [initState, GoMap.empty, GoMap.keys]
  vendorCell := by intro k a h; simp [initState, GoMap.empty, GoMap.lookup] at h

theorem keysInv_step {pre : List String} {s s' : ParserState} {l : String}
    (hI : KeysInv pre s) (h : step s l = some s') : KeysInv (pre ++ [l]) s' := by
  have hclass : lineKind l ≠ .classHeader →
      (∀ k, k ∈ s'.db.Classes.keys ↔ k ∈ classIds (pre ++ [l])) ∧ s'.db.Classes.keys.Nodup ∧
      (∀ k a, s'.db.Classes.lookup k = some a → ∃ c, s'.mem.classes[a]? = some c ∧ c.Id = k) := by
    intro hk
    obtain ⟨h1, h2, -⟩ := step_class_frame h hk
    rw [h1, h2, classIds_snoc, if_neg hk, List.append_nil]
    exact ⟨hI.classKeys, hI.classNodup, hI.classCell⟩
  have hvendor : lineKind l ≠ .vendorHeader →
      (∀ k, k ∈ s'.db.Vendors.keys ↔ k ∈ vendorIds (pre ++ [l])) ∧ s'.db.Vendors.keys.Nodup ∧
      (∀ k a, s'.db.Vendors.lookup k = some a → ∃ c, s'.mem.vendors[a]? = some c ∧ c.Id = k) := by
    intro hk
    obtain ⟨h1, h2, -⟩ := step_vendor_frame h hk
    rw [h1, h2, vendorIds_snoc, if_neg hk, List.append_nil]
    exact ⟨hI.vendorKeys, hI.vendorNodup, hI.vendorCell⟩
  by_cases hc : lineKind l = .classHeader
  · obtain ⟨hv1, hv2, hv3⟩ := hvendor (by rw [hc]; decide)
    refine ⟨?_, ?_, ?_, hv1, hv2, hv3⟩ <;>
      rcases step_cases h with ⟨hk, _⟩ | ⟨hk, hlen, rfl⟩ | ⟨hk, _⟩ | ⟨hk, _⟩ |
        ⟨hk, _⟩ | ⟨hk, _⟩ | ⟨hk, _⟩ <;> try (rw [hc] at hk; cases hk)
    · intro k
      rw [classIds_snoc, if_pos hc]
      simp only [openClass, GoMap.mem_keys_store, List.mem_append, List.mem_singleton]
      have : (finalizeClass s).db = s.db := by unfold finalizeClass; split <;> rfl
      rw [this, hI.classKeys k]
      tauto
    · simp only [openClass]
      have : (finalizeClass s).db = s.db := by unfold finalizeClass; split <;> rfl
      rw [this]
      exact GoMap.nodup_keys_store _ _ _ hI.classNodup
    · intro k a hka
      have hdb : (finalizeClass s).db = s.db := by unfold finalizeClass; split <;> rfl
      simp only [openClass, hdb, GoMap.lookup_store] at hka
      simp only [openClass]
      split at hka
      · rename_i hkk
        simp only [Option.some.injEq] at hka
        subst hka; subst hkk
        exact ⟨_, List.getElem?_concat_length _ _, rfl⟩
      · obtain ⟨c, hc1, hc2⟩ := hI.classCell k a hka
        obtain ⟨c', hc3, hc4, -⟩ := classId_finalizeClass hc1
        refine ⟨c', ?_, hc4.trans hc2⟩
        rw [List.getElem?_append_left (lt_length_of_getElem? hc3)]
        exact hc3
  · obtain ⟨hc1, hc2, hc3⟩ := hclass hc
    by_cases hv : lineKind l = .vendorHeader
    · refine ⟨hc1, hc2, hc3, ?_, ?_, ?_⟩ <;>
        rcases step_cases h with ⟨hk, _⟩ | ⟨hk, _⟩ | ⟨hk, hlen, rfl⟩ | ⟨hk, _⟩ |
          ⟨hk, _⟩ | ⟨hk, _⟩ | ⟨hk, _⟩ <;> try (rw [hv] at hk; cases hk)
      · intro k
        rw [vendorIds_snoc, if_pos hv]
        simp only [openVendor, GoMap.mem_keys_store, List.mem_append, List.mem_singleton]
        have : (finalizeVendor s).db = s.db := by unfold finalizeVendor; split <;> rfl
        rw [this, hI.vendorKeys k]
        tauto
      · simp only [openVendor]
        have : (finalizeVendor s).db = s.db := by unfold finalizeVendor; split <;> rfl
        rw [this]
        exact GoMap.nodup_keys_store _ _ _ hI.vendorNodup
      · intro k a hka
        have hdb : (finalizeVendor s).db = s.db := by unfold finalizeVendor; split <;> rfl
        simp only [openVendor, hdb, GoMap.lookup_store] at hka
        simp only [openVendor]
        split at hka
        · rename_i hkk
          simp only [Option.some.injEq] at hka
          subst hka; subst hkk
          exact ⟨_, List.getElem?_concat_length _ _, rfl⟩
        · obtain ⟨c, hc1, hc2⟩ := hI.vendorCell k a hka
          obtain ⟨c', hc3, hc4, -⟩ := vendorId_finalizeVendor hc1
          refine ⟨c', ?_, hc4.trans hc2⟩
          rw [List.getElem?_append_left (lt_length_of_getElem? hc3)]
          exact hc3
    · obtain ⟨hv1, hv2, hv3⟩ := hvendor hv
      exact ⟨hc1, hc2, hc3, hv1, hv2, hv3⟩

/-! ### Records keep their identifying fields -/

theorem ident_finalizeProduct {s : ParserState} {a : Addr} {p : PCIProduct}
    (h : s.mem.products[a]? = some p) :
    ∃ p', (finalizeProduct s).mem.products[a]? = some p' ∧ p'.ident = p.ident := by
  unfold finalizeProduct
  cases hc : s.curProduct with
  | none => exact ⟨p, h, rfl⟩
  | some b =>
    by_cases hb : b = a
    · subst hb
      exact ⟨{ p with Subsystems := s.productSubsystems }, by simp [h], rfl⟩
    · exact ⟨p, by simp [List.getElem?_modify, hb, h], rfl⟩

theorem ident_finalizeSubclass {s : ParserState} {a : Addr} {p : PCISubclass}
    (h : s.mem.subclasses[a]? = some p) :
    ∃ p', (finalizeSubclass s).mem.subclasses[a]? = some p' ∧ p'.ident = p.ident := by
  unfold finalizeSubclass
  cases hc : s.curSubclass with
  | none => exact ⟨p, h, rfl⟩
  | some b =>
    by_cases hb : b = a
    · subst hb
      exact ⟨{ p with ProgrammingInterfaces := s.progIfaces }, by simp [h], rfl⟩
    · exact ⟨p, by simp [List.getElem?_modify, hb, h], rfl⟩

/-- A step keeps VendorId, Id and Name of every Product record in memory. -/
theorem step_product_ident {s s' : ParserState} {l : String} (h : step s l = some s')
    {a : Addr} {p : PCIProduct} (hp : s.mem.products[a]? = some p) :
    ∃ p', s'.mem.products[a]? = some p' ∧ p'.ident = p.ident := by
  have hlt := lt_length_of_getElem? hp
  rcases step_cases h with ⟨_, rfl⟩ | ⟨_, _, rfl⟩ | ⟨_, _, rfl⟩ | ⟨_, _, _, rfl⟩ |
    ⟨_, _, _, b, v, _, _, rfl⟩ | ⟨_, _, _, rfl⟩ | ⟨_, _, _, rfl⟩
  · exact ⟨p, hp, rfl⟩
  · refine ⟨p, ?_, rfl⟩
    simp only [openClass, finalizeClass]; split <;> simpa using hp
  · refine ⟨p, ?_, rfl⟩
    simp only [openVendor, finalizeVendor]; split <;> simpa using hp
  · refine ⟨p, ?_, rfl⟩
    simp only [openSubclass, finalizeSubclass]; split <;> simpa using hp
  · obtain ⟨p', h1, h2⟩ := ident_finalizeProduct hp
    refine ⟨p', ?_, h2⟩
    simp only [openProduct]
    rw [List.getElem?_append_left (lt_length_of_getElem? h1)]
    exact h1
  · exact ⟨p, by simpa [addProgIface] using hp, rfl⟩
  · refine ⟨p, ?_, rfl⟩
    simp only [addSubsystem]
    rw [List.getElem?_append_left hlt]
    exact hp

/-- A step keeps Id and Name of every Subclass record in memory. -/
theorem step_subclass_ident {s s' : ParserState} {l : String} (h : step s l = some s')
    {a : Addr} {p : PCISubclass} (hp : s.mem.subclasses[a]? = some p) :
    ∃ p', s'.mem.subclasses[a]? = some p' ∧ p'.ident = p.ident := by
  rcases step_cases h with ⟨_, rfl⟩ | ⟨_, _, rfl⟩ | ⟨_, _, rfl⟩ | ⟨_, _, _, rfl⟩ |
    ⟨_, _, _, b, v, _, _, rfl⟩ | ⟨_, _, _, rfl⟩ | ⟨_, _, _, rfl⟩
  · exact ⟨p, hp, rfl⟩
  · refine ⟨p, ?_, rfl⟩
    simp only [openClass, finalizeClass]; split <;> simpa using hp
  · refine ⟨p, ?_, rfl⟩
    simp only [openVendor, finalizeVendor]; split <;> simpa using hp
  · obtain ⟨p', h1, h2⟩ := ident_finalizeSubclass hp
    refine ⟨p', ?_, h2⟩
    simp only [openSubclass]
    rw [List.getElem?_append_left (lt_length_of_getElem? h1)]
    exact h1
  · refine ⟨p, ?_, rfl⟩
    simp only [openProduct, finalizeProduct]; split <;> simpa using hp
  · exact ⟨p, by simpa [addProgIface] using hp, rfl⟩
  · exact ⟨p, by simpa [addSubsystem] using hp, rfl⟩

theorem run_product_ident {ls : List String} : ∀ {s s' : ParserState}, run s ls = some s' →
    ∀ {a : Addr} {p : PCIProduct}, s.mem.products[a]? = some p →
    ∃ p', s'.mem.products[a]? = some p' ∧ p'.ident = p.ident := by
  induction ls with
  | nil => intro s s' h a p hp; simp only [run, Option.some.injEq] at h; exact ⟨p, h ▸ hp, rfl⟩
  | cons x xs ih =>
    intro s s' h a p hp
    obtain ⟨s1, h1, h2⟩ := run_cons_eq_some h
    obtain ⟨p1, hp1, hi1⟩ := step_product_ident h1 hp
    obtain ⟨p2, hp2, hi2⟩ := ih h2 hp1
    exact ⟨p2, hp2, hi2.trans hi1⟩

theorem run_subclass_ident {ls : List String} : ∀ {s s' : ParserState}, run s ls = some s' →
    ∀ {a : Addr} {p : PCISubclass}, s.mem.subclasses[a]? = some p →
    ∃ p', s'.mem.subclasses[a]? = some p' ∧ p'.ident = p.ident := by
  induction ls with
  | nil => intro s s' h a p hp; simp only [run, Option.some.injEq] at h; exact ⟨p, h ▸ hp, rfl⟩
  | cons x xs ih =>
    intro s s' h a p hp
    obtain ⟨s1, h1, h2⟩ := run_cons_eq_some h
    obtain ⟨p1, hp1, hi1⟩ := step_subclass_ident h1 hp
    obtain ⟨p2, hp2, hi2⟩ := ih h2 hp1
    exact ⟨p2, hp2, hi2.trans hi1⟩

/-- A line that is not read as a Product line leaves the `Products` map and
`curProduct` alone. -/
theorem step_product_frame {s s' : ParserState} {l : String} (h : step s l = some s')
    (hk : ¬ (lineKind l = .oneTab ∧ s.inClassBlock = false)) :
    s'.db.Products = s.db.Products ∧ s'.curProduct = s.curProduct := by
  rcases step_cases h with ⟨_, rfl⟩ | ⟨_, _, rfl⟩ | ⟨_, _, rfl⟩ | ⟨_, _, _, rfl⟩ |
    ⟨hk1, hb, _, b, v, _, _, rfl⟩ | ⟨_, _, _, rfl⟩ | ⟨_, _, _, rfl⟩
  · exact ⟨rfl, rfl⟩
  · simp only [openClass, finalizeClass]; split <;> simp
  · simp only [openVendor, finalizeVendor]; split <;> simp
  · simp only [openSubclass, finalizeSubclass]; split <;> simp
  · exact absurd ⟨hk1, hb⟩ hk
  · simp [addProgIface]
  · simp [addSubsystem]

/-! ### Product lines and their keys -/

theorem productLines_append (c : Ctx) (xs ys : List String) :
    productLines c (xs ++ ys) = productLines c xs ++ productLines (ctxAfter c xs) ys := by
  simp [productLines, annotate_append]

theorem productLines_snoc (c : Ctx) (pre : List String) (l : String) :
    productLines c (pre ++ [l]) =
      productLines c pre ++
        (if isProductLine (ctxAfter c pre, l) then [(ctxAfter c pre, l)] else []) := by
  rw [productLines_append]
  simp [productLines, annotate, List.filter_cons]

theorem productLinesWithKey_snoc (k : String) (pre : List String) (l : String) :
    productLinesWithKey k (pre ++ [l]) =
      productLinesWithKey k pre ++
        (if isProductLine (ctxAfter Ctx.init pre, l) ∧
            productKeyOf (ctxAfter Ctx.init pre, l) = k
          then [(ctxAfter Ctx.init pre, l)] else []) := by
  unfold productLinesWithKey
  rw [productLines_snoc, List.filter_append]
  congr 1
  by_cases h1 : isProductLine (ctxAfter Ctx.init pre, l) = true
  · by_cases h2 : productKeyOf (ctxAfter Ctx.init pre, l) = k
    · simp [h1, h2, List.filter_cons]
    · simp [h1, h2, List.filter_cons]
  · simp [h1]

theorem string_append_inj {a b c d : String} (h : a ++ b = c ++ d) (hl : a.length = c.length) :
    a = c ∧ b = d := by
  have h1 : (a ++ b).data = (c ++ d).data := by rw [h]
  simp only [String.data_append] at h1
  obtain ⟨h2, h3⟩ := List.append_inj h1 hl
  exact ⟨String.ext h2, String.ext h3⟩

/-! ### A step on a line of known kind -/

theorem step_classHeader {s s' : ParserState} {l : String} (h : step s l = some s')
    (hk : lineKind l = .classHeader) :
    6 ≤ l.length ∧ s' = openClass (finalizeClass s) (cols 2 4 l) (colsFrom 6 l) := by
  rcases step_cases h with ⟨hk1, _⟩ | ⟨_, hlen, hs⟩ | ⟨hk1, _⟩ | ⟨hk1, _⟩ |
    ⟨hk1, _⟩ | ⟨hk1, _⟩ | ⟨hk1, _⟩ <;> first | exact ⟨hlen, hs⟩ | (rw [hk] at hk1; cases hk1)

theorem step_vendorHeader {s s' : ParserState} {l : String} (h : step s l = some s')
    (hk : lineKind l = .vendorHeader) :
    6 ≤ l.length ∧ s' = openVendor (finalizeVendor s) (cols 0 4 l) (colsFrom 6 l) := by
  rcases step_cases h with ⟨hk1, _⟩ | ⟨hk1, _⟩ | ⟨_, hlen, hs⟩ | ⟨hk1, _⟩ |
    ⟨hk1, _⟩ | ⟨hk1, _⟩ | ⟨hk1, _⟩ <;> first | exact ⟨hlen, hs⟩ | (rw [hk] at hk1; cases hk1)

theorem step_subclass {s s' : ParserState} {l : String} (h : step s l = some s')
    (hk : lineKind l = .oneTab) (hb : s.inClassBlock = true) :
    5 ≤ l.length ∧ s' = openSubclass (finalizeSubclass s) (cols 1 3 l) (colsFrom 5 l) := by
  rcases step_cases h with ⟨hk1, _⟩ | ⟨hk1, _⟩ | ⟨hk1, _⟩ | ⟨_, _, hlen, hs⟩ |
    ⟨_, hb1, _⟩ | ⟨hk1, _⟩ | ⟨hk1, _⟩ <;>
    first | exact ⟨hlen, hs⟩ | (rw [hk] at hk1; cases hk1) | (rw [hb] at hb1; cases hb1)

theorem step_product {s s' : ParserState} {l : String} (h : step s l = some s')
    (hk : lineKind l = .oneTab) (hb : s.inClassBlock = false) :
    7 ≤ l.length ∧ ∃ a v, s.curVendor = some a ∧ s.mem.vendors[a]? = some v ∧
      s' = openProduct (finalizeProduct s) v.Id (cols 1 5 l) (colsFrom 7 l) := by
  rcases step_cases h with ⟨hk1, _⟩ | ⟨hk1, _⟩ | ⟨hk1, _⟩ | ⟨_, hb1, _⟩ |
    ⟨_, _, hlen, hs⟩ | ⟨hk1, _⟩ | ⟨hk1, _⟩ <;>
    first | exact ⟨hlen, hs⟩ | (rw [hk] at hk1; cases hk1) | (rw [hb] at hb1; cases hb1)

theorem step_progIface {s s' : ParserState} {l : String} (h : step s l = some s')
    (hk : lineKind l = .tabs) (hb : s.inClassBlock = true) :
    6 ≤ l.length ∧ s' = addProgIface s (cols 2 4 l) (colsFrom 6 l) := by
  rcases step_cases h with ⟨hk1, _⟩ | ⟨hk1, _⟩ | ⟨hk1, _⟩ | ⟨hk1, _⟩ |
    ⟨hk1, _⟩ | ⟨_, _, hlen, hs⟩ | ⟨_, hb1, _⟩ <;>
    first | exact ⟨hlen, hs⟩ | (rw [hk] at hk1; cases hk1) | (rw [hb] at hb1; cases hb1)

theorem step_subsystem {s s' : ParserState} {l : String} (h : step s l = some s')
    (hk : lineKind l = .tabs) (hb : s.inClassBlock = false) :
    13 ≤ l.length ∧ s' = addSubsystem s (cols 2 6 l) (cols 7 11 l) (colsFrom 13 l) := by
  rcases step_cases h with ⟨hk1, _⟩ | ⟨hk1, _⟩ | ⟨hk1, _⟩ | ⟨hk1, _⟩ |
    ⟨hk1, _⟩ | ⟨_, hb1, _⟩ | ⟨_, _, hlen, hs⟩ <;>
    first | exact ⟨hlen, hs⟩ | (rw [hk] at hk1; cases hk1) | (rw [hb] at hb1; cases hb1)

theorem step_blank {s s' : ParserState} {l : String} (h : step s l = some s')
    (hk : lineKind l = .blank) : s' = s := by
  rw [step_eq, hk] at h
  simpa using h.symm

/-! ### The `Products` map -/

/-- The id of the current Vendor is the vendor id of the context. -/
theorem Link.vendor_id {c : Ctx} {s : ParserState} (hL : Link c s) {a : Addr} {v : PCIVendor}
    (ha : s.curVendor = some a) (hv : s.mem.vendors[a]? = some v) :
    c.vendor = some v.Id ∧ v.Id.length = 4 := by
  cases hc : c.vendor with
  | none => rw [hL.vendorNone hc] at ha; cases ha
  | some v0 =>
    obtain ⟨a', cell, h1, h2, h3⟩ := hL.vendorSome v0 hc
    rw [ha] at h1
    simp only [Option.some.injEq] at h1
    subst h1
    rw [hv] at h2
    simp only [Option.some.injEq] at h2
    subst h2
    exact ⟨by rw [h3], by rw [h3]; exact hL.width v0 hc⟩

theorem productsInv_init (m : Memory) (db : PCIDB) : ProductsInv [] (initState m db) where
  absent := by intro k _; rfl
  present := by intro k e h; simp [productLinesWithKey, productLines, annotate] at h
  wide := by intro e h; simp [productLines, annotate] at h

theorem productsInv_step {pre : List String} {s s' : ParserState} {l : String}
    (hL : Link (ctxAfter Ctx.init pre) s) (hI : ProductsInv pre s) (h : step s l = some s') :
    ProductsInv (pre ++ [l]) s' := by
  by_cases hprod : lineKind l = .oneTab ∧ s.inClassBlock = false
  · obtain ⟨hk, hb⟩ := hprod
    obtain ⟨hlen, a, v, ha, hv, rfl⟩ := step_product h hk hb
    obtain ⟨hcv, hw⟩ := hL.vendor_id ha hv
    have hline : isProductLine (ctxAfter Ctx.init pre, l) = true := by
      simp [isProductLine, ← hL.mode, hb, hk]
    have hkey : productKeyOf (ctxAfter Ctx.init pre, l) = v.Id ++ cols 1 5 l := by
      simp [productKeyOf, hcv]
    have hdb : (finalizeProduct s).db = s.db := by unfold finalizeProduct; split <;> rfl
    have hlenf : (finalizeProduct s).mem.products.length = s.mem.products.length := by
      unfold finalizeProduct; split <;> simp
    refine ⟨?_, ?_, ?_⟩
    · intro k hnil
      rw [productLinesWithKey_snoc, hline, hkey] at hnil
      by_cases hkk : v.Id ++ cols 1 5 l = k
      · simp [hkk] at hnil
      · simp only [hkk, and_false, if_false, List.append_nil] at hnil
        simp only [openProduct, hdb, GoMap.lookup_store, hkk, if_false]
        exact hI.absent k hnil
    · intro k e hlast
      rw [productLinesWithKey_snoc, hline, hkey] at hlast
      by_cases hkk : v.Id ++ cols 1 5 l = k
      · simp only [hkk, and_self, if_true, List.getLast?_concat, Option.some.injEq] at hlast
        subst hlast
        refine ⟨s.mem.products.length, ⟨v.Id, cols 1 5 l, colsFrom 7 l, []⟩, ?_, ?_, hkk, hw, rfl⟩
        · simp [openProduct, hdb, GoMap.lookup_store, hkk, hlenf]
        · simp only [openProduct]
          rw [← hlenf]
          exact List.getElem?_concat_length _ _
      · simp only [hkk, and_false, if_false, List.append_nil] at hlast
        obtain ⟨a0, p0, h1, h2, h3, h4, h5⟩ := hI.present k e hlast
        obtain ⟨p1, h6, h7⟩ := ident_finalizeProduct h2
        simp only [PCIProduct.ident, Prod.mk.injEq] at h7
        obtain ⟨h7a, h7b, h7c⟩ := h7
        refine ⟨a0, p1, ?_, ?_, by rw [h7a, h7b]; exact h3, by rw [h7a]; exact h4,
          by rw [h7c]; exact h5⟩
        · simp only [openProduct, hdb, GoMap.lookup_store, hkk, if_false]
          exact h1
        · simp only [openProduct]
          rw [List.getElem?_append_left (lt_length_of_getElem? h6)]
          exact h6
    · intro e he
      rw [productLines_snoc, hline] at he
      simp only [if_true, List.mem_append, List.mem_singleton] at he
      rcases he with he | rfl
      · exact hI.wide e he
      · exact ⟨v.Id, hcv, hw, length_cols (l := l) (by omega) (by omega)⟩
  · have hline : isProductLine (ctxAfter Ctx.init pre, l) = false := by
      cases hb : s.inClassBlock
      · have : lineKind l ≠ .oneTab := fun hk => hprod ⟨hk, hb⟩
        simp [isProductLine, this]
      · simp [isProductLine, ← hL.mode, hb]
    obtain ⟨hf1, -⟩ := step_product_frame h hprod
    refine ⟨?_, ?_, ?_⟩
    · intro k hnil
      rw [productLinesWithKey_snoc, hline] at hnil
      simp only [Bool.false_eq_true, false_and, if_false, List.append_nil] at hnil
      rw [hf1]
      exact hI.absent k hnil
    · intro k e hlast
      rw [productLinesWithKey_snoc, hline] at hlast
      simp only [Bool.false_eq_true, false_and, if_false, List.append_nil] at hlast
      obtain ⟨a0, p0, h1, h2, h3, h4, h5⟩ := hI.present k e hlast
      obtain ⟨p1, h6, h7⟩ := step_product_ident h h2
      simp only [PCIProduct.ident, Prod.mk.injEq] at h7
      obtain ⟨h7a, h7b, h7c⟩ := h7
      exact ⟨a0, p1, by rw [hf1]; exact h1, h6, by rw [h7a, h7b]; exact h3,
        by rw [h7a]; exact h4, by rw [h7c]; exact h5⟩
    · intro e he
      rw [productLines_snoc, hline] at he
      simp only [Bool.false_eq_true, if_false, List.append_nil] at he
      exact hI.wide e he

/-- After a run from the initial state the state agrees with the context and
the `Products` map is the one the Product lines describe. -/
theorem link_products_run {m : Memory} {db : PCIDB} {ls : List String} {s : ParserState}
    (h : run (initState m db) ls = some s) :
    Link (ctxAfter Ctx.init ls) s ∧ ProductsInv ls s := by
  have := run_ghost (R := fun pre s => Link (ctxAfter Ctx.init pre) s ∧ ProductsInv pre s)
    (fun pre s l s' hR hs => by
      refine ⟨?_, productsInv_step hR.1 hR.2 hs⟩
      rw [ctxAfter_append]
      exact link_step hR.1 hs)
    ls [] ⟨link_init m db, productsInv_init m db⟩ h
  simpa using this

/-! ### Empty accumulators before the first header -/

theorem quiet_init (m : Memory) (db : PCIDB) : Quiet (initState m db) :=
  ⟨fun _ => ⟨rfl, rfl⟩, fun _ => rfl⟩

theorem quiet_step {s s' : ParserState} {l : String} (hQ : Quiet s) (h : step s l = some s') :
    Quiet s' := by
  obtain ⟨h1, h2⟩ := hQ
  rcases step_cases h with ⟨_, rfl⟩ | ⟨_, _, rfl⟩ | ⟨_, _, rfl⟩ | ⟨_, hb, _, rfl⟩ |
    ⟨_, hb, _, a, v, ha, hv, rfl⟩ | ⟨_, _, _, rfl⟩ | ⟨_, _, _, rfl⟩
  · exact ⟨h1, h2⟩
  · refine ⟨fun h0 => by simp [openClass] at h0, fun h0 => ?_⟩
    have h3 : s.curVendor = none := by
      simp only [openClass, finalizeClass] at h0; split at h0 <;> simpa using h0
    simp only [openClass, finalizeClass]; split <;> simpa using h2 h3
  · refine ⟨fun h0 => ?_, fun h0 => by simp [openVendor] at h0⟩
    have h3 : s.curClass = none := by
      simp only [openVendor, finalizeVendor] at h0; split at h0 <;> simpa using h0
    simp only [openVendor, finalizeVendor]; split <;> simpa using (h1 h3).1
  · refine ⟨fun h0 => ?_, fun h0 => ?_⟩
    · have h3 : s.curClass = none := by
        simp only [openSubclass, finalizeSubclass] at h0; split at h0 <;> simpa using h0
      rw [(h1 h3).2] at hb; cases hb
    · have h3 : s.curVendor = none := by
        simp only [openSubclass, finalizeSubclass] at h0; split at h0 <;> simpa using h0
      simp only [openSubclass, finalizeSubclass]; split <;> simpa using h2 h3
  · refine ⟨fun h0 => ?_, fun h0 => ?_⟩
    · have h3 : s.curClass = none := by
        simp only [openProduct, finalizeProduct] at h0; split at h0 <;> simpa using h0
      simp only [openProduct, finalizeProduct]; split <;> simpa using h1 h3
    · have h3 : s.curVendor = none := by
        simp only [openProduct, finalizeProduct] at h0; split at h0 <;> simpa using h0
      rw [h3] at ha; cases ha
  · exact ⟨by simpa [addProgIface] using h1, by simpa [addProgIface] using h2⟩
  · exact ⟨by simpa [addSubsystem] using h1, by simpa [addSubsystem] using h2⟩

theorem quiet_run {m : Memory} {db : PCIDB} {ls : List String} {s : ParserState}
    (h : run (initState m db) ls = some s) : Quiet s :=
  run_invariant (P := Quiet) (fun _ _ _ _ hQ hs => quiet_step hQ hs) (quiet_init m db) h

/-! ### More frames -/

/-- The mode flag follows the context. -/
theorem step_mode {c : Ctx} {s s' : ParserState} {l : String} (h : step s l = some s')
    (hm : s.inClassBlock = c.inClass) : s'.inClassBlock = (c.read l).inClass := by
  rcases step_cases h with ⟨hk, rfl⟩ | ⟨hk, _, rfl⟩ | ⟨hk, _, rfl⟩ | ⟨hk, _, _, rfl⟩ |
    ⟨hk, _, _, a, v, _, _, rfl⟩ | ⟨hk, _, _, rfl⟩ | ⟨hk, _, _, rfl⟩ <;>
    simp only [Ctx.read, hk]
  · exact hm
  · rfl
  · rfl
  · simp only [openSubclass, finalizeSubclass]; split <;> simpa using hm
  · simp only [openProduct, finalizeProduct]; split <;> simpa using hm
  · simpa [addProgIface] using hm
  · simpa [addSubsystem] using hm

/-- Only Class headers and Subclass lines touch the Subclass accumulator. -/
theorem step_subclasses_frame {s s' : ParserState} {l : String} (h : step s l = some s')
    (hk : lineKind l ≠ .classHeader) (hs : ¬ (lineKind l = .oneTab ∧ s.inClassBlock = true)) :
    s'.subclasses = s.subclasses := by
  rcases step_cases h with ⟨_, rfl⟩ | ⟨hk1, _, rfl⟩ | ⟨_, _, rfl⟩ | ⟨hk1, hb, _, rfl⟩ |
    ⟨_, _, _, a, v, _, _, rfl⟩ | ⟨_, _, _, rfl⟩ | ⟨_, _, _, rfl⟩
  · rfl
  · exact absurd hk1 hk
  · simp only [openVendor, finalizeVendor]; split <;> simp
  · exact absurd ⟨hk1, hb⟩ hs
  · simp only [openProduct, finalizeProduct]; split <;> simp
  · simp [addProgIface]
  · simp [addSubsystem]

/-- Only Vendor headers and Product lines touch the Product accumulator. -/
theorem step_vendorProducts_frame {s s' : ParserState} {l : String} (h : step s l = some s')
    (hk : lineKind l ≠ .vendorHeader) (hs : ¬ (lineKind l = .oneTab ∧ s.inClassBlock = false)) :
    s'.vendorProducts = s.vendorProducts := by
  rcases step_cases h with ⟨_, rfl⟩ | ⟨_, _, rfl⟩ | ⟨hk1, _, rfl⟩ | ⟨_, _, _, rfl⟩ |
    ⟨hk1, hb, _, a, v, _, _, rfl⟩ | ⟨_, _, _, rfl⟩ | ⟨_, _, _, rfl⟩
  · rfl
  · simp only [openClass, finalizeClass]; split <;> simp
  · exact absurd hk1 hk
  · simp only [openSubclass, finalizeSubclass]; split <;> simp
  · exact absurd ⟨hk1, hb⟩ hs
  · simp [addProgIface]
  · simp [addSubsystem]

/-! ### Idents of a slice of pointers -/

theorem subclassIdents_stable {s s' : ParserState} {ls : List String} (h : run s ls = some s')
    {ps : List Addr} {acc : List (String × String)}
    (hacc : s.mem.subclassIdents ps = acc.map some) :
    s'.mem.subclassIdents ps = acc.map some := by
  rw [← hacc]
  unfold Memory.subclassIdents
  apply List.map_congr_left
  intro a ha
  have : (s.mem.subclasses[a]?).map PCISubclass.ident ∈ acc.map some := by
    rw [← hacc]; exact List.mem_map_of_mem _ ha
  obtain ⟨x, -, hx⟩ := List.mem_map.1 this
  cases hp : s.mem.subclasses[a]? with
  | none => rw [hp] at hx; cases hx
  | some p =>
    obtain ⟨p', hp1, hp2⟩ := run_subclass_ident h hp
    simp [hp1, hp2]

theorem productIdents_stable {s s' : ParserState} {ls : List String} (h : run s ls = some s')
    {ps : List Addr} {acc : List (String × String × String)}
    (hacc : s.mem.productIdents ps = acc.map some) :
    s'.mem.productIdents ps = acc.map some := by
  rw [← hacc]
  unfold Memory.productIdents
  apply List.map_congr_left
  intro a ha
  have : (s.mem.products[a]?).map PCIProduct.ident ∈ acc.map some := by
    rw [← hacc]; exact List.mem_map_of_mem _ ha
  obtain ⟨x, -, hx⟩ := List.mem_map.1 this
  cases hp : s.mem.products[a]? with
  | none => rw [hp] at hx; cases hx
  | some p =>
    obtain ⟨p', hp1, hp2⟩ := run_product_ident h hp
    simp [hp1, hp2]

theorem subclassLines_cons (c : Ctx) (l : String) (ls : List String) :
    subclassLines c (l :: ls) =
      (if isSubclassLine (c, l) then [l] else []) ++ subclassLines (c.read l) ls := by
  unfold subclassLines
  by_cases h : isSubclassLine (c, l) = true <;> simp [annotate, List.filter_cons, h]

theorem productLines_cons (c : Ctx) (l : String) (ls : List String) :
    productLines c (l :: ls) =
      (if isProductLine (c, l) then [(c, l)] else []) ++ productLines (c.read l) ls := by
  unfold productLines
  by_cases h : isProductLine (c, l) = true <;> simp [annotate, List.filter_cons, h]

/-! ### The Subclasses of a Class -/

/-- Between two Class headers the Subclass accumulator grows by one record per
Subclass line, and the Class side of the state does not move. -/
theorem subclasses_accumulate {ls : List String} : ∀ {c : Ctx} {s s' : ParserState}
    (acc : List (String × String)), run s ls = some s' →
    (∀ l ∈ ls, lineKind l ≠ .classHeader) → s.inClassBlock = c.inClass →
    s.mem.subclassIdents s.subclasses = acc.map some →
    s'.mem.classes = s.mem.classes ∧ s'.db.Classes = s.db.Classes ∧ s'.curClass = s.curClass ∧
    s'.mem.subclassIdents s'.subclasses =
      (acc ++ (subclassLines c ls).map fun l => (cols 1 3 l, colsFrom 5 l)).map some := by
  induction ls with
  | nil =>
    intro c s s' acc h _ _ hacc
    simp only [run, Option.some.injEq] at h
    subst h
    simpa [subclassLines, annotate] using hacc
  | cons x xs ih =>
    intro c s s' acc h hno hm hacc
    obtain ⟨s1, h1, h2⟩ := run_cons_eq_some h
    have hx : lineKind x ≠ .classHeader := hno x (List.mem_cons_self _ _)
    obtain ⟨f1, f2, f3⟩ := step_class_frame h1 hx
    have hm1 := step_mode h1 hm
    have key : s1.mem.subclassIdents s1.subclasses =
        (acc ++ (if isSubclassLine (c, x) then [(cols 1 3 x, colsFrom 5 x)] else [])).map
          some := by
      by_cases hsub : lineKind x = .oneTab ∧ s.inClassBlock = true
      · obtain ⟨hk, hb⟩ := hsub
        have hline : isSubclassLine (c, x) = true := by simp [isSubclassLine, ← hm, hb, hk]
        obtain ⟨-, rfl⟩ := step_subclass h1 hk hb
        rw [hline]
        have hold : (finalizeSubclass s).mem.subclassIdents s.subclasses = acc.map some := by
          rw [← hacc]
          unfold Memory.subclassIdents
          apply List.map_congr_left
          intro a ha
          have : (s.mem.subclasses[a]?).map PCISubclass.ident ∈ acc.map some := by
            rw [← hacc]; exact List.mem_map_of_mem _ ha
          obtain ⟨y, -, hy⟩ := List.mem_map.1 this
          cases hp : s.mem.subclasses[a]? with
          | none => rw [hp] at hy; cases hy
          | some p =>
            obtain ⟨p', hp1, hp2⟩ := ident_finalizeSubclass hp
            simp [hp1, hp2]
        have hsl : (finalizeSubclass s).subclasses = s.subclasses := by
          unfold finalizeSubclass; split <;> rfl
        simp only [openSubclass, hsl, if_true, List.map_append, List.map_cons, List.map_nil,
          Memory.subclassIdents]
        congr 1
        · rw [← hold]
          unfold Memory.subclassIdents
          apply List.map_congr_left
          intro a ha
          have : ((finalizeSubclass s).mem.subclasses[a]?).map PCISubclass.ident
              ∈ acc.map some := by
            rw [← hold]; exact List.mem_map_of_mem _ ha
          obtain ⟨y, -, hy⟩ := List.mem_map.1 this
          cases hp : (finalizeSubclass s).mem.subclasses[a]? with
          | none => rw [hp] at hy; cases hy
          | some p =>
            rw [List.getElem?_append_left (lt_length_of_getElem? hp), hp]
        · simp [PCISubclass.ident]
      · have hline : isSubclassLine (c, x) = false := by
          cases hb : s.inClassBlock
          · simp [isSubclassLine, ← hm, hb]
          · have : lineKind x ≠ .oneTab := fun hk => hsub ⟨hk, hb⟩
            simp [isSubclassLine, this]
        rw [hline, step_subclasses_frame h1 hx hsub]
        simp only [Bool.false_eq_true, if_false, List.append_nil]
        have hrun1 : run s [x] = some s1 := by simp [run, h1]
        exact subclassIdents_stable hrun1 hacc
    obtain ⟨g1, g2, g3, g4⟩ := ih _ h2 (fun l hl => hno l (List.mem_cons_of_mem _ hl)) hm1 key
    refine ⟨g1.trans f1, g2.trans f2, g3.trans f3, ?_⟩
    rw [g4, subclassLines_cons]
    by_cases hline : isSubclassLine (c, x) = true <;> simp [hline]

/-- The record the `Products` map holds for a Product line of a completed parse. -/
theorem product_entry_of_line {m : Memory} {db : PCIDB} {lines : List String} {r : ParseResult}
    (h : parsePCIIdsFile m db lines = some r) {e : Ctx × String}
    (he : e ∈ productLines Ctx.init lines) {v : String} (hv : e.1.vendor = some v) :
    ∃ a p e', r.db.Products.lookup (v ++ cols 1 5 e.2) = some a ∧
      r.mem.products[a]? = some p ∧ p.VendorId = v ∧ p.Id = cols 1 5 e.2 ∧
      (productLinesWithKey (v ++ cols 1 5 e.2) lines).getLast? = some e' ∧
      p.Name = colsFrom 7 e'.2 := by
  obtain ⟨s, hs, rfl⟩ := parse_eq_some h
  obtain ⟨-, hI⟩ := link_products_run hs
  have hmem : e ∈ productLinesWithKey (v ++ cols 1 5 e.2) lines := by
    simp [productLinesWithKey, he, productKeyOf, hv]
  cases hlast : (productLinesWithKey (v ++ cols 1 5 e.2) lines).getLast? with
  | none =>
    rw [List.getLast?_eq_none_iff] at hlast
    rw [hlast] at hmem
    cases hmem
  | some e' =>
    obtain ⟨a, p, h1, h2, h3, h4, h5⟩ := hI.present _ e' hlast
    obtain ⟨v', hv', hw', -⟩ := hI.wide e he
    rw [hv] at hv'
    simp only [Option.some.injEq] at hv'
    subst hv'
    obtain ⟨h6, h7⟩ := string_append_inj h3 (h4.trans hw'.symm)
    exact ⟨a, p, e', h1, h2, h6, h7, rfl, h5⟩

/-! ### Blank input -/

theorem run_blank (s : ParserState) (lines : List String)
    (h : ∀ l ∈ lines, l = "" ∨ firstChar l = some '#') : run s lines = some s := by
  induction lines with
  | nil => rfl
  | cons x xs ih =>
    have hx : step s x = some s := by
      rcases h x (List.mem_cons_self _ _) with hx | hx
      · subst hx; rfl
      · unfold firstChar at hx
        unfold step
        cases hd : x.data with
        | nil => rfl
        | cons c0 rest =>
          rw [hd] at hx
          simp only [List.head?_cons, Option.some.injEq] at hx
          simp [hx]
    simp only [run, hx, Option.some_bind]
    exact ih fun l hl => h l (List.mem_cons_of_mem _ hl)

/-- What a Class header does to the Class side of the state. -/
theorem classHeader_effect (s : ParserState) (id name : String) :
    (openClass (finalizeClass s) id name).curClass = some s.mem.classes.length ∧
    (openClass (finalizeClass s) id name).db.Classes =
      s.db.Classes.store id s.mem.classes.length ∧
    (openClass (finalizeClass s) id name).subclasses =
      (if s.curClass = none then s.subclasses else []) ∧
    (openClass (finalizeClass s) id name).mem.classes[s.mem.classes.length]? =
      some ⟨id, name, if s.curClass = none then s.subclasses else []⟩ ∧
    (openClass (finalizeClass s) id name).mem.subclasses = s.mem.subclasses ∧
    ∀ a c, s.mem.classes[a]? = some c →
      (openClass (finalizeClass s) id name).mem.classes[a]? =
        some (if s.curClass = some a then { c with Subclasses := s.subclasses } else c) := by
  refine ⟨?_, ?_, ?_, ?_, ?_, ?_⟩
  · simp [openClass, length_finalizeClass]
  · have hdb : (finalizeClass s).db = s.db := by unfold finalizeClass; split <;> rfl
    simp [openClass, hdb, length_finalizeClass]
  · simp only [openClass, finalizeClass]; split <;> simp_all
  · have hsub : (finalizeClass s).subclasses = if s.curClass = none then s.subclasses else [] := by
      unfold finalizeClass; split <;> simp_all
    simp only [openClass, hsub]
    rw [← length_finalizeClass s]
    exact List.getElem?_concat_length _ _
  · simp only [openClass, finalizeClass]; split <;> simp
  · intro a c hc
    have hlt : a < (finalizeClass s).mem.classes.length := by
      rw [length_finalizeClass]; exact lt_length_of_getElem? hc
    simp only [openClass]
    rw [List.getElem?_append_left hlt, getElem?_finalizeClass, hc]
    split <;> rfl

/-- Once another Class is current, a Class record stays as it is, and so does
its entry in `Classes` while no header repeats its id. -/
theorem class_settled_step {s s' : ParserState} {l : String} {a : Addr} {c0 : PCIClass}
    {id : String} (h : step s l = some s')
    (hl : lineKind l = .classHeader → cols 2 4 l ≠ id)
    (hP : s.mem.classes[a]? = some c0 ∧ s.curClass ≠ some a ∧
      s.db.Classes.lookup id = some a) :
    s'.mem.classes[a]? = some c0 ∧ s'.curClass ≠ some a ∧ s'.db.Classes.lookup id = some a := by
  obtain ⟨h1, h2, h3⟩ := hP
  by_cases hk : lineKind l = .classHeader
  · obtain ⟨-, rfl⟩ := step_classHeader h hk
    obtain ⟨e1, e2, -, -, -, e6⟩ := classHeader_effect s (cols 2 4 l) (colsFrom 6 l)
    refine ⟨?_, ?_, ?_⟩
    · rw [e6 a c0 h1, if_neg h2]
    · rw [e1]
      intro hEq
      simp only [Option.some.injEq] at hEq
      have := lt_length_of_getElem? h1
      omega
    · rw [e2, GoMap.lookup_store, if_neg (hl hk)]
      exact h3
  · obtain ⟨f1, f2, f3⟩ := step_class_frame h hk
    rw [f1, f2, f3]
    exact ⟨h1, h2, h3⟩

/-! ### The Products of a Vendor -/

/-- What a Vendor header does to the Vendor side of the state. -/
theorem vendorHeader_effect (s : ParserState) (id name : String) :
    (openVendor (finalizeVendor s) id name).curVendor = some s.mem.vendors.length ∧
    (openVendor (finalizeVendor s) id name).db.Vendors =
      s.db.Vendors.store id s.mem.vendors.length ∧
    (openVendor (finalizeVendor s) id name).vendorProducts =
      (if s.curVendor = none then s.vendorProducts else []) ∧
    (openVendor (finalizeVendor s) id name).mem.vendors[s.mem.vendors.length]? =
      some ⟨id, name, if s.curVendor = none then s.vendorProducts else []⟩ ∧
    (openVendor (finalizeVendor s) id name).mem.products = s.mem.products ∧
    ∀ a c, s.mem.vendors[a]? = some c →
      (openVendor (finalizeVendor s) id name).mem.vendors[a]? =
        some (if s.curVendor = some a then { c with Products := s.vendorProducts } else c) := by
  refine ⟨?_, ?_, ?_, ?_, ?_, ?_⟩
  · simp [openVendor, length_finalizeVendor]
  · have hdb : (finalizeVendor s).db = s.db := by unfold finalizeVendor; split <;> rfl
    simp [openVendor, hdb, length_finalizeVendor]
  · simp only [openVendor, finalizeVendor]; split <;> simp_all
  · have hsub : (finalizeVendor s).vendorProducts =
        if s.curVendor = none then s.vendorProducts else [] := by
      unfold finalizeVendor; split <;> simp_all
    simp only [openVendor, hsub]
    rw [← length_finalizeVendor s]
    exact List.getElem?_concat_length _ _
  · simp only [openVendor, finalizeVendor]; split <;> simp
  · intro a c hc
    have hlt : a < (finalizeVendor s).mem.vendors.length := by
      rw [length_finalizeVendor]; exact lt_length_of_getElem? hc
    simp only [openVendor]
    rw [List.getElem?_append_left hlt, getElem?_finalizeVendor, hc]
    split <;> rfl

/-- Once another Vendor is current, a Vendor record stays as it is, and so does
its entry in `Vendors` while no header repeats its id. -/
theorem vendor_settled_step {s s' : ParserState} {l : String} {a : Addr} {c0 : PCIVendor}
    {id : String} (h : step s l = some s')
    (hl : lineKind l = .vendorHeader → cols 0 4 l ≠ id)
    (hP : s.mem.vendors[a]? = some c0 ∧ s.curVendor ≠ some a ∧
      s.db.Vendors.lookup id = some a) :
    s'.mem.vendors[a]? = some c0 ∧ s'.curVendor ≠ some a ∧ s'.db.Vendors.lookup id = some a := by
  obtain ⟨h1, h2, h3⟩ := hP
  by_cases hk : lineKind l = .vendorHeader
  · obtain ⟨-, rfl⟩ := step_vendorHeader h hk
    obtain ⟨e1, e2, -, -, -, e6⟩ := vendorHeader_effect s (cols 0 4 l) (colsFrom 6 l)
    refine ⟨?_, ?_, ?_⟩
    · rw [e6 a c0 h1, if_neg h2]
    · rw [e1]
      intro hEq
      simp only [Option.some.injEq] at hEq
      have := lt_length_of_getElem? h1
      omega
    · rw [e2, GoMap.lookup_store, if_neg (hl hk)]
      exact h3
  · obtain ⟨f1, f2, f3⟩ := step_vendor_frame h hk
    rw [f1, f2, f3]
    exact ⟨h1, h2, h3⟩

/-- Between two Vendor headers the Product accumulator grows by one record per
Product line, and the Vendor side of the state does not move. -/
theorem products_accumulate {v : String} {ls : List String} : ∀ {c : Ctx} {s s' : ParserState}
    (acc : List (String × String × String)), run s ls = some s' →
    (∀ l ∈ ls, lineKind l ≠ .vendorHeader) → s.inClassBlock = c.inClass →
    (∀ a cell, s.curVendor = some a → s.mem.vendors[a]? = some cell → cell.Id = v) →
    s.mem.productIdents s.vendorProducts = acc.map some →
    s'.mem.vendors = s.mem.vendors ∧ s'.db.Vendors = s.db.Vendors ∧
    s'.curVendor = s.curVendor ∧
    s'.mem.productIdents s'.vendorProducts =
      (acc ++ (productLines c ls).map fun e => (v, cols 1 5 e.2, colsFrom 7 e.2)).map some := by
  induction ls with
  | nil =>
    intro c s s' acc h _ _ _ hacc
    simp only [run, Option.some.injEq] at h
    subst h
    simpa [productLines, annotate] using hacc
  | cons x xs ih =>
    intro c s s' acc h hno hm hv hacc
    obtain ⟨s1, h1, h2⟩ := run_cons_eq_some h
    have hx : lineKind x ≠ .vendorHeader := hno x (List.mem_cons_self _ _)
    obtain ⟨f1, f2, f3⟩ := step_vendor_frame h1 hx
    have hm1 := step_mode h1 hm
    have key : s1.mem.productIdents s1.vendorProducts =
        (acc ++ (if isProductLine (c, x) then [(v, cols 1 5 x, colsFrom 7 x)] else [])).map
          some := by
      by_cases hprod : lineKind x = .oneTab ∧ s.inClassBlock = false
      · obtain ⟨hk, hb⟩ := hprod
        have hline : isProductLine (c, x) = true := by simp [isProductLine, ← hm, hb, hk]
        obtain ⟨-, a, cell, ha, hcell, rfl⟩ := step_product h1 hk hb
        have hid : cell.Id = v := hv a cell ha hcell
        rw [hline]
        have hold : (finalizeProduct s).mem.productIdents s.vendorProducts = acc.map some := by
          rw [← hacc]
          unfold Memory.productIdents
          apply List.map_congr_left
          intro a ha
          have : (s.mem.products[a]?).map PCIProduct.ident ∈ acc.map some := by
            rw [← hacc]; exact List.mem_map_of_mem _ ha
          obtain ⟨y, -, hy⟩ := List.mem_map.1 this
          cases hp : s.mem.products[a]? with
          | none => rw [hp] at hy; cases hy
          | some p =>
            obtain ⟨p', hp1, hp2⟩ := ident_finalizeProduct hp
            simp [hp1, hp2]
        have hsl : (finalizeProduct s).vendorProducts = s.vendorProducts := by
          unfold finalizeProduct; split <;> rfl
        simp only [openProduct, hsl, if_true, List.map_append, List.map_cons, List.map_nil,
          Memory.productIdents]
        congr 1
        · rw [← hold]
          unfold Memory.productIdents
          apply List.map_congr_left
          intro a ha
          have : ((finalizeProduct s).mem.products[a]?).map PCIProduct.ident
              ∈ acc.map some := by
            rw [← hold]; exact List.mem_map_of_mem _ ha
          obtain ⟨y, -, hy⟩ := List.mem_map.1 this
          cases hp : (finalizeProduct s).mem.products[a]? with
          | none => rw [hp] at hy; cases hy
          | some p =>
            rw [List.getElem?_append_left (lt_length_of_getElem? hp), hp]
        · simp [PCIProduct.ident, hid]
      · have hline : isProductLine (c, x) = false := by
          cases hb : s.inClassBlock
          · have : lineKind x ≠ .oneTab := fun hk => hprod ⟨hk, hb⟩
            simp [isProductLine, this]
          · simp [isProductLine, ← hm, hb]
        rw [hline, step_vendorProducts_frame h1 hx hprod]
        simp only [Bool.false_eq_true, if_false, List.append_nil]
        have hrun1 : run s [x] = some s1 := by simp [run, h1]
        exact productIdents_stable hrun1 hacc
    have hv1 : ∀ a cell, s1.curVendor = some a → s1.mem.vendors[a]? = some cell →
        cell.Id = v := by
      rw [f1, f3]; exact hv
    obtain ⟨g1, g2, g3, g4⟩ :=
      ih _ h2 (fun l hl => hno l (List.mem_cons_of_mem _ hl)) hm1 hv1 key
    refine ⟨g1.trans f1, g2.trans f2, g3.trans f3, ?_⟩
    rw [g4, productLines_cons]
    by_cases hline : isProductLine (c, x) = true <;> simp [hline]

/-! ### The Subsystems of a Product -/

theorem isTwoTab_of_tabs {l : String} (hk : lineKind l = .tabs) (hlen : 2 ≤ l.length) :
    isTwoTab l = true := by
  unfold lineKind at hk
  unfold isTwoTab
  simp only [String.length] at hlen
  cases hd : l.data with
  | nil => rw [hd] at hlen; simp at hlen
  | cons c0 rest =>
    cases rest with
    | nil => rw [hd] at hlen; simp at hlen
    | cons c1 r =>
      rw [hd] at hk
      by_cases h1 : c0 = '#'
      · simp [h1] at hk
      · by_cases h2 : c0 = 'C'
        · simp [h2] at hk
        · by_cases h3 : c0 = '\t'
          · by_cases h4 : c1 = '\t'
            · simp [h3, h4]
            · simp [h3, h4] at hk
          · simp [h1, h2, h3] at hk

theorem tabs_of_isTwoTab {l : String} (h : isTwoTab l = true) : lineKind l = .tabs := by
  unfold isTwoTab at h
  unfold lineKind
  cases hd : l.data with
  | nil => rw [hd] at h; simp at h
  | cons c0 rest =>
    cases rest with
    | nil => rw [hd] at h; simp at h
    | cons c1 r =>
      rw [hd] at h
      simp only [decide_eq_true_eq, Bool.decide_and, Bool.and_eq_true] at h
      obtain ⟨h1, h2⟩ := h
      subst h1; subst h2
      simp

/-- Only Product lines and Subsystem lines touch the Subsystem accumulator. -/
theorem step_productSubsystems_frame {s s' : ParserState} {l : String}
    (h : step s l = some s') (hp : ¬ (lineKind l = .oneTab ∧ s.inClassBlock = false))
    (hs : ¬ (lineKind l = .tabs ∧ s.inClassBlock = false)) :
    s'.productSubsystems = s.productSubsystems := by
  rcases step_cases h with ⟨_, rfl⟩ | ⟨_, _, rfl⟩ | ⟨_, _, rfl⟩ | ⟨_, _, _, rfl⟩ |
    ⟨hk1, hb, _, a, v, _, _, rfl⟩ | ⟨_, _, _, rfl⟩ | ⟨hk1, hb, _, rfl⟩
  · rfl
  · simp only [openClass, finalizeClass]; split <;> simp
  · simp only [openVendor, finalizeVendor]; split <;> simp
  · simp only [openSubclass, finalizeSubclass]; split <;> simp
  · exact absurd ⟨hk1, hb⟩ hp
  · simp [addProgIface]
  · exact absurd ⟨hk1, hb⟩ hs

/-- A line that is not read as a Product line leaves every Product record as it is. -/
theorem step_products_heap_frame {s s' : ParserState} {l : String} (h : step s l = some s')
    (hp : ¬ (lineKind l = .oneTab ∧ s.inClassBlock = false)) {a : Addr} {p : PCIProduct}
    (ha : s.mem.products[a]? = some p) : s'.mem.products[a]? = some p := by
  rcases step_cases h with ⟨_, rfl⟩ | ⟨_, _, rfl⟩ | ⟨_, _, rfl⟩ | ⟨_, _, _, rfl⟩ |
    ⟨hk1, hb, _, b, v, _, _, rfl⟩ | ⟨_, _, _, rfl⟩ | ⟨_, _, _, rfl⟩
  · exact ha
  · simp only [openClass, finalizeClass]; split <;> simpa using ha
  · simp only [openVendor, finalizeVendor]; split <;> simpa using ha
  · simp only [openSubclass, finalizeSubclass]; split <;> simpa using ha
  · exact absurd ⟨hk1, hb⟩ hp
  · simpa [addProgIface] using ha
  · simp only [addSubsystem]
    rw [List.getElem?_append_left (lt_length_of_getElem? ha)]
    exact ha

theorem length_finalizeProduct (s : ParserState) :
    (finalizeProduct s).mem.products.length = s.mem.products.length := by
  unfold finalizeProduct; split <;> simp

theorem getElem?_finalizeProduct (s : ParserState) (a : Addr) :
    (finalizeProduct s).mem.products[a]? =
      if s.curProduct = some a then
        (s.mem.products[a]?).map fun c => { c with Subsystems := s.productSubsystems }
      else s.mem.products[a]? := by
  unfold finalizeProduct
  cases hc : s.curProduct with
  | none => simp
  | some b =>
    by_cases hb : b = a
    · subst hb; simp
    · simp [List.getElem?_modify, hb]

/-- What a Product line does to the Product side of the state. -/
theorem productEntry_effect (s : ParserState) (vid pid name : String) :
    (openProduct (finalizeProduct s) vid pid name).curProduct = some s.mem.products.length ∧
    (openProduct (finalizeProduct s) vid pid name).db.Products =
      s.db.Products.store (vid ++ pid) s.mem.products.length ∧
    (openProduct (finalizeProduct s) vid pid name).productSubsystems =
      (if s.curProduct = none then s.productSubsystems else []) ∧
    (openProduct (finalizeProduct s) vid pid name).mem.products[s.mem.products.length]? =
      some ⟨vid, pid, name, []⟩ ∧
    ∀ a c, s.mem.products[a]? = some c →
      (openProduct (finalizeProduct s) vid pid name).mem.products[a]? =
        some (if s.curProduct = some a then { c with Subsystems := s.productSubsystems }
          else c) := by
  refine ⟨?_, ?_, ?_, ?_, ?_⟩
  · simp [openProduct, length_finalizeProduct]
  · have hdb : (finalizeProduct s).db = s.db := by unfold finalizeProduct; split <;> rfl
    simp [openProduct, hdb, length_finalizeProduct]
  · simp only [openProduct, finalizeProduct]; split <;> simp_all
  · simp only [openProduct]
    rw [← length_finalizeProduct s]
    exact List.getElem?_concat_length _ _
  · intro a c hc
    have hlt : a < (finalizeProduct s).mem.products.length := by
      rw [length_finalizeProduct]; exact lt_length_of_getElem? hc
    simp only [openProduct]
    rw [List.getElem?_append_left hlt, getElem?_finalizeProduct, hc]
    split <;> rfl

theorem subsystemLines_cons (c : Ctx) (l : String) (ls : List String) :
    subsystemLines c (l :: ls) =
      (if isSubsystemLine (c, l) then [l] else []) ++ subsystemLines (c.read l) ls := by
  unfold subsystemLines
  by_cases h : isSubsystemLine (c, l) = true <;> simp [annotate, List.filter_cons, h]

/-- Between two Product lines the Subsystem accumulator grows by one record per
Subsystem line, and the Product side of the state does not move. -/
theorem subsystems_accumulate {ls : List String} : ∀ {c : Ctx} {s s' : ParserState}
    (acc : List (String × String × String)), run s ls = some s' →
    productLines c ls = [] → s.inClassBlock = c.inClass →
    s.mem.productIdents s.productSubsystems = acc.map some →
    s'.db.Products = s.db.Products ∧ s'.curProduct = s.curProduct ∧
    (∀ (a : Addr) (p : PCIProduct),
      s.mem.products[a]? = some p → s'.mem.products[a]? = some p) ∧
    s'.inClassBlock = (ctxAfter c ls).inClass ∧
    s'.mem.productIdents s'.productSubsystems =
      (acc ++ (subsystemLines c ls).map fun l =>
        (cols 2 6 l, cols 7 11 l, colsFrom 13 l)).map some := by
  induction ls with
  | nil =>
    intro c s s' acc h _ hm hacc
    simp only [run, Option.some.injEq] at h
    subst h
    exact ⟨rfl, rfl, fun _ _ hp => hp, hm, by simpa [subsystemLines, annotate] using hacc⟩
  | cons x xs ih =>
    intro c s s' acc h hno hm hacc
    obtain ⟨s1, h1, h2⟩ := run_cons_eq_some h
    rw [productLines_cons] at hno
    have hnox : isProductLine (c, x) = false := by
      by_contra hx
      simp only [Bool.not_eq_false] at hx
      simp [hx] at hno
    have hnoxs : productLines (c.read x) xs = [] := by
      simpa [hnox] using hno
    have hprod : ¬ (lineKind x = .oneTab ∧ s.inClassBlock = false) := by
      rintro ⟨hk, hb⟩
      simp [isProductLine, ← hm, hb, hk] at hnox
    obtain ⟨f1, f2⟩ := step_product_frame h1 hprod
    have f3 : ∀ (a : Addr) (p : PCIProduct),
        s.mem.products[a]? = some p → s1.mem.products[a]? = some p :=
      fun a p hp => step_products_heap_frame h1 hprod hp
    have hm1 := step_mode h1 hm
    have key : s1.mem.productIdents s1.productSubsystems =
        (acc ++ (if isSubsystemLine (c, x) then [(cols 2 6 x, cols 7 11 x, colsFrom 13 x)]
          else [])).map some := by
      by_cases hsub : lineKind x = .tabs ∧ s.inClassBlock = false
      · obtain ⟨hk, hb⟩ := hsub
        obtain ⟨hlen, rfl⟩ := step_subsystem h1 hk hb
        have hline : isSubsystemLine (c, x) = true := by
          simp [isSubsystemLine, ← hm, hb, isTwoTab_of_tabs hk (by omega)]
        rw [hline]
        simp only [addSubsystem, if_true, List.map_append, List.map_cons, List.map_nil,
          Memory.productIdents]
        congr 1
        · rw [← hacc]
          unfold Memory.productIdents
          apply List.map_congr_left
          intro a ha
          have : (s.mem.products[a]?).map PCIProduct.ident ∈ acc.map some := by
            rw [← hacc]; exact List.mem_map_of_mem _ ha
          obtain ⟨y, -, hy⟩ := List.mem_map.1 this
          cases hp : s.mem.products[a]? with
          | none => rw [hp] at hy; cases hy
          | some p =>
            rw [List.getElem?_append_left (lt_length_of_getElem? hp), hp]
        · simp [PCIProduct.ident]
      · have hline : isSubsystemLine (c, x) = false := by
          cases hb : s.inClassBlock
          · have hk : lineKind x ≠ .tabs := fun hk => hsub ⟨hk, hb⟩
            have : isTwoTab x = false := by
              by_contra ht
              simp only [Bool.not_eq_false] at ht
              exact hk (tabs_of_isTwoTab ht)
            simp [isSubsystemLine, this]
          · simp [isSubsystemLine, ← hm, hb]
        rw [hline, step_productSubsystems_frame h1 hprod hsub]
        simp only [Bool.false_eq_true, if_false, List.append_nil]
        have hrun1 : run s [x] = some s1 := by simp [run, h1]
        exact productIdents_stable hrun1 hacc
    obtain ⟨g1, g2, g3, g4, g5⟩ := ih _ h2 hnoxs hm1 key
    refine ⟨g1.trans f1, g2.trans f2, fun a p hp => g3 a p (f3 a p hp), ?_, ?_⟩
    · rw [ctxAfter_cons]; exact g4
    · rw [g5, subsystemLines_cons]
      by_cases hline : isSubsystemLine (c, x) = true <;> simp [hline]

/-- Once another Product is current, a Product record stays as it is, and so
does its entry in `Products` while no Product line produces its key again. -/
theorem product_settled_run {k : String} {a : Addr} {p0 : PCIProduct} {ls : List String} :
    ∀ {c : Ctx} {s s' : ParserState}, run s ls = some s' → Link c s →
    (∀ e ∈ productLines c ls, productKeyOf e ≠ k) →
    s.mem.products[a]? = some p0 → s.curProduct ≠ some a →
    s.db.Products.lookup k = some a →
    s'.mem.products[a]? = some p0 ∧ s'.db.Products.lookup k = some a := by
  induction ls with
  | nil =>
    intro c s s' h _ _ h1 _ h3
    simp only [run, Option.some.injEq] at h
    subst h
    exact ⟨h1, h3⟩
  | cons x xs ih =>
    intro c s s' h hL hkeys h1 h2 h3
    obtain ⟨s1, hs1, hs2⟩ := run_cons_eq_some h
    have hL1 := link_step hL hs1
    have hkeys1 : ∀ e ∈ productLines (c.read x) xs, productKeyOf e ≠ k := by
      intro e he
      apply hkeys
      rw [productLines_cons]
      exact List.mem_append_right _ he
    have hstep : s1.mem.products[a]? = some p0 ∧ s1.curProduct ≠ some a ∧
        s1.db.Products.lookup k = some a := by
      by_cases hprod : lineKind x = .oneTab ∧ s.inClassBlock = false
      · obtain ⟨hk, hb⟩ := hprod
        obtain ⟨-, b, v, hb1, hv, rfl⟩ := step_product hs1 hk hb
        obtain ⟨hcv, -⟩ := hL.vendor_id hb1 hv
        have hline : isProductLine (c, x) = true := by simp [isProductLine, ← hL.mode, hb, hk]
        have hne : v.Id ++ cols 1 5 x ≠ k := by
          have := hkeys (c, x) (by rw [productLines_cons, hline]; simp)
          simpa [productKeyOf, hcv] using this
        obtain ⟨e1, e2, -, -, e5⟩ := productEntry_effect s v.Id (cols 1 5 x) (colsFrom 7 x)
        refine ⟨?_, ?_, ?_⟩
        · rw [e5 a p0 h1, if_neg h2]
        · rw [e1]
          intro hEq
          simp only [Option.some.injEq] at hEq
          have := lt_length_of_getElem? h1
          omega
        · rw [e2, GoMap.lookup_store, if_neg hne]
          exact h3
      · obtain ⟨f1, f2⟩ := step_product_frame hs1 hprod
        exact ⟨step_products_heap_frame hs1 hprod h1, by rw [f2]; exact h2, by rw [f1]; exact h3⟩
    exact ih hs2 hL1 hkeys1 hstep.1 hstep.2.1 hstep.2.2

theorem subsysInv_init (m : Memory) (db : PCIDB) : SubsysInv [] (initState m db) :=
  ⟨fun _ => rfl, fun _ => rfl⟩

theorem subsysInv_step {pre : List String} {s s' : ParserState} {l : String}
    (hL : Link (ctxAfter Ctx.init pre) s) (hI : SubsysInv pre s) (h : step s l = some s') :
    SubsysInv (pre ++ [l]) s' := by
  by_cases hprod : lineKind l = .oneTab ∧ s.inClassBlock = false
  · obtain ⟨hk, hb⟩ := hprod
    obtain ⟨-, a, v, -, -, rfl⟩ := step_product h hk hb
    obtain ⟨e1, -, e3, -, -⟩ := productEntry_effect s v.Id (cols 1 5 l) (colsFrom 7 l)
    refine ⟨fun h0 => (by rw [e1] at h0; cases h0), fun h0 => ?_⟩
    rw [e3]
    split
    · exact hI.noTabs fun x hx => h0 x (List.mem_append_left _ hx)
    · rfl
  · have hline : isProductLine (ctxAfter Ctx.init pre, l) = false := by
      cases hb : s.inClassBlock
      · have : lineKind l ≠ .oneTab := fun hk => hprod ⟨hk, hb⟩
        simp [isProductLine, this]
      · simp [isProductLine, ← hL.mode, hb]
    obtain ⟨-, f2⟩ := step_product_frame h hprod
    refine ⟨fun h0 => ?_, fun h0 => ?_⟩
    · rw [productLines_snoc, hline]
      simp only [Bool.false_eq_true, if_false, List.append_nil]
      exact hI.noProduct (by rw [← f2]; exact h0)
    · by_cases hsub : lineKind l = .tabs ∧ s.inClassBlock = false
      · obtain ⟨hk, hb⟩ := hsub
        obtain ⟨hlen, -⟩ := step_subsystem h hk hb
        have := h0 l (by simp)
        rw [isTwoTab_of_tabs hk (by omega)] at this
        cases this
      · rw [step_productSubsystems_frame h hprod hsub]
        exact hI.noTabs fun x hx => h0 x (List.mem_append_left _ hx)

theorem subsysInv_run {m : Memory} {db : PCIDB} {ls : List String} {s : ParserState}
    (h : run (initState m db) ls = some s) : SubsysInv ls s := by
  have := run_ghost (R := fun pre s => Link (ctxAfter Ctx.init pre) s ∧ SubsysInv pre s)
    (fun pre s l s' hR hs => by
      refine ⟨?_, subsysInv_step hR.1 hR.2 hs⟩
      rw [ctxAfter_append]
      exact link_step hR.1 hs)
    ls [] ⟨link_init m db, subsysInv_init m db⟩ h
  simpa using this.2

theorem no_twoTab_before_first {pre rest : List String} : ∀ {c : Ctx},
    twoTabBeforeFirstProduct c (pre ++ rest) = false → productLines c pre = [] →
    ∀ l ∈ pre, isTwoTab l = false := by
  induction pre with
  | nil => intro c _ _ l hl; cases hl
  | cons x xs ih =>
    intro c h hno l hl
    rw [productLines_cons] at hno
    have hnox : isProductLine (c, x) = false := by
      by_contra hx
      simp only [Bool.not_eq_false] at hx
      simp [hx] at hno
    have hnoxs : productLines (c.read x) xs = [] := by simpa [hnox] using hno
    simp only [List.cons_append, twoTabBeforeFirstProduct, hnox, Bool.false_eq_true, if_false,
      Bool.or_eq_false_iff] at h
    rcases List.mem_cons.1 hl with rfl | hl
    · exact h.1
    · exact ih h.2 hnoxs l hl

/-! ### Headers that repeat an id -/

theorem step_subclasses_heap_length {s s' : ParserState} {l : String}
    (h : step s l = some s') : s.mem.subclasses.length ≤ s'.mem.subclasses.length := by
  rcases step_cases h with ⟨_, rfl⟩ | ⟨_, _, rfl⟩ | ⟨_, _, rfl⟩ | ⟨_, _, _, rfl⟩ |
    ⟨_, _, _, b, v, _, _, rfl⟩ | ⟨_, _, _, rfl⟩ | ⟨_, _, _, rfl⟩
  · exact Nat.le_refl _
  · simp only [openClass, finalizeClass]; split <;> simp
  · simp only [openVendor, finalizeVendor]; split <;> simp
  · simp only [openSubclass, finalizeSubclass]; split <;> simp
  · simp only [openProduct, finalizeProduct]; split <;> simp
  · simp [addProgIface]
  · simp [addSubsystem]

theorem step_products_heap_length {s s' : ParserState} {l : String}
    (h : step s l = some s') : s.mem.products.length ≤ s'.mem.products.length := by
  rcases step_cases h with ⟨_, rfl⟩ | ⟨_, _, rfl⟩ | ⟨_, _, rfl⟩ | ⟨_, _, _, rfl⟩ |
    ⟨_, _, _, b, v, _, _, rfl⟩ | ⟨_, _, _, rfl⟩ | ⟨_, _, _, rfl⟩
  · exact Nat.le_refl _
  · simp only [openClass, finalizeClass]; split <;> simp
  · simp only [openVendor, finalizeVendor]; split <;> simp
  · simp only [openSubclass, finalizeSubclass]; split <;> simp
  · simp only [openProduct, finalizeProduct]; split <;> simp
  · simp [addProgIface]
  · simp [addSubsystem]

/-- After the last Class header with a given id, the record of that header
keeps its Name and its place in `Classes`, and only Subclass records allocated
after the header reach its `Subclasses`. -/
theorem class_recent_step {s s' : ParserState} {l : String} {a n0 : Nat} {id name : String}
    (h : step s l = some s') (hl : lineKind l = .classHeader → cols 2 4 l ≠ id)
    (hP : (∃ c, s.mem.classes[a]? = some c ∧ c.Name = name ∧ ∀ x ∈ c.Subclasses, n0 ≤ x) ∧
      (∀ x ∈ s.subclasses, n0 ≤ x) ∧ n0 ≤ s.mem.subclasses.length ∧
      s.db.Classes.lookup id = some a) :
    (∃ c, s'.mem.classes[a]? = some c ∧ c.Name = name ∧ ∀ x ∈ c.Subclasses, n0 ≤ x) ∧
      (∀ x ∈ s'.subclasses, n0 ≤ x) ∧ n0 ≤ s'.mem.subclasses.length ∧
      s'.db.Classes.lookup id = some a := by
  obtain ⟨⟨c, h1, h2, h3⟩, h4, h5, h6⟩ := hP
  have hlen := step_subclasses_heap_length h
  by_cases hk : lineKind l = .classHeader
  · obtain ⟨-, rfl⟩ := step_classHeader h hk
    obtain ⟨-, e2, e3, -, -, e6⟩ := classHeader_effect s (cols 2 4 l) (colsFrom 6 l)
    refine ⟨?_, ?_, Nat.le_trans h5 hlen, ?_⟩
    · rw [e6 a c h1]
      split
      · exact ⟨_, rfl, h2, h4⟩
      · exact ⟨_, rfl, h2, h3⟩
    · rw [e3]
      split
      · exact h4
      · intro x hx; cases hx
    · rw [e2, GoMap.lookup_store, if_neg (hl hk)]
      exact h6
  · obtain ⟨f1, f2, -⟩ := step_class_frame h hk
    rw [f1, f2]
    refine ⟨⟨c, h1, h2, h3⟩, ?_, Nat.le_trans h5 hlen, h6⟩
    by_cases hsub : lineKind l = .oneTab ∧ s.inClassBlock = true
    · obtain ⟨-, rfl⟩ := step_subclass h hsub.1 hsub.2
      have hsl : (finalizeSubclass s).subclasses = s.subclasses := by
        unfold finalizeSubclass; split <;> rfl
      have hml : (finalizeSubclass s).mem.subclasses.length = s.mem.subclasses.length := by
        unfold finalizeSubclass; split <;> simp
      intro x hx
      simp only [openSubclass, hsl, hml, List.mem_append, List.mem_singleton] at hx
      rcases hx with hx | rfl
      · exact h4 x hx
      · exact h5
    · rw [step_subclasses_frame h hk hsub]
      exact h4

/-- After the last Vendor header with a given id, the record of that header
keeps its Name and its place in `Vendors`, and only Product records allocated
after the header reach its `Products`. -/
theorem vendor_recent_step {s s' : ParserState} {l : String} {a n0 : Nat} {id name : String}
    (h : step s l = some s') (hl : lineKind l = .vendorHeader → cols 0 4 l ≠ id)
    (hP : (∃ c, s.mem.vendors[a]? = some c ∧ c.Name = name ∧ ∀ x ∈ c.Products, n0 ≤ x) ∧
      (∀ x ∈ s.vendorProducts, n0 ≤ x) ∧ n0 ≤ s.mem.products.length ∧
      s.db.Vendors.lookup id = some a) :
    (∃ c, s'.mem.vendors[a]? = some c ∧ c.Name = name ∧ ∀ x ∈ c.Products, n0 ≤ x) ∧
      (∀ x ∈ s'.vendorProducts, n0 ≤ x) ∧ n0 ≤ s'.mem.products.length ∧
      s'.db.Vendors.lookup id = some a := by
  obtain ⟨⟨c, h1, h2, h3⟩, h4, h5, h6⟩ := hP
  have hlen := step_products_heap_length h
  by_cases hk : lineKind l = .vendorHeader
  · obtain ⟨-, rfl⟩ := step_vendorHeader h hk
    obtain ⟨-, e2, e3, -, -, e6⟩ := vendorHeader_effect s (cols 0 4 l) (colsFrom 6 l)
    refine ⟨?_, ?_, Nat.le_trans h5 hlen, ?_⟩
    · rw [e6 a c h1]
      split
      · exact ⟨_, rfl, h2, h4⟩
      · exact ⟨_, rfl, h2, h3⟩
    · rw [e3]
      split
      · exact h4
      · intro x hx; cases hx
    · rw [e2, GoMap.lookup_store, if_neg (hl hk)]
      exact h6
  · obtain ⟨f1, f2, -⟩ := step_vendor_frame h hk
    rw [f1, f2]
    refine ⟨⟨c, h1, h2, h3⟩, ?_, Nat.le_trans h5 hlen, h6⟩
    by_cases hprod : lineKind l = .oneTab ∧ s.inClassBlock = false
    · obtain ⟨-, b, v, -, -, rfl⟩ := step_product h hprod.1 hprod.2
      have hsl : (finalizeProduct s).vendorProducts = s.vendorProducts := by
        unfold finalizeProduct; split <;> rfl
      intro x hx
      simp only [openProduct, hsl, length_finalizeProduct, List.mem_append,
        List.mem_singleton] at hx
      rcases hx with hx | rfl
      · exact h4 x hx
      · exact h5
    · rw [step_vendorProducts_frame h hk hprod]
      exact h4

/-! ### Skipped lines -/

theorem step_skipped (s : ParserState) {l : String} (h : isSkipped l = true) :
    step s l = some s := by
  simp only [isSkipped, Bool.decide_or, Bool.or_eq_true, decide_eq_true_eq] at h
  rcases h with h | h
  · subst h; rfl
  · unfold firstChar at h
    unfold step
    cases hd : l.data with
    | nil => rfl
    | cons c0 rest =>
      rw [hd] at h
      simp only [List.head?_cons, Option.some.injEq] at h
      simp [h]

theorem run_filter_skipped (s : ParserState) (ls : List String) :
    run s (ls.filter fun l => !isSkipped l) = run s ls := by
  induction ls generalizing s with
  | nil => rfl
  | cons x xs ih =>
    by_cases hx : isSkipped x = true
    · simp only [List.filter_cons, hx, Bool.not_true, Bool.false_eq_true, if_false, run,
        step_skipped s hx, Option.some_bind]
      exact ih s
    · simp only [Bool.not_eq_true] at hx
      simp only [List.filter_cons, hx, Bool.not_false, if_true, run]
      cases step s x with
      | none => rfl
      | some s1 => simpa using ih s1

/-! ### Progress -/

theorem slice_of_le {lb : List Char} (lo : Nat) {hi : Nat} (h : hi ≤ lb.length) :
    slice lb lo hi = some (String.mk ((lb.drop lo).take (hi - lo))) := by
  simp [slice, h]

theorem sliceFrom_of_le {lb : List Char} {lo : Nat} (h : lo ≤ lb.length) :
    sliceFrom lb lo = some (String.mk (lb.drop lo)) := by
  simp [sliceFrom, h]

/-- A line of two or more tabs that is long enough is accepted in every state,
whatever the current Subclass and the current Product are. -/
theorem step_tabs_accepted (s : ParserState) {l : String} (hk : lineKind l = .tabs)
    (hlen : (if s.inClassBlock then 6 else 13) ≤ l.length) : ∃ s', step s l = some s' := by
  rw [step_eq, hk]
  simp only [String.length] at hlen
  cases hb : s.inClassBlock
  · simp only [hb, Bool.false_eq_true, if_false] at hlen ⊢
    simp only [subsystemLeaf, slice_of_le 2 (show 6 ≤ l.data.length by omega),
      slice_of_le 7 (show 11 ≤ l.data.length by omega), sliceFrom_of_le hlen,
      Option.some_bind]
    exact ⟨_, rfl⟩
  · simp only [hb, if_true] at hlen ⊢
    simp only [progIfaceLeaf, slice_of_le 2 (show 4 ≤ l.data.length by omega),
      sliceFrom_of_le hlen, Option.some_bind]
    exact ⟨_, rfl⟩

/-- A well-formed line is read without a panic. -/
theorem step_progress {c : Ctx} {s : ParserState} {l : String} (hL : Link c s)
    (hwf : wellFormedLine (c, l) = true) : ∃ s', step s l = some s' := by
  unfold wellFormedLine at hwf
  cases hk : lineKind l <;> simp only [hk] at hwf
  · exact ⟨s, by rw [step_eq, hk]⟩
  · simp only [decide_eq_true_eq, String.length] at hwf
    rw [step_eq, hk]
    simp only [classHeader, slice_of_le 2 (show 4 ≤ l.data.length by omega),
      sliceFrom_of_le hwf, Option.some_bind]
    exact ⟨_, rfl⟩
  · simp only [decide_eq_true_eq, String.length] at hwf
    rw [step_eq, hk]
    simp only [vendorHeader, slice_of_le 0 (show 4 ≤ l.data.length by omega),
      sliceFrom_of_le hwf, Option.some_bind]
    exact ⟨_, rfl⟩
  · rw [step_eq, hk]
    cases hb : c.inClass
    · simp only [hb, Bool.false_eq_true, if_false, Bool.decide_and, Bool.and_eq_true,
        decide_eq_true_eq, String.length] at hwf
      obtain ⟨hlen, hv⟩ := hwf
      obtain ⟨v, hv⟩ := Option.isSome_iff_exists.1 hv
      obtain ⟨a, cell, h1, h2, -⟩ := hL.vendorSome v hv
      have hcur : (finalizeProduct s).curVendor = some a := by
        unfold finalizeProduct; split <;> simpa using h1
      have hmem : (finalizeProduct s).mem.vendors[a]? = some cell := by
        unfold finalizeProduct; split <;> simpa using h2
      rw [hL.mode, hb]
      simp only [Bool.false_eq_true, if_false, productEntry,
        slice_of_le 1 (show 5 ≤ l.data.length by omega), sliceFrom_of_le hlen,
        Option.some_bind, hcur, hmem]
      exact ⟨_, rfl⟩
    · simp only [hb, if_true, decide_eq_true_eq, String.length] at hwf
      rw [hL.mode, hb]
      simp only [if_true, subclassEntry, slice_of_le 1 (show 3 ≤ l.data.length by omega),
        sliceFrom_of_le hwf, Option.some_bind]
      exact ⟨_, rfl⟩
  · apply step_tabs_accepted s hk
    rw [hL.mode]
    cases hb : c.inClass <;> simpa [hb] using hwf

theorem run_progress {ls : List String} : ∀ {c : Ctx} {s : ParserState}, Link c s →
    (∀ e ∈ annotate c ls, wellFormedLine e = true) → ∃ s', run s ls = some s' := by
  induction ls with
  | nil => intro c s _ _; exact ⟨s, rfl⟩
  | cons x xs ih =>
    intro c s hL hwf
    obtain ⟨s1, h1⟩ := step_progress hL (hwf (c, x) (by simp [annotate]))
    obtain ⟨s2, h2⟩ := ih (link_step hL h1)
      (fun e he => hwf e (by simp only [annotate, List.mem_cons]; exact Or.inr he))
    exact ⟨s2, by simp [run, h1, h2]⟩

/-- A line that is too short for its slices is not read: the step panics. -/
theorem step_tooShort {c : Ctx} {s : ParserState} {l : String} (hL : Link c s)
    (h : tooShort (c, l) = true) : step s l = none := by
  cases hs : step s l with
  | none => rfl
  | some s' =>
    exfalso
    simp only [tooShort, requiredLength, decide_eq_true_eq] at h
    rcases step_cases hs with ⟨hk, _⟩ | ⟨hk, hlen, _⟩ | ⟨hk, hlen, _⟩ | ⟨hk, hb, hlen, _⟩ |
      ⟨hk, hb, hlen, _⟩ | ⟨hk, hb, hlen, _⟩ | ⟨hk, hb, hlen, _⟩
    · simp [hk] at h
    · simp only [hk] at h; omega
    · simp only [hk] at h; omega
    · rw [hL.mode] at hb; simp only [hk, hb, if_true] at h; omega
    · rw [hL.mode] at hb; simp only [hk, hb, Bool.false_eq_true, if_false] at h; omega
    · rw [hL.mode] at hb; simp only [hk, hb, if_true] at h; omega
    · rw [hL.mode] at hb; simp only [hk, hb, Bool.false_eq_true, if_false] at h; omega

theorem run_none_of_step_none {m : Memory} {db : PCIDB} {pre post : List String} {l : String}
    (h : ∀ s, run (initState m db) pre = some s → step s l = none) :
    parsePCIIdsFile m db (pre ++ l :: post) = none := by
  cases hp : parsePCIIdsFile m db (pre ++ l :: post) with
  | none => rfl
  | some r =>
    exfalso
    obtain ⟨sf, hs, -⟩ := parse_eq_some hp
    obtain ⟨s0, hs0, hs'⟩ := run_append_eq_some hs
    obtain ⟨s1, hs1, -⟩ := run_cons_eq_some hs'
    rw [h s0 hs0] at hs1
    cases hs1

/-! ### The loader -/

theorem parse_err_nil {m : Memory} {db : PCIDB} {L : List String} {r : ParseResult}
    (h : parsePCIIdsFile m db L = some r) : r.err = none := by
  obtain ⟨s, -, rfl⟩ := parse_eq_some h
  rfl

theorem loadLoop_eq (fs : FileSystem) (paths : List String) (m : Memory) (db : PCIDB) :
    loadLoop fs paths m db =
      match firstOpenable fs paths with
      | none => some { mem := m, db := db, err := none }
      | some lines => parsePCIIdsFile m db lines := by
  induction paths with
  | nil => rfl
  | cons fp rest ih =>
    unfold loadLoop firstOpenable
    cases hs : fs.stat fp
    · simp only [if_true]; exact ih
    · simp only [Bool.true_eq_false, if_false]
      cases ho : fs.openFile fp with
      | none => simp only; exact ih
      | some lines =>
        simp only
        cases hp : parsePCIIdsFile m db lines with
        | none => rfl
        | some r =>
          have he := parse_err_nil hp
          simp only [he, if_true]
          cases r
          simp_all

/-! ### The ProgrammingInterfaces of a Subclass -/

theorem length_finalizeSubclass (s : ParserState) :
    (finalizeSubclass s).mem.subclasses.length = s.mem.subclasses.length := by
  unfold finalizeSubclass; split <;> simp

theorem getElem?_finalizeSubclass (s : ParserState) (a : Addr) :
    (finalizeSubclass s).mem.subclasses[a]? =
      if s.curSubclass = some a then
        (s.mem.subclasses[a]?).map fun c => { c with ProgrammingInterfaces := s.progIfaces }
      else s.mem.subclasses[a]? := by
  unfold finalizeSubclass
  cases hc : s.curSubclass with
  | none => simp
  | some b =>
    by_cases hb : b = a
    · subst hb; simp
    · simp [List.getElem?_modify, hb]

/-- What a Subclass line does to the Subclass side of the state. -/
theorem subclassEntry_effect (s : ParserState) (id name : String) :
    (openSubclass (finalizeSubclass s) id name).curSubclass = some s.mem.subclasses.length ∧
    (openSubclass (finalizeSubclass s) id name).progIfaces =
      (if s.curSubclass = none then s.progIfaces else []) ∧
    (openSubclass (finalizeSubclass s) id name).mem.subclasses[s.mem.subclasses.length]? =
      some ⟨id, name, if s.curSubclass = none then s.progIfaces else []⟩ ∧
    (openSubclass (finalizeSubclass s) id name).mem.progIfaces = s.mem.progIfaces ∧
    ∀ (a : Addr) (c : PCISubclass), s.mem.subclasses[a]? = some c →
      (openSubclass (finalizeSubclass s) id name).mem.subclasses[a]? =
        some (if s.curSubclass = some a then { c with ProgrammingInterfaces := s.progIfaces }
          else c) := by
  have hsub : (finalizeSubclass s).progIfaces =
      if s.curSubclass = none then s.progIfaces else [] := by
    unfold finalizeSubclass; split <;> simp_all
  refine ⟨?_, ?_, ?_, ?_, ?_⟩
  · simp [openSubclass, length_finalizeSubclass]
  · simp only [openSubclass, hsub]
  · simp only [openSubclass, hsub]
    rw [← length_finalizeSubclass s]
    exact List.getElem?_concat_length _ _
  · simp only [openSubclass, finalizeSubclass]; split <;> simp
  · intro a c hc
    have hlt : a < (finalizeSubclass s).mem.subclasses.length := by
      rw [length_finalizeSubclass]; exact lt_length_of_getElem? hc
    simp only [openSubclass]
    rw [List.getElem?_append_left hlt, getElem?_finalizeSubclass, hc]
    split <;> rfl

/-- A line that is not read as a Subclass line leaves the Subclass heap and
`curSubclass` alone. -/
theorem step_subclass_frame {s s' : ParserState} {l : String} (h : step s l = some s')
    (hs : ¬ (lineKind l = .oneTab ∧ s.inClassBlock = true)) :
    s'.mem.subclasses = s.mem.subclasses ∧ s'.curSubclass = s.curSubclass := by
  rcases step_cases h with ⟨_, rfl⟩ | ⟨_, _, rfl⟩ | ⟨_, _, rfl⟩ | ⟨hk1, hb, _, rfl⟩ |
    ⟨_, _, _, a, v, _, _, rfl⟩ | ⟨_, _, _, rfl⟩ | ⟨_, _, _, rfl⟩
  · exact ⟨rfl, rfl⟩
  · simp only [openClass, finalizeClass]; split <;> simp
  · simp only [openVendor, finalizeVendor]; split <;> simp
  · exact absurd ⟨hk1, hb⟩ hs
  · simp only [openProduct, finalizeProduct]; split <;> simp
  · simp [addProgIface]
  · simp [addSubsystem]

/-- Only Subclass lines and ProgrammingInterface lines touch the
ProgrammingInterface accumulator. -/
theorem step_progIfaces_frame {s s' : ParserState} {l : String} (h : step s l = some s')
    (hs : ¬ (lineKind l = .oneTab ∧ s.inClassBlock = true))
    (hp : ¬ (lineKind l = .tabs ∧ s.inClassBlock = true)) :
    s'.progIfaces = s.progIfaces := by
  rcases step_cases h with ⟨_, rfl⟩ | ⟨_, _, rfl⟩ | ⟨_, _, rfl⟩ | ⟨hk1, hb, _, rfl⟩ |
    ⟨_, _, _, a, v, _, _, rfl⟩ | ⟨hk1, hb, _, rfl⟩ | ⟨_, _, _, rfl⟩
  · rfl
  · simp only [openClass, finalizeClass]; split <;> simp
  · simp only [openVendor, finalizeVendor]; split <;> simp
  · exact absurd ⟨hk1, hb⟩ hs
  · simp only [openProduct, finalizeProduct]; split <;> simp
  · exact absurd ⟨hk1, hb⟩ hp
  · simp [addSubsystem]

/-- A step keeps every ProgrammingInterface record in memory as it is. -/
theorem step_progIface_heap {s s' : ParserState} {l : String} (h : step s l = some s')
    {a : Addr} {p : PCIProgrammingInterface} (hp : s.mem.progIfaces[a]? = some p) :
    s'.mem.progIfaces[a]? = some p := by
  rcases step_cases h with ⟨_, rfl⟩ | ⟨_, _, rfl⟩ | ⟨_, _, rfl⟩ | ⟨_, _, _, rfl⟩ |
    ⟨_, _, _, b, v, _, _, rfl⟩ | ⟨_, _, _, rfl⟩ | ⟨_, _, _, rfl⟩
  · exact hp
  · simp only [openClass, finalizeClass]; split <;> simpa using hp
  · simp only [openVendor, finalizeVendor]; split <;> simpa using hp
  · simp only [openSubclass, finalizeSubclass]; split <;> simpa using hp
  · simp only [openProduct, finalizeProduct]; split <;> simpa using hp
  · simp only [addProgIface]
    rw [List.getElem?_append_left (lt_length_of_getElem? hp)]
    exact hp
  · simpa [addSubsystem] using hp

theorem run_progIface_heap {ls : List String} : ∀ {s s' : ParserState}, run s ls = some s' →
    ∀ {a : Addr} {p : PCIProgrammingInterface}, s.mem.progIfaces[a]? = some p →
    s'.mem.progIfaces[a]? = some p := by
  induction ls with
  | nil => intro s s' h a p hp; simp only [run, Option.some.injEq] at h; exact h ▸ hp
  | cons x xs ih =>
    intro s s' h a p hp
    obtain ⟨s1, h1, h2⟩ := run_cons_eq_some h
    exact ih h2 (step_progIface_heap h1 hp)

theorem progIfacesAt_stable {s s' : ParserState} {ls : List String} (h : run s ls = some s')
    {ps : List Addr} {acc : List PCIProgrammingInterface}
    (hacc : s.mem.progIfacesAt ps = acc.map some) :
    s'.mem.progIfacesAt ps = acc.map some := by
  rw [← hacc]
  unfold Memory.progIfacesAt
  apply List.map_congr_left
  intro a ha
  have : s.mem.progIfaces[a]? ∈ acc.map some := by
    rw [← hacc]; exact List.mem_map_of_mem (fun a => s.mem.progIfaces[a]?) ha
  obtain ⟨x, -, hx⟩ := List.mem_map.1 this
  rw [← hx]
  exact run_progIface_heap h hx.symm

theorem progIfaceLines_cons (c : Ctx) (l : String) (ls : List String) :
    progIfaceLines c (l :: ls) =
      (if isProgIfaceLine (c, l) then [l] else []) ++ progIfaceLines (c.read l) ls := by
  unfold progIfaceLines
  by_cases h : isProgIfaceLine (c, l) = true <;> simp [annotate, List.filter_cons, h]

/-- Between two Subclass lines the ProgrammingInterface accumulator grows by one
record per ProgrammingInterface line, whatever headers are read, and the
Subclass side of the state does not move. -/
theorem progIfaces_accumulate {ls : List String} : ∀ {c : Ctx} {s s' : ParserState}
    (acc : List PCIProgrammingInterface), run s ls = some s' →
    subclassLines c ls = [] → s.inClassBlock = c.inClass →
    s.mem.progIfacesAt s.progIfaces = acc.map some →
    s'.mem.subclasses = s.mem.subclasses ∧ s'.curSubclass = s.curSubclass ∧
    s'.mem.progIfacesAt s'.progIfaces =
      (acc ++ (progIfaceLines c ls).map fun l =>
        PCIProgrammingInterface.mk (cols 2 4 l) (colsFrom 6 l)).map some := by
  induction ls with
  | nil =>
    intro c s s' acc h _ _ hacc
    simp only [run, Option.some.injEq] at h
    subst h
    exact ⟨rfl, rfl, by simpa [progIfaceLines, annotate] using hacc⟩
  | cons x xs ih =>
    intro c s s' acc h hno hm hacc
    obtain ⟨s1, h1, h2⟩ := run_cons_eq_some h
    rw [subclassLines_cons] at hno
    have hnox : isSubclassLine (c, x) = false := by
      by_contra hx
      simp only [Bool.not_eq_false] at hx
      simp [hx] at hno
    have hnoxs : subclassLines (c.read x) xs = [] := by
      simpa [hnox] using hno
    have hsub : ¬ (lineKind x = .oneTab ∧ s.inClassBlock = true) := by
      rintro ⟨hk, hb⟩
      simp [isSubclassLine, ← hm, hb, hk] at hnox
    obtain ⟨f1, f2⟩ := step_subclass_frame h1 hsub
    have hm1 := step_mode h1 hm
    have key : s1.mem.progIfacesAt s1.progIfaces =
        (acc ++ (if isProgIfaceLine (c, x) then
          [PCIProgrammingInterface.mk (cols 2 4 x) (colsFrom 6 x)] else [])).map some := by
      by_cases hpi : lineKind x = .tabs ∧ s.inClassBlock = true
      · obtain ⟨hk, hb⟩ := hpi
        obtain ⟨hlen, rfl⟩ := step_progIface h1 hk hb
        have hline : isProgIfaceLine (c, x) = true := by
          simp [isProgIfaceLine, ← hm, hb, isTwoTab_of_tabs hk (by omega)]
        rw [hline]
        simp only [addProgIface, if_true, List.map_append, List.map_cons, List.map_nil,
          Memory.progIfacesAt]
        congr 1
        · rw [← hacc]
          unfold Memory.progIfacesAt
          apply List.map_congr_left
          intro a ha
          have : s.mem.progIfaces[a]? ∈ acc.map some := by
            rw [← hacc]; exact List.mem_map_of_mem (fun a => s.mem.progIfaces[a]?) ha
          obtain ⟨y, -, hy⟩ := List.mem_map.1 this
          rw [List.getElem?_append_left (lt_length_of_getElem? hy.symm)]
        · simp
      · have hline : isProgIfaceLine (c, x) = false := by
          cases hb : s.inClassBlock
          · simp [isProgIfaceLine, ← hm, hb]
          · have hk : lineKind x ≠ .tabs := fun hk => hpi ⟨hk, hb⟩
            have : isTwoTab x = false := by
              by_contra ht
              simp only [Bool.not_eq_false] at ht
              exact hk (tabs_of_isTwoTab ht)
            simp [isProgIfaceLine, this]
        rw [hline, step_progIfaces_frame h1 hsub hpi]
        simp only [Bool.false_eq_true, if_false, List.append_nil]
        have hrun1 : run s [x] = some s1 := by simp [run, h1]
        exact progIfacesAt_stable hrun1 hacc
    obtain ⟨g1, g2, g3⟩ := ih _ h2 hnoxs hm1 key
    refine ⟨g1.trans f1, g2.trans f2, ?_⟩
    rw [g3, progIfaceLines_cons]
    by_cases hline : isProgIfaceLine (c, x) = true <;> simp [hline]

/-- Once another Subclass is current, a Subclass record stays as it is. -/
theorem subclass_settled_step {s s' : ParserState} {l : String} {a : Addr} {c0 : PCISubclass}
    (h : step s l = some s')
    (hP : s.mem.subclasses[a]? = some c0 ∧ s.curSubclass ≠ some a) :
    s'.mem.subclasses[a]? = some c0 ∧ s'.curSubclass ≠ some a := by
  obtain ⟨h1, h2⟩ := hP
  by_cases hsub : lineKind l = .oneTab ∧ s.inClassBlock = true
  · obtain ⟨-, rfl⟩ := step_subclass h hsub.1 hsub.2
    obtain ⟨e1, -, -, -, e5⟩ := subclassEntry_effect s (cols 1 3 l) (colsFrom 5 l)
    refine ⟨?_, ?_⟩
    · rw [e5 a c0 h1, if_neg h2]
    · rw [e1]
      intro hEq
      simp only [Option.some.injEq] at hEq
      have := lt_length_of_getElem? h1
      omega
  · obtain ⟨f1, f2⟩ := step_subclass_frame h hsub
    rw [f1, f2]
    exact ⟨h1, h2⟩

/-- While `curSubclass` is nil no Subclass line has been read. -/
theorem subclass_seen_run {m : Memory} {db : PCIDB} {ls : List String} {s : ParserState}
    (h : run (initState m db) ls = some s) :
    s.curSubclass = none → subclassLines Ctx.init ls = [] := by
  have := run_ghost
    (R := fun pre s => Link (ctxAfter Ctx.init pre) s ∧
      (s.curSubclass = none → subclassLines Ctx.init pre = []))
    (fun pre s l s' hR hs => by
      obtain ⟨hL, hI⟩ := hR
      refine ⟨by rw [ctxAfter_append]; exact link_step hL hs, ?_⟩
      by_cases hsub : lineKind l = .oneTab ∧ s.inClassBlock = true
      · obtain ⟨-, rfl⟩ := step_subclass hs hsub.1 hsub.2
        obtain ⟨e1, -⟩ := subclassEntry_effect s (cols 1 3 l) (colsFrom 5 l)
        intro h0
        rw [e1] at h0
        cases h0
      · obtain ⟨-, f2⟩ := step_subclass_frame hs hsub
        have hline : isSubclassLine (ctxAfter Ctx.init pre, l) = false := by
          cases hb : s.inClassBlock
          · simp [isSubclassLine, ← hL.mode, hb]
          · have : lineKind l ≠ .oneTab := fun hk => hsub ⟨hk, hb⟩
            simp [isSubclassLine, this]
        intro h0
        rw [f2] at h0
        have := hI h0
        unfold subclassLines at this ⊢
        rw [annotate_append, List.filter_append, List.map_append, this]
        simp [annotate, List.filter_cons, hline])
    ls [] ⟨link_init m db, fun _ => rfl⟩ h
  simpa using this.2

/-! ### Relocation -/

theorem modify_map_comm {α : Type} (f g g' : α → α) (hfg : ∀ x, g (f x) = f (g' x)) :
    ∀ (xs : List α) (a : Nat), (xs.map f).modify g a = (xs.modify g' a).map f := by
  intro xs
  induction xs with
  | nil => intro a; cases a <;> rfl
  | cons x xs ih =>
    intro a
    cases a with
    | zero => simp [List.modify, hfg]
    | succ a => simp [ih a]

theorem modify_append_map {α : Type} (f g g' : α → α) (hfg : ∀ x, g (f x) = f (g' x))
    (pre xs : List α) (a : Nat) :
    (pre ++ xs.map f).modify g (pre.length + a) = pre ++ (xs.modify g' a).map f := by
  induction pre with
  | nil => simpa using modify_map_comm f g g' hfg xs a
  | cons p pre ih =>
    have : (p :: pre).length + a = (pre.length + a) + 1 := by simp; omega
    rw [this, List.cons_append, List.modify_succ_cons, ih]
    rfl

theorem getElem?_append_map {α : Type} (f : α → α) (pre xs : List α) (a : Nat) :
    (pre ++ xs.map f)[pre.length + a]? = (xs[a]?).map f := by
  rw [List.getElem?_append_right (by omega)]
  simp

theorem GoMap.store_shift (n : Nat) (mp : GoMap) (k : String) (a : Addr) :
    (mp.shift n).store k (n + a) = (mp.store k a).shift n := by
  simp only [GoMap.shift, GoMap.store, List.map_cons, List.filter_map]
  congr 2

theorem GoMap.lookup_shift (n : Nat) (mp : GoMap) (k : String) :
    (mp.shift n).lookup k = (mp.lookup k).map (n + ·) := by
  simp only [GoMap.shift, GoMap.lookup, List.find?_map, Option.map_map]
  rfl

theorem GoMap.keys_shift (n : Nat) (mp : GoMap) : (mp.shift n).keys = mp.keys := by
  simp [GoMap.shift, GoMap.keys]

theorem relocate_initState (m : Memory) (db : PCIDB) :
    initState m db = (initState Memory.empty PCIDB.empty).relocate m := by
  simp [initState, ParserState.relocate, Memory.relocate, Memory.empty, PCIDB.relocate,
    GoMap.shift, GoMap.empty]

theorem relocate_finalizeClass (m : Memory) (s : ParserState) :
    finalizeClass (s.relocate m) = (finalizeClass s).relocate m := by
  unfold finalizeClass
  cases hc : s.curClass with
  | none => simp [ParserState.relocate, hc]
  | some a =>
    simp only [ParserState.relocate, hc, Option.map_some', Memory.relocate, List.map_nil]
    rw [modify_append_map (PCIClass.shift m.subclasses.length) _
      (fun c => { c with Subclasses := s.subclasses }) (fun x => rfl)]

theorem relocate_finalizeVendor (m : Memory) (s : ParserState) :
    finalizeVendor (s.relocate m) = (finalizeVendor s).relocate m := by
  unfold finalizeVendor
  cases hc : s.curVendor with
  | none => simp [ParserState.relocate, hc]
  | some a =>
    simp only [ParserState.relocate, hc, Option.map_some', Memory.relocate, List.map_nil]
    rw [modify_append_map (PCIVendor.shift m.products.length) _
      (fun c => { c with Products := s.vendorProducts }) (fun x => rfl)]

theorem relocate_finalizeSubclass (m : Memory) (s : ParserState) :
    finalizeSubclass (s.relocate m) = (finalizeSubclass s).relocate m := by
  unfold finalizeSubclass
  cases hc : s.curSubclass with
  | none => simp [ParserState.relocate, hc]
  | some a =>
    simp only [ParserState.relocate, hc, Option.map_some', Memory.relocate, List.map_nil]
    rw [modify_append_map (PCISubclass.shift m.progIfaces.length) _
      (fun c => { c with ProgrammingInterfaces := s.progIfaces }) (fun x => rfl)]

theorem relocate_finalizeProduct (m : Memory) (s : ParserState) :
    finalizeProduct (s.relocate m) = (finalizeProduct s).relocate m := by
  unfold finalizeProduct
  cases hc : s.curProduct with
  | none => simp [ParserState.relocate, hc]
  | some a =>
    simp only [ParserState.relocate, hc, Option.map_some', Memory.relocate, List.map_nil]
    rw [modify_append_map (PCIProduct.shift m.products.length) _
      (fun c => { c with Subsystems := s.productSubsystems }) (fun x => rfl)]

theorem relocate_openClass (m : Memory) (s : ParserState) (id name : String) :
    openClass (s.relocate m) id name = (openClass s id name).relocate m := by
  simp [openClass, ParserState.relocate, Memory.relocate, PCIDB.relocate, GoMap.store_shift,
    PCIClass.shift]

theorem relocate_openVendor (m : Memory) (s : ParserState) (id name : String) :
    openVendor (s.relocate m) id name = (openVendor s id name).relocate m := by
  simp [openVendor, ParserState.relocate, Memory.relocate, PCIDB.relocate, GoMap.store_shift,
    PCIVendor.shift]

theorem relocate_openSubclass (m : Memory) (s : ParserState) (id name : String) :
    openSubclass (s.relocate m) id name = (openSubclass s id name).relocate m := by
  simp [openSubclass, ParserState.relocate, Memory.relocate, PCISubclass.shift]

theorem relocate_openProduct (m : Memory) (s : ParserState) (vid id name : String) :
    openProduct (s.relocate m) vid id name = (openProduct s vid id name).relocate m := by
  simp [openProduct, ParserState.relocate, Memory.relocate, PCIDB.relocate, GoMap.store_shift,
    PCIProduct.shift]

theorem relocate_addProgIface (m : Memory) (s : ParserState) (id name : String) :
    addProgIface (s.relocate m) id name = (addProgIface s id name).relocate m := by
  simp [addProgIface, ParserState.relocate, Memory.relocate]

theorem relocate_addSubsystem (m : Memory) (s : ParserState) (vid id name : String) :
    addSubsystem (s.relocate m) vid id name = (addSubsystem s vid id name).relocate m := by
  simp [addSubsystem, ParserState.relocate, Memory.relocate, PCIProduct.shift]

/-- The current Vendor of a relocated state is the relocated current Vendor. -/
theorem relocate_curVendor (m : Memory) (s : ParserState) :
    ((s.relocate m).curVendor.bind fun a => (s.relocate m).mem.vendors[a]?) =
      (s.curVendor.bind fun a => s.mem.vendors[a]?).map (PCIVendor.shift m.products.length) := by
  cases hc : s.curVendor with
  | none => simp [ParserState.relocate, hc]
  | some a =>
    simp only [ParserState.relocate, hc, Option.map_some', Option.some_bind, Memory.relocate]
    exact getElem?_append_map _ _ _ _

/-- One step of the loop commutes with relocation. -/
theorem relocate_step (m : Memory) (s : ParserState) (l : String) :
    step (s.relocate m) l = (step s l).map (ParserState.relocate m) := by
  rw [step_eq, step_eq]
  have hmode : (s.relocate m).inClassBlock = s.inClassBlock := rfl
  cases lineKind l
  · rfl
  · simp only [classHeader, relocate_finalizeClass]
    cases slice l.data 2 4 <;> simp only [Option.none_bind, Option.some_bind, Option.map_none']
    cases sliceFrom l.data 6 <;> simp only [Option.none_bind, Option.some_bind, Option.map_none']
    simp [relocate_openClass]
  · simp only [vendorHeader, relocate_finalizeVendor]
    cases slice l.data 0 4 <;> simp only [Option.none_bind, Option.some_bind, Option.map_none']
    cases sliceFrom l.data 6 <;> simp only [Option.none_bind, Option.some_bind, Option.map_none']
    simp [relocate_openVendor]
  · simp only [hmode]
    cases s.inClassBlock
    · simp only [Bool.false_eq_true, if_false, productEntry, relocate_finalizeProduct]
      cases slice l.data 1 5 <;> simp only [Option.none_bind, Option.some_bind, Option.map_none']
      cases sliceFrom l.data 7 <;>
        simp only [Option.none_bind, Option.some_bind, Option.map_none']
      rw [relocate_curVendor]
      cases (finalizeProduct s).curVendor.bind fun a => (finalizeProduct s).mem.vendors[a]? with
      | none => rfl
      | some v => simp [relocate_openProduct, PCIVendor.shift]
    · simp only [if_true, subclassEntry, relocate_finalizeSubclass]
      cases slice l.data 1 3 <;> simp only [Option.none_bind, Option.some_bind, Option.map_none']
      cases sliceFrom l.data 5 <;>
        simp only [Option.none_bind, Option.some_bind, Option.map_none']
      simp [relocate_openSubclass]
  · simp only [hmode]
    cases s.inClassBlock
    · simp only [Bool.false_eq_true, if_false, subsystemLeaf]
      cases slice l.data 2 6 <;> simp only [Option.none_bind, Option.some_bind, Option.map_none']
      cases slice l.data 7 11 <;> simp only [Option.none_bind, Option.some_bind, Option.map_none']
      cases sliceFrom l.data 13 <;>
        simp only [Option.none_bind, Option.some_bind, Option.map_none']
      simp [relocate_addSubsystem]
    · simp only [if_true, progIfaceLeaf]
      cases slice l.data 2 4 <;> simp only [Option.none_bind, Option.some_bind, Option.map_none']
      cases sliceFrom l.data 6 <;>
        simp only [Option.none_bind, Option.some_bind, Option.map_none']
      simp [relocate_addProgIface]

theorem relocate_run (m : Memory) (ls : List String) : ∀ (s : ParserState),
    run (s.relocate m) ls = (run s ls).map (ParserState.relocate m) := by
  induction ls with
  | nil => intro s; rfl
  | cons x xs ih =>
    intro s
    simp only [run, relocate_step]
    cases step s x with
    | none => rfl
    | some s1 => simpa using ih s1

/-- The parse from a prior memory `m` and any prior Database is the parse from
the empty memory, placed behind `m`. -/
theorem relocate_parse (m : Memory) (db : PCIDB) (L : List String) :
    parsePCIIdsFile m db L =
      (parsePCIIdsFile Memory.empty PCIDB.empty L).map (ParseResult.relocate m) := by
  unfold parsePCIIdsFile
  rw [relocate_initState m db, relocate_run]
  cases run (initState Memory.empty PCIDB.empty) L with
  | none => rfl
  | some s => rfl

/-! ### The value of a relocated result -/

theorem relocate_progIfacesAt (m x : Memory) (ps : List Addr) :
    (m.relocate x).progIfacesAt (ps.map (m.progIfaces.length + ·)) = x.progIfacesAt ps := by
  simp only [Memory.progIfacesAt, Memory.relocate, List.map_map]
  apply List.map_congr_left
  intro a _
  simp only [Function.comp]
  rw [List.getElem?_append_right (by omega)]
  simp

theorem relocate_productIdents (m x : Memory) (ps : List Addr) :
    (m.relocate x).productIdents (ps.map (m.products.length + ·)) = x.productIdents ps := by
  simp only [Memory.productIdents, Memory.relocate, List.map_map]
  apply List.map_congr_left
  intro a _
  simp only [Function.comp]
  rw [getElem?_append_map]
  cases x.products[a]? <;> rfl

theorem relocate_subclassValue (m x : Memory) (a : Addr) :
    (m.relocate x).subclassValue (m.subclasses.length + a) = x.subclassValue a := by
  unfold Memory.subclassValue
  have h : (m.relocate x).subclasses[m.subclasses.length + a]? =
      (x.subclasses[a]?).map (PCISubclass.shift m.progIfaces.length) :=
    getElem?_append_map _ _ _ _
  rw [h]
  cases x.subclasses[a]? with
  | none => rfl
  | some c => simp [PCISubclass.shift, relocate_progIfacesAt]

theorem relocate_classValue (m x : Memory) (a : Addr) :
    (m.relocate x).classValue (m.classes.length + a) = x.classValue a := by
  unfold Memory.classValue
  have h : (m.relocate x).classes[m.classes.length + a]? =
      (x.classes[a]?).map (PCIClass.shift m.subclasses.length) :=
    getElem?_append_map _ _ _ _
  rw [h]
  cases x.classes[a]? with
  | none => rfl
  | some c =>
    simp only [Option.map_some', PCIClass.shift, List.map_map, Option.some.injEq,
      ClassValue.mk.injEq, true_and]
    apply List.map_congr_left
    intro b _
    exact relocate_subclassValue m x b

theorem relocate_subsystemValue (m x : Memory) (a : Addr) :
    (m.relocate x).subsystemValue (m.products.length + a) = x.subsystemValue a := by
  unfold Memory.subsystemValue
  have h : (m.relocate x).products[m.products.length + a]? =
      (x.products[a]?).map (PCIProduct.shift m.products.length) :=
    getElem?_append_map _ _ _ _
  rw [h]
  cases x.products[a]? with
  | none => rfl
  | some c => simp [PCIProduct.shift, relocate_productIdents]

theorem relocate_productValue (m x : Memory) (a : Addr) :
    (m.relocate x).productValue (m.products.length + a) = x.productValue a := by
  unfold Memory.productValue
  have h : (m.relocate x).products[m.products.length + a]? =
      (x.products[a]?).map (PCIProduct.shift m.products.length) :=
    getElem?_append_map _ _ _ _
  rw [h]
  cases x.products[a]? with
  | none => rfl
  | some c =>
    simp only [Option.map_some', PCIProduct.shift, List.map_map, Option.some.injEq,
      ProductValue.mk.injEq, true_and]
    apply List.map_congr_left
    intro b _
    exact relocate_subsystemValue m x b

theorem relocate_vendorValue (m x : Memory) (a : Addr) :
    (m.relocate x).vendorValue (m.vendors.length + a) = x.vendorValue a := by
  unfold Memory.vendorValue
  have h : (m.relocate x).vendors[m.vendors.length + a]? =
      (x.vendors[a]?).map (PCIVendor.shift m.products.length) :=
    getElem?_append_map _ _ _ _
  rw [h]
  cases x.vendors[a]? with
  | none => rfl
  | some c =>
    simp only [Option.map_some', PCIVendor.shift, List.map_map, Option.some.injEq,
      VendorValue.mk.injEq, true_and]
    apply List.map_congr_left
    intro b _
    exact relocate_productValue m x b

/-- Relocation does not change the value of a result. -/
theorem relocate_value (m : Memory) (r : ParseResult) : (r.relocate m).value = r.value := by
  simp only [ParseResult.value, ParseResult.relocate, PCIDB.relocate, GoMap.shift,
    List.map_map, DatabaseValue.mk.injEq]
  refine ⟨?_, ?_, ?_⟩ <;> apply List.map_congr_left <;> intro e _ <;>
    simp only [Function.comp, Prod.mk.injEq, true_and]
  · exact relocate_classValue m r.mem e.2
  · exact relocate_vendorValue m r.mem e.2
  · exact relocate_productValue m r.mem e.2

/-! ### Where the records come from -/

theorem getElem?_concat_cases {α : Type} {h : List α} {x c : α} {a : Nat}
    (hc : (h ++ [x])[a]? = some c) : h[a]? = some c ∨ (a = h.length ∧ c = x) := by
  by_cases hlt : a < h.length
  · left; rwa [List.getElem?_append_left hlt] at hc
  · right
    have hlen := lt_length_of_getElem? hc
    simp only [List.length_append, List.length_singleton] at hlen
    have ha : a = h.length := by omega
    subst ha
    rw [List.getElem?_concat_length] at hc
    exact ⟨rfl, by simpa using hc.symm⟩

theorem finalizeClass_origin {s : ParserState} {a : Addr} {c' : PCIClass}
    (h : (finalizeClass s).mem.classes[a]? = some c') :
    ∃ c, s.mem.classes[a]? = some c ∧ c.Id = c'.Id ∧ c.Name = c'.Name := by
  rw [getElem?_finalizeClass] at h
  split at h
  · cases hc : s.mem.classes[a]? with
    | none => rw [hc] at h; cases h
    | some c =>
      rw [hc] at h
      simp only [Option.map_some', Option.some.injEq] at h
      exact ⟨c, rfl, by rw [← h], by rw [← h]⟩
  · exact ⟨c', h, rfl, rfl⟩

theorem finalizeVendor_origin {s : ParserState} {a : Addr} {c' : PCIVendor}
    (h : (finalizeVendor s).mem.vendors[a]? = some c') :
    ∃ c, s.mem.vendors[a]? = some c ∧ c.Id = c'.Id ∧ c.Name = c'.Name := by
  rw [getElem?_finalizeVendor] at h
  split at h
  · cases hc : s.mem.vendors[a]? with
    | none => rw [hc] at h; cases h
    | some c =>
      rw [hc] at h
      simp only [Option.map_some', Option.some.injEq] at h
      exact ⟨c, rfl, by rw [← h], by rw [← h]⟩
  · exact ⟨c', h, rfl, rfl⟩

theorem finalizeSubclass_origin {s : ParserState} {a : Addr} {c' : PCISubclass}
    (h : (finalizeSubclass s).mem.subclasses[a]? = some c') :
    ∃ c, s.mem.subclasses[a]? = some c ∧ c.Id = c'.Id ∧ c.Name = c'.Name := by
  rw [getElem?_finalizeSubclass] at h
  split at h
  · cases hc : s.mem.subclasses[a]? with
    | none => rw [hc] at h; cases h
    | some c =>
      rw [hc] at h
      simp only [Option.map_some', Option.some.injEq] at h
      exact ⟨c, rfl, by rw [← h], by rw [← h]⟩
  · exact ⟨c', h, rfl, rfl⟩

theorem finalizeProduct_origin {s : ParserState} {a : Addr} {c' : PCIProduct}
    (h : (finalizeProduct s).mem.products[a]? = some c') :
    ∃ c, s.mem.products[a]? = some c ∧ c.VendorId = c'.VendorId ∧ c.Id = c'.Id ∧
      c.Name = c'.Name := by
  rw [getElem?_finalizeProduct] at h
  split at h
  · cases hc : s.mem.products[a]? with
    | none => rw [hc] at h; cases h
    | some c =>
      rw [hc] at h
      simp only [Option.map_some', Option.some.injEq] at h
      exact ⟨c, rfl, by rw [← h], by rw [← h], by rw [← h]⟩
  · exact ⟨c', h, rfl, rfl, rfl⟩

/-- A line that is not read as a ProgrammingInterface line leaves the
ProgrammingInterface heap alone. -/
theorem step_progIface_heap_frame {s s' : ParserState} {l : String} (h : step s l = some s')
    (hp : ¬ (lineKind l = .tabs ∧ s.inClassBlock = true)) :
    s'.mem.progIfaces = s.mem.progIfaces := by
  rcases step_cases h with ⟨_, rfl⟩ | ⟨_, _, rfl⟩ | ⟨_, _, rfl⟩ | ⟨_, _, _, rfl⟩ |
    ⟨_, _, _, a, v, _, _, rfl⟩ | ⟨hk1, hb, _, rfl⟩ | ⟨_, _, _, rfl⟩
  · rfl
  · simp only [openClass, finalizeClass]; split <;> simp
  · simp only [openVendor, finalizeVendor]; split <;> simp
  · simp only [openSubclass, finalizeSubclass]; split <;> simp
  · simp only [openProduct, finalizeProduct]; split <;> simp
  · exact absurd ⟨hk1, hb⟩ hp
  · simp [addSubsystem]

/-- A line that is read neither as a Product line nor as a Subsystem line leaves
the Product heap alone. -/
theorem step_product_heap_same {s s' : ParserState} {l : String} (h : step s l = some s')
    (hp : ¬ (lineKind l = .oneTab ∧ s.inClassBlock = false))
    (hs : ¬ (lineKind l = .tabs ∧ s.inClassBlock = false)) :
    s'.mem.products = s.mem.products := by
  rcases step_cases h with ⟨_, rfl⟩ | ⟨_, _, rfl⟩ | ⟨_, _, rfl⟩ | ⟨_, _, _, rfl⟩ |
    ⟨hk1, hb, _, a, v, _, _, rfl⟩ | ⟨_, _, _, rfl⟩ | ⟨hk1, hb, _, rfl⟩
  · rfl
  · simp only [openClass, finalizeClass]; split <;> simp
  · simp only [openVendor, finalizeVendor]; split <;> simp
  · simp only [openSubclass, finalizeSubclass]; split <;> simp
  · exact absurd ⟨hk1, hb⟩ hp
  · simp [addProgIface]
  · exact absurd ⟨hk1, hb⟩ hs

theorem classFromLine_mono {pre : List String} {l : String} {c : PCIClass}
    (h : classFromLine pre c) : classFromLine (pre ++ [l]) c := by
  obtain ⟨x, hx, h1⟩ := h
  exact ⟨x, List.mem_append_left _ hx, h1⟩

theorem subclassFromLine_mono {pre : List String} {l : String} {c : PCISubclass}
    (h : subclassFromLine pre c) : subclassFromLine (pre ++ [l]) c := by
  obtain ⟨x, hx, h1⟩ := h
  exact ⟨x, List.mem_append_left _ hx, h1⟩

theorem progIfaceFromLine_mono {pre : List String} {l : String} {c : PCIProgrammingInterface}
    (h : progIfaceFromLine pre c) : progIfaceFromLine (pre ++ [l]) c := by
  obtain ⟨x, hx, h1⟩ := h
  exact ⟨x, List.mem_append_left _ hx, h1⟩

theorem vendorFromLine_mono {pre : List String} {l : String} {c : PCIVendor}
    (h : vendorFromLine pre c) : vendorFromLine (pre ++ [l]) c := by
  obtain ⟨x, hx, h1⟩ := h
  exact ⟨x, List.mem_append_left _ hx, h1⟩

theorem productFromLine_mono {pre : List String} {l : String} {c : PCIProduct}
    (h : productFromLine pre c) : productFromLine (pre ++ [l]) c := by
  rcases h with ⟨x, hx, h1⟩ | ⟨x, hx, h1⟩
  · exact Or.inl ⟨x, List.mem_append_left _ hx, h1⟩
  · exact Or.inr ⟨x, List.mem_append_left _ hx, h1⟩

theorem prov_init (m : Memory) (db : PCIDB) : Prov m [] (initState m db) where
  classes := fun a c h hle => by
    have := lt_length_of_getElem? h; simp only [initState] at this; omega
  subclasses := fun a c h hle => by
    have := lt_length_of_getElem? h; simp only [initState] at this; omega
  progIfaces := fun a c h hle => by
    have := lt_length_of_getElem? h; simp only [initState] at this; omega
  vendors := fun a c h hle => by
    have := lt_length_of_getElem? h; simp only [initState] at this; omega
  products := fun a c h hle => by
    have := lt_length_of_getElem? h; simp only [initState] at this; omega

theorem prov_step {m : Memory} {pre : List String} {s s' : ParserState} {l : String}
    (hL : Link (ctxAfter Ctx.init pre) s) (hI : Prov m pre s) (h : step s l = some s') :
    Prov m (pre ++ [l]) s' := by
  have hmem : l ∈ pre ++ [l] := by simp
  refine ⟨?_, ?_, ?_, ?_, ?_⟩
  · intro a c hc hle
    by_cases hk : lineKind l = .classHeader
    · obtain ⟨hlen, rfl⟩ := step_classHeader h hk
      simp only [openClass] at hc
      rcases getElem?_concat_cases hc with h1 | ⟨-, rfl⟩
      · obtain ⟨c0, h2, h3, h4⟩ := finalizeClass_origin h1
        obtain ⟨x, hx, k1, k2, k3, k4⟩ := hI.classes a c0 h2 hle
        exact ⟨x, List.mem_append_left _ hx, k1, k2, by rw [← h3, k3], by rw [← h4, k4]⟩
      · exact ⟨l, hmem, hk, hlen, rfl, rfl⟩
    · rw [(step_class_frame h hk).1] at hc
      exact classFromLine_mono (hI.classes a c hc hle)
  · intro a c hc hle
    by_cases hk : lineKind l = .oneTab ∧ s.inClassBlock = true
    · obtain ⟨hlen, rfl⟩ := step_subclass h hk.1 hk.2
      simp only [openSubclass] at hc
      rcases getElem?_concat_cases hc with h1 | ⟨-, rfl⟩
      · obtain ⟨c0, h2, h3, h4⟩ := finalizeSubclass_origin h1
        obtain ⟨x, hx, k1, k2, k3, k4⟩ := hI.subclasses a c0 h2 hle
        exact ⟨x, List.mem_append_left _ hx, k1, k2, by rw [← h3, k3], by rw [← h4, k4]⟩
      · exact ⟨l, hmem, hk.1, hlen, rfl, rfl⟩
    · rw [(step_subclass_frame h hk).1] at hc
      exact subclassFromLine_mono (hI.subclasses a c hc hle)
  · intro a c hc hle
    by_cases hk : lineKind l = .tabs ∧ s.inClassBlock = true
    · obtain ⟨hlen, rfl⟩ := step_progIface h hk.1 hk.2
      simp only [addProgIface] at hc
      rcases getElem?_concat_cases hc with h1 | ⟨-, rfl⟩
      · exact progIfaceFromLine_mono (hI.progIfaces a c h1 hle)
      · exact ⟨l, hmem, hk.1, hlen, rfl, rfl⟩
    · rw [step_progIface_heap_frame h hk] at hc
      exact progIfaceFromLine_mono (hI.progIfaces a c hc hle)
  · intro a c hc hle
    by_cases hk : lineKind l = .vendorHeader
    · obtain ⟨hlen, rfl⟩ := step_vendorHeader h hk
      simp only [openVendor] at hc
      rcases getElem?_concat_cases hc with h1 | ⟨-, rfl⟩
      · obtain ⟨c0, h2, h3, h4⟩ := finalizeVendor_origin h1
        obtain ⟨x, hx, k1, k2, k3, k4⟩ := hI.vendors a c0 h2 hle
        exact ⟨x, List.mem_append_left _ hx, k1, k2, by rw [← h3, k3], by rw [← h4, k4]⟩
      · exact ⟨l, hmem, hk, hlen, rfl, rfl⟩
    · rw [(step_vendor_frame h hk).1] at hc
      exact vendorFromLine_mono (hI.vendors a c hc hle)
  · intro a c hc hle
    by_cases hp : lineKind l = .oneTab ∧ s.inClassBlock = false
    · obtain ⟨hlen, b, v, hb, hv, rfl⟩ := step_product h hp.1 hp.2
      obtain ⟨-, hw⟩ := hL.vendor_id hb hv
      simp only [openProduct] at hc
      rcases getElem?_concat_cases hc with h1 | ⟨-, rfl⟩
      · obtain ⟨c0, h2, h3, h4, h5⟩ := finalizeProduct_origin h1
        have := productFromLine_mono (l := l) (hI.products a c0 h2 hle)
        simpa only [productFromLine, h3, h4, h5] using this
      · exact Or.inl ⟨l, hmem, hp.1, hlen, hw, rfl, rfl⟩
    · by_cases hs : lineKind l = .tabs ∧ s.inClassBlock = false
      · obtain ⟨hlen, rfl⟩ := step_subsystem h hs.1 hs.2
        simp only [addSubsystem] at hc
        rcases getElem?_concat_cases hc with h1 | ⟨-, rfl⟩
        · exact productFromLine_mono (hI.products a c h1 hle)
        · exact Or.inr ⟨l, hmem, hs.1, hlen, rfl, rfl, rfl⟩
      · rw [step_product_heap_same h hp hs] at hc
        exact productFromLine_mono (hI.products a c hc hle)

theorem prov_run {m : Memory} {db : PCIDB} {ls : List String} {s : ParserState}
    (h : run (initState m db) ls = some s) : Prov m ls s := by
  have := run_ghost (R := fun pre s => Link (ctxAfter Ctx.init pre) s ∧ Prov m pre s)
    (fun pre s l s' hR hs => by
      refine ⟨?_, prov_step hR.1 hR.2 hs⟩
      rw [ctxAfter_append]
      exact link_step hR.1 hs)
    ls [] ⟨link_init m db, prov_init m db⟩ h
  simpa using this.2

/-! ### The pointers of a result point behind the prior memory -/

theorem lookup_shift_ge {n : Nat} {mp : GoMap} {k : String} {a : Addr}
    (h : (mp.shift n).lookup k = some a) : n ≤ a := by
  rw [GoMap.lookup_shift] at h
  cases h1 : mp.lookup k with
  | none => rw [h1] at h; cases h
  | some b =>
    rw [h1] at h
    simp only [Option.map_some', Option.some.injEq] at h
    omega

theorem append_map_new {α : Type} {f : α → α} {pre xs : List α} {a : Nat} {c : α}
    (h : (pre ++ xs.map f)[a]? = some c) (hle : pre.length ≤ a) : ∃ c0, c = f c0 := by
  obtain ⟨b, rfl⟩ := Nat.exists_eq_add_of_le hle
  rw [getElem?_append_map] at h
  cases h1 : xs[b]? with
  | none => rw [h1] at h; cases h
  | some c0 =>
    rw [h1] at h
    simp only [Option.map_some', Option.some.injEq] at h
    exact ⟨c0, h.symm⟩

theorem pointersNew_relocate (m : Memory) (rc : ParseResult) :
    PointersNew m (rc.relocate m) where
  classMap := fun _ _ h => lookup_shift_ge h
  vendorMap := fun _ _ h => lookup_shift_ge h
  productMap := fun _ _ h => lookup_shift_ge h
  subclassesOf := fun a c h hle x hx => by
    obtain ⟨c0, rfl⟩ := append_map_new h hle
    simp only [PCIClass.shift, List.mem_map] at hx
    obtain ⟨y, -, rfl⟩ := hx
    omega
  progIfacesOf := fun a c h hle x hx => by
    obtain ⟨c0, rfl⟩ := append_map_new h hle
    simp only [PCISubclass.shift, List.mem_map] at hx
    obtain ⟨y, -, rfl⟩ := hx
    omega
  productsOf := fun a c h hle x hx => by
    obtain ⟨c0, rfl⟩ := append_map_new h hle
    simp only [PCIVendor.shift, List.mem_map] at hx
    obtain ⟨y, -, rfl⟩ := hx
    omega
  subsystemsOf := fun a c h hle x hx => by
    obtain ⟨c0, rfl⟩ := append_map_new h hle
    simp only [PCIProduct.shift, List.mem_map] at hx
    obtain ⟨y, -, rfl⟩ := hx
    omega

theorem pointersNew_parse {m : Memory} {db : PCIDB} {L : List String} {r : ParseResult}
    (h : parsePCIIdsFile m db L = some r) : PointersNew m r := by
  rw [relocate_parse m db] at h
  cases hc : parsePCIIdsFile Memory.empty PCIDB.empty L with
  | none => rw [hc] at h; cases h
  | some rc =>
    rw [hc] at h
    simp only [Option.map_some', Option.some.injEq] at h
    subst h
    exact pointersNew_relocate m rc

theorem allStored_mono {r : ParseResult} {Pc Pc' : PCIClass → Prop}
    {Ps Ps' : PCISubclass → Prop} {Pi Pi' : PCIProgrammingInterface → Prop}
    {Pv Pv' : PCIVendor → Prop} {Pp Pp' : PCIProduct → Prop}
    (h : r.allStored Pc Ps Pi Pv Pp) (hc : ∀ c, Pc c → Pc' c) (hs : ∀ c, Ps c → Ps' c)
    (hi : ∀ c, Pi c → Pi' c) (hv : ∀ c, Pv c → Pv' c) (hp : ∀ c, Pp c → Pp' c) :
    r.allStored Pc' Ps' Pi' Pv' Pp' := by
  obtain ⟨h1, h2, h3⟩ := h
  refine ⟨?_, ?_, ?_⟩
  · intro k c hk
    obtain ⟨a1, a2⟩ := h1 k c hk
    refine ⟨hc _ a1, fun x hx sc hsc => ?_⟩
    obtain ⟨b1, b2⟩ := a2 x hx sc hsc
    exact ⟨hs _ b1, fun y hy pi hpi => hi _ (b2 y hy pi hpi)⟩
  · intro k c hk
    obtain ⟨a1, a2⟩ := h2 k c hk
    refine ⟨hv _ a1, fun x hx sc hsc => ?_⟩
    obtain ⟨b1, b2⟩ := a2 x hx sc hsc
    exact ⟨hp _ b1, fun y hy pi hpi => hp _ (b2 y hy pi hpi)⟩
  · intro k c hk
    obtain ⟨a1, a2⟩ := h3 k c hk
    exact ⟨hp _ a1, fun y hy pi hpi => hp _ (a2 y hy pi hpi)⟩

/-- Every record the Database of a result leads to comes from a line of the input. -/
theorem stored_from_lines {m : Memory} {db : PCIDB} {L : List String} {r : ParseResult}
    (h : parsePCIIdsFile m db L = some r) :
    r.allStored (classFromLine L) (subclassFromLine L) (progIfaceFromLine L)
      (vendorFromLine L) (productFromLine L) := by
  have hN := pointersNew_parse h
  obtain ⟨s, hs, rfl⟩ := parse_eq_some h
  have hP := prov_run hs
  refine ⟨?_, ?_, ?_⟩
  · intro k c hk
    simp only [ParseResult.classAt] at hk
    cases ha : s.db.Classes.lookup k with
    | none => rw [ha] at hk; cases hk
    | some a =>
      rw [ha] at hk
      simp only [Option.some_bind] at hk
      have hle := hN.classMap k a ha
      refine ⟨hP.classes a c hk hle, fun x hx sc hsc => ?_⟩
      have hx' := hN.subclassesOf a c hk hle x hx
      exact ⟨hP.subclasses x sc hsc hx', fun y hy pi hpi =>
        hP.progIfaces y pi hpi (hN.progIfacesOf x sc hsc hx' y hy)⟩
  · intro k c hk
    simp only [ParseResult.vendorAt] at hk
    cases ha : s.db.Vendors.lookup k with
    | none => rw [ha] at hk; cases hk
    | some a =>
      rw [ha] at hk
      simp only [Option.some_bind] at hk
      have hle := hN.vendorMap k a ha
      refine ⟨hP.vendors a c hk hle, fun x hx sc hsc => ?_⟩
      have hx' := hN.productsOf a c hk hle x hx
      exact ⟨hP.products x sc hsc hx', fun y hy pi hpi =>
        hP.products y pi hpi (hN.subsystemsOf x sc hsc hx' y hy)⟩
  · intro k c hk
    simp only [ParseResult.productAt] at hk
    cases ha : s.db.Products.lookup k with
    | none => rw [ha] at hk; cases hk
    | some a =>
      rw [ha] at hk
      simp only [Option.some_bind] at hk
      have hle := hN.productMap k a ha
      exact ⟨hP.products a c hk hle, fun y hy pi hpi =>
        hP.products y pi hpi (hN.subsystemsOf a c hk hle y hy)⟩

/-- Every key of `Products` is eight characters wide: the four of the Id of the
current Vendor followed by the four of the Product id field. -/
theorem products_keys_wide {m : Memory} {db : PCIDB} {L : List String} {r : ParseResult}
    (h : parsePCIIdsFile m db L = some r) : ∀ k ∈ r.db.Products.keys, k.length = 8 := by
  obtain ⟨s, hs, rfl⟩ := parse_eq_some h
  obtain ⟨-, hP⟩ := link_products_run hs
  intro k hk
  by_cases hnil : productLinesWithKey k L = []
  · exact absurd hk ((GoMap.lookup_eq_none_iff _ k).1 (hP.absent k hnil))
  · cases hl : (productLinesWithKey k L).getLast? with
    | none => exact absurd (List.getLast?_eq_none_iff.1 hl) hnil
    | some e =>
      have he := List.mem_of_getLast?_eq_some hl
      simp only [productLinesWithKey, List.mem_filter, decide_eq_true_eq] at he
      obtain ⟨v, hv, hw, hc⟩ := hP.wide e he.1
      rw [← he.2]
      simp only [productKeyOf, hv, Option.getD_some, String.length_append, hw, hc]

/-! ### The line a record was built from -/

theorem allocatedAt_mono {m : Memory} {db : PCIDB} {pre : List String} {size : Memory → Nat}
    {a : Addr} {e : Ctx × String} (l : String) (h : AllocatedAt m db pre size a e) :
    AllocatedAt m db (pre ++ [l]) size a e := by
  obtain ⟨p0, post, s0, h1, h2, h3, h4⟩ := h
  exact ⟨p0, post ++ [l], s0, by rw [h1]; simp, h2, h3, h4⟩

theorem allocatedAt_new {m : Memory} {db : PCIDB} {pre : List String} {s : ParserState}
    (size : Memory → Nat) (l : String) (h : run (initState m db) pre = some s) :
    AllocatedAt m db (pre ++ [l]) size (size s.mem) (ctxAfter Ctx.init pre, l) :=
  ⟨pre, [], s, rfl, rfl, h, rfl⟩

theorem classBuiltAt_mono {m : Memory} {db : PCIDB} {pre : List String} {a : Addr}
    {c c' : PCIClass} (l : String) (h : classBuiltAt m db pre a c) (h1 : c.Id = c'.Id)
    (h2 : c.Name = c'.Name) : classBuiltAt m db (pre ++ [l]) a c' := by
  obtain ⟨e, he, k1, k2, k3⟩ := h
  exact ⟨e, allocatedAt_mono l he, k1, by rw [← h1, k2], by rw [← h2, k3]⟩

theorem subclassBuiltAt_mono {m : Memory} {db : PCIDB} {pre : List String} {a : Addr}
    {c c' : PCISubclass} (l : String) (h : subclassBuiltAt m db pre a c) (h1 : c.Id = c'.Id)
    (h2 : c.Name = c'.Name) : subclassBuiltAt m db (pre ++ [l]) a c' := by
  obtain ⟨e, he, k1, k2, k3⟩ := h
  exact ⟨e, allocatedAt_mono l he, k1, by rw [← h1, k2], by rw [← h2, k3]⟩

theorem progIfaceBuiltAt_mono {m : Memory} {db : PCIDB} {pre : List String} {a : Addr}
    {c : PCIProgrammingInterface} (l : String) (h : progIfaceBuiltAt m db pre a c) :
    progIfaceBuiltAt m db (pre ++ [l]) a c := by
  obtain ⟨e, he, k1⟩ := h
  exact ⟨e, allocatedAt_mono l he, k1⟩

theorem vendorBuiltAt_mono {m : Memory} {db : PCIDB} {pre : List String} {a : Addr}
    {c c' : PCIVendor} (l : String) (h : vendorBuiltAt m db pre a c) (h1 : c.Id = c'.Id)
    (h2 : c.Name = c'.Name) : vendorBuiltAt m db (pre ++ [l]) a c' := by
  obtain ⟨e, he, k1, k2, k3⟩ := h
  exact ⟨e, allocatedAt_mono l he, k1, by rw [← h1, k2], by rw [← h2, k3]⟩

theorem productBuiltAt_mono {m : Memory} {db : PCIDB} {pre : List String} {a : Addr}
    {p p' : PCIProduct} (l : String) (h : productBuiltAt m db pre a p)
    (hi : p'.ident = p.ident) : productBuiltAt m db (pre ++ [l]) a p' := by
  obtain ⟨e, he, k1, k2, k3, k4⟩ := h
  simp only [PCIProduct.ident, Prod.mk.injEq] at hi
  exact ⟨e, allocatedAt_mono l he, k1, by rw [hi.1, k2], by rw [hi.2.1, k3], by rw [hi.2.2, k4]⟩

theorem subsystemBuiltAt_mono {m : Memory} {db : PCIDB} {pre : List String} {a : Addr}
    {p p' : PCIProduct} (l : String) (h : subsystemBuiltAt m db pre a p)
    (hi : p'.ident = p.ident) : subsystemBuiltAt m db (pre ++ [l]) a p' := by
  obtain ⟨e, he, k1, k2, k3, k4⟩ := h
  simp only [PCIProduct.ident, Prod.mk.injEq] at hi
  exact ⟨e, allocatedAt_mono l he, k1, by rw [hi.1, k2], by rw [hi.2.1, k3], by rw [hi.2.2, k4]⟩

/-- A pointer to a Product stays one over a step. -/
theorem productPtr_step {m : Memory} {db : PCIDB} {pre : List String} {s s' : ParserState}
    {l : String} (h : step s l = some s') {x : Addr}
    (hx : ∃ p, s.mem.products[x]? = some p ∧ productBuiltAt m db pre x p) :
    ∃ p, s'.mem.products[x]? = some p ∧ productBuiltAt m db (pre ++ [l]) x p := by
  obtain ⟨p, hp, hb⟩ := hx
  obtain ⟨p', hp', hi⟩ := step_product_ident h hp
  exact ⟨p', hp', productBuiltAt_mono l hb hi⟩

/-- A pointer to a Subsystem stays one over a step. -/
theorem subsystemPtr_step {m : Memory} {db : PCIDB} {pre : List String} {s s' : ParserState}
    {l : String} (h : step s l = some s') {x : Addr}
    (hx : ∃ p, s.mem.products[x]? = some p ∧ subsystemBuiltAt m db pre x p) :
    ∃ p, s'.mem.products[x]? = some p ∧ subsystemBuiltAt m db (pre ++ [l]) x p := by
  obtain ⟨p, hp, hb⟩ := hx
  obtain ⟨p', hp', hi⟩ := step_product_ident h hp
  exact ⟨p', hp', subsystemBuiltAt_mono l hb hi⟩

theorem origin_init (m : Memory) (db : PCIDB) : Origin m db [] (initState m db) where
  trace := rfl
  classes := fun a c h hle => by
    have := lt_length_of_getElem? h; simp only [initState] at this; omega
  subclasses := fun a c h hle => by
    have := lt_length_of_getElem? h; simp only [initState] at this; omega
  progIfaces := fun a c h hle => by
    have := lt_length_of_getElem? h; simp only [initState] at this; omega
  vendors := fun a c h hle => by
    have := lt_length_of_getElem? h; simp only [initState] at this; omega
  vendorProducts := fun x hx => by simp [initState] at hx
  productSubsystems := fun x hx => by simp [initState] at hx
  productsOf := fun a c h hle => by
    have := lt_length_of_getElem? h; simp only [initState] at this; omega
  subsystemsOf := fun a c h hle => by
    have := lt_length_of_getElem? h; simp only [initState] at this; omega
  productMap := fun k a h => by simp [initState, GoMap.lookup, GoMap.empty] at h

/-- The record a Product line allocates is the Product built from it. -/
theorem product_line_new {m : Memory} {db : PCIDB} {pre : List String} {s s' : ParserState}
    {l : String} (hL : Link (ctxAfter Ctx.init pre) s) (ht : run (initState m db) pre = some s)
    (h : step s l = some s') (hk : lineKind l = .oneTab) (hb : s.inClassBlock = false) :
    ∃ p, s'.mem.products[s.mem.products.length]? = some p ∧
      productBuiltAt m db (pre ++ [l]) s.mem.products.length p := by
  obtain ⟨-, b, v, hcv, hv, rfl⟩ := step_product h hk hb
  refine ⟨_, (productEntry_effect s v.Id (cols 1 5 l) (colsFrom 7 l)).2.2.2.1,
    (ctxAfter Ctx.init pre, l), allocatedAt_new (fun x => x.products.length) l ht, ?_,
    (hL.vendor_id hcv hv).1, rfl, rfl⟩
  simp [isProductLine, ← hL.mode, hb, hk]

/-- The record a Subsystem line allocates is the Subsystem built from it. -/
theorem subsystem_line_new {m : Memory} {db : PCIDB} {pre : List String} {s s' : ParserState}
    {l : String} (hL : Link (ctxAfter Ctx.init pre) s) (ht : run (initState m db) pre = some s)
    (h : step s l = some s') (hk : lineKind l = .tabs) (hb : s.inClassBlock = false) :
    ∃ p, s'.mem.products[s.mem.products.length]? = some p ∧
      subsystemBuiltAt m db (pre ++ [l]) s.mem.products.length p := by
  obtain ⟨hlen, rfl⟩ := step_subsystem h hk hb
  refine ⟨⟨cols 2 6 l, cols 7 11 l, colsFrom 13 l, []⟩, by simp [addSubsystem],
    (ctxAfter Ctx.init pre, l), allocatedAt_new (fun x => x.products.length) l ht, ?_,
    rfl, rfl, rfl⟩
  simp [isSubsystemLine, ← hL.mode, hb, isTwoTab_of_tabs hk (by omega)]

theorem vendorProducts_finalizeVendor_subset (s : ParserState) :
    ∀ x ∈ (finalizeVendor s).vendorProducts, x ∈ s.vendorProducts := by
  intro x hx
  unfold finalizeVendor at hx
  split at hx
  · simp at hx
  · exact hx

theorem origin_step {m : Memory} {db : PCIDB} {pre : List String} {s s' : ParserState}
    {l : String} (hL : Link (ctxAfter Ctx.init pre) s) (hI : Origin m db pre s)
    (h : step s l = some s') : Origin m db (pre ++ [l]) s' := by
  have hP : ∀ x, (∃ p, s.mem.products[x]? = some p ∧ productBuiltAt m db pre x p) →
      ∃ p, s'.mem.products[x]? = some p ∧ productBuiltAt m db (pre ++ [l]) x p :=
    fun x hx => productPtr_step h hx
  have hS : ∀ x, (∃ p, s.mem.products[x]? = some p ∧ subsystemBuiltAt m db pre x p) →
      ∃ p, s'.mem.products[x]? = some p ∧ subsystemBuiltAt m db (pre ++ [l]) x p :=
    fun x hx => subsystemPtr_step h hx
  have ht := hI.trace
  refine ⟨?_, ?_, ?_, ?_, ?_, ?_, ?_, ?_, ?_, ?_⟩
  · rw [run_append, ht]; simp [run, h]
  · intro a c hc hle
    by_cases hk : lineKind l = .classHeader
    · obtain ⟨hlen, rfl⟩ := step_classHeader h hk
      simp only [openClass] at hc
      rcases getElem?_concat_cases hc with h1 | ⟨rfl, rfl⟩
      · obtain ⟨c0, h2, h3, h4⟩ := finalizeClass_origin h1
        exact classBuiltAt_mono l (hI.classes a c0 h2 hle) h3 h4
      · rw [length_finalizeClass]
        exact ⟨(ctxAfter Ctx.init pre, l), allocatedAt_new (fun x => x.classes.length) l ht,
          hk, rfl, rfl⟩
    · rw [(step_class_frame h hk).1] at hc
      exact classBuiltAt_mono l (hI.classes a c hc hle) rfl rfl
  · intro a c hc hle
    by_cases hk : lineKind l = .oneTab ∧ s.inClassBlock = true
    · obtain ⟨hlen, rfl⟩ := step_subclass h hk.1 hk.2
      simp only [openSubclass] at hc
      rcases getElem?_concat_cases hc with h1 | ⟨rfl, rfl⟩
      · obtain ⟨c0, h2, h3, h4⟩ := finalizeSubclass_origin h1
        exact subclassBuiltAt_mono l (hI.subclasses a c0 h2 hle) h3 h4
      · rw [length_finalizeSubclass]
        exact ⟨(ctxAfter Ctx.init pre, l),
          allocatedAt_new (fun x => x.subclasses.length) l ht,
          by simp [isSubclassLine, ← hL.mode, hk.1, hk.2], rfl, rfl⟩
    · rw [(step_subclass_frame h hk).1] at hc
      exact subclassBuiltAt_mono l (hI.subclasses a c hc hle) rfl rfl
  · intro a c hc hle
    by_cases hk : lineKind l = .tabs ∧ s.inClassBlock = true
    · obtain ⟨hlen, rfl⟩ := step_progIface h hk.1 hk.2
      simp only [addProgIface] at hc
      rcases getElem?_concat_cases hc with h1 | ⟨rfl, rfl⟩
      · exact progIfaceBuiltAt_mono l (hI.progIfaces a c h1 hle)
      · exact ⟨(ctxAfter Ctx.init pre, l),
          allocatedAt_new (fun x => x.progIfaces.length) l ht,
          by simp [isProgIfaceLine, ← hL.mode, hk.2, isTwoTab_of_tabs hk.1 (by omega)],
          rfl, rfl⟩
    · rw [step_progIface_heap_frame h hk] at hc
      exact progIfaceBuiltAt_mono l (hI.progIfaces a c hc hle)
  · intro a c hc hle
    by_cases hk : lineKind l = .vendorHeader
    · obtain ⟨hlen, rfl⟩ := step_vendorHeader h hk
      simp only [openVendor] at hc
      rcases getElem?_concat_cases hc with h1 | ⟨rfl, rfl⟩
      · obtain ⟨c0, h2, h3, h4⟩ := finalizeVendor_origin h1
        exact vendorBuiltAt_mono l (hI.vendors a c0 h2 hle) h3 h4
      · rw [length_finalizeVendor]
        exact ⟨(ctxAfter Ctx.init pre, l), allocatedAt_new (fun x => x.vendors.length) l ht,
          hk, rfl, rfl⟩
    · rw [(step_vendor_frame h hk).1] at hc
      exact vendorBuiltAt_mono l (hI.vendors a c hc hle) rfl rfl
  · intro x hx
    by_cases hv : lineKind l = .vendorHeader
    · obtain ⟨-, rfl⟩ := step_vendorHeader h hv
      simp only [openVendor] at hx
      exact hP x (hI.vendorProducts x (vendorProducts_finalizeVendor_subset s x hx))
    · by_cases hp : lineKind l = .oneTab ∧ s.inClassBlock = false
      · have hnew := product_line_new hL ht h hp.1 hp.2
        obtain ⟨-, b, v, -, -, rfl⟩ := step_product h hp.1 hp.2
        simp only [openProduct, List.mem_append, List.mem_singleton] at hx
        rcases hx with hx | rfl
        · have hx' : x ∈ s.vendorProducts := by
            unfold finalizeProduct at hx; split at hx <;> exact hx
          exact hP x (hI.vendorProducts x hx')
        · rw [length_finalizeProduct]; exact hnew
      · rw [step_vendorProducts_frame h hv hp] at hx
        exact hP x (hI.vendorProducts x hx)
  · intro x hx
    by_cases hp : lineKind l = .oneTab ∧ s.inClassBlock = false
    · obtain ⟨-, b, v, -, -, rfl⟩ := step_product h hp.1 hp.2
      rw [(productEntry_effect s v.Id (cols 1 5 l) (colsFrom 7 l)).2.2.1] at hx
      split at hx
      · exact hS x (hI.productSubsystems x hx)
      · simp at hx
    · by_cases hs : lineKind l = .tabs ∧ s.inClassBlock = false
      · have hnew := subsystem_line_new hL ht h hs.1 hs.2
        obtain ⟨-, rfl⟩ := step_subsystem h hs.1 hs.2
        simp only [addSubsystem, List.mem_append, List.mem_singleton] at hx
        rcases hx with hx | rfl
        · exact hS x (hI.productSubsystems x hx)
        · exact hnew
      · rw [step_productSubsystems_frame h hp hs] at hx
        exact hS x (hI.productSubsystems x hx)
  · intro a v' hv' hle x hx
    by_cases hv : lineKind l = .vendorHeader
    · obtain ⟨-, rfl⟩ := step_vendorHeader h hv
      simp only [openVendor] at hv'
      rcases getElem?_concat_cases hv' with h1 | ⟨-, rfl⟩
      · rw [getElem?_finalizeVendor] at h1
        split at h1
        · cases hc : s.mem.vendors[a]? with
          | none => rw [hc] at h1; cases h1
          | some c =>
            rw [hc] at h1
            simp only [Option.map_some', Option.some.injEq] at h1
            subst h1
            exact hP x (hI.vendorProducts x hx)
        · exact hP x (hI.productsOf a v' h1 hle x hx)
      · exact hP x (hI.vendorProducts x (vendorProducts_finalizeVendor_subset s x hx))
    · rw [(step_vendor_frame h hv).1] at hv'
      exact hP x (hI.productsOf a v' hv' hle x hx)
  · intro a p' hp' hle y hy
    by_cases hp : lineKind l = .oneTab ∧ s.inClassBlock = false
    · obtain ⟨-, b, v, -, -, rfl⟩ := step_product h hp.1 hp.2
      simp only [openProduct] at hp'
      rcases getElem?_concat_cases hp' with h1 | ⟨-, rfl⟩
      · rw [getElem?_finalizeProduct] at h1
        split at h1
        · cases hc : s.mem.products[a]? with
          | none => rw [hc] at h1; cases h1
          | some c =>
            rw [hc] at h1
            simp only [Option.map_some', Option.some.injEq] at h1
            subst h1
            exact hS y (hI.productSubsystems y hy)
        · exact hS y (hI.subsystemsOf a p' h1 hle y hy)
      · simp at hy
    · by_cases hs : lineKind l = .tabs ∧ s.inClassBlock = false
      · obtain ⟨-, rfl⟩ := step_subsystem h hs.1 hs.2
        simp only [addSubsystem] at hp'
        rcases getElem?_concat_cases hp' with h1 | ⟨-, rfl⟩
        · exact hS y (hI.subsystemsOf a p' h1 hle y hy)
        · simp at hy
      · rw [step_product_heap_same h hp hs] at hp'
        exact hS y (hI.subsystemsOf a p' hp' hle y hy)
  · intro k a hk
    by_cases hp : lineKind l = .oneTab ∧ s.inClassBlock = false
    · have hnew := product_line_new hL ht h hp.1 hp.2
      obtain ⟨-, b, v, -, -, rfl⟩ := step_product h hp.1 hp.2
      rw [(productEntry_effect s v.Id (cols 1 5 l) (colsFrom 7 l)).2.1,
        GoMap.lookup_store] at hk
      split at hk
      · simp only [Option.some.injEq] at hk
        subst hk
        exact hnew
      · exact hP a (hI.productMap k a hk)
    · rw [(step_product_frame h hp).1] at hk
      exact hP a (hI.productMap k a hk)

theorem origin_run {m : Memory} {db : PCIDB} {ls : List String} {s : ParserState}
    (h : run (initState m db) ls = some s) : Origin m db ls s := by
  have := run_ghost (R := fun pre s => Link (ctxAfter Ctx.init pre) s ∧ Origin m db pre s)
    (fun pre s l s' hR hs => by
      refine ⟨?_, origin_step hR.1 hR.2 hs⟩
      rw [ctxAfter_append]
      exact link_step hR.1 hs)
    ls [] ⟨link_init m db, origin_init m db⟩ h
  simpa using this.2

/-! ## Properties of the parser -/

set_option maxRecDepth 100000 in
/-- C1 (evaluation of the code): on the six-line example of the spec the parse
returns, and `Classes["02"].Name` is "Network controller"; but the Subclasses of
that Class, the ProgrammingInterfaces of its Subclass record, the Products of
Vendor "0a89" and the Subsystems of Product "0a890001" are all empty: nothing
attaches the children of the blocks that are still open when the input ends, so
`Subclasses[0]`, `Products[0]` and `Subsystems[0]` do not exist. -/
theorem example_children_not_attached :
    ∃ r, parsePCIIdsFile Memory.empty PCIDB.empty exampleLines = some r ∧
      (r.classAt "02").map PCIClass.Name = some "Network controller" ∧
      (r.classAt "02").map PCIClass.Subclasses = some [] ∧
      r.mem.subclasses.map PCISubclass.ProgrammingInterfaces = [[]] ∧
      (r.vendorAt "0a89").map PCIVendor.Products = some [] ∧
      (r.productAt "0a890001").map PCIProduct.Subsystems = some [] := by
  refine ⟨_, rfl, ?_⟩
  decide

/-- C2: after a parse that runs to completion, the keys of `Classes` are exactly
the ids in columns `[2, 4)` of the lines whose first character is `C`, the keys
of `Vendors` exactly the ids in columns `[0, 4)` of the non-empty lines whose
first character is none of `#`, `C` and tab; each key occurs once, and leads to
a record whose `Id` is the key. -/
theorem header_ids_are_keys (m : Memory) (db : PCIDB) (lines : List String) (r : ParseResult)
    (h : parsePCIIdsFile m db lines = some r) :
    (∀ k, k ∈ r.db.Classes.keys ↔ k ∈ classIds lines) ∧
    (∀ k, k ∈ r.db.Vendors.keys ↔ k ∈ vendorIds lines) ∧
    r.db.Classes.keys.Nodup ∧ r.db.Vendors.keys.Nodup ∧
    (∀ k ∈ r.db.Classes.keys, ∃ c, r.classAt k = some c ∧ c.Id = k) ∧
    (∀ k ∈ r.db.Vendors.keys, ∃ v, r.vendorAt k = some v ∧ v.Id = k) := by
  obtain ⟨s, hs, rfl⟩ := parse_eq_some h
  have hI : KeysInv lines s := by
    simpa using run_ghost (R := KeysInv) (fun _ _ _ _ hR hst => keysInv_step hR hst)
      lines [] (keysInv_init m db) hs
  refine ⟨hI.classKeys, hI.vendorKeys, hI.classNodup, hI.vendorNodup, ?_, ?_⟩
  · intro k hk
    obtain ⟨a, ha⟩ := GoMap.lookup_of_mem_keys hk
    obtain ⟨c, hc, hid⟩ := hI.classCell k a ha
    exact ⟨c, by simp [ParseResult.classAt, ha, hc], hid⟩
  · intro k hk
    obtain ⟨a, ha⟩ := GoMap.lookup_of_mem_keys hk
    obtain ⟨c, hc, hid⟩ := hI.vendorCell k a ha
    exact ⟨c, by simp [ParseResult.vendorAt, ha, hc], hid⟩

set_option maxRecDepth 100000 in
/-- C2 at the example of the spec. -/
theorem header_ids_are_keys_witness :
    parsePCIIdsFile Memory.empty PCIDB.empty exampleLines = some exampleResult ∧
    ((∀ k, k ∈ exampleResult.db.Classes.keys ↔ k ∈ classIds exampleLines) ∧
    (∀ k, k ∈ exampleResult.db.Vendors.keys ↔ k ∈ vendorIds exampleLines) ∧
    exampleResult.db.Classes.keys.Nodup ∧ exampleResult.db.Vendors.keys.Nodup ∧
    (∀ k ∈ exampleResult.db.Classes.keys, ∃ c, exampleResult.classAt k = some c ∧ c.Id = k) ∧
    (∀ k ∈ exampleResult.db.Vendors.keys, ∃ v, exampleResult.vendorAt k = some v ∧ v.Id = k)) :=
  ⟨by decide, header_ids_are_keys Memory.empty PCIDB.empty exampleLines exampleResult (by decide)⟩

/-- C3: in a parse that runs to completion, a one-tab line read while the most
recent header is a Vendor header with id `v` has, with `p` its columns `[1, 5)`,
the key `v ++ p` in `Products`, and the record under that key has `VendorId = v`,
`Id = p` and as `Name` column 7 to the end of the last Product line that
produced the key.  A one-tab line read while the most recent header is a Class
header leaves the `Products` map as it was. -/
theorem product_line_registered (m : Memory) (db : PCIDB) (pre : List String) (l : String)
    (post : List String) (r : ParseResult)
    (h : parsePCIIdsFile m db (pre ++ l :: post) = some r) (hl : lineKind l = .oneTab) :
    (∀ v, ctxAfter Ctx.init pre = ⟨false, some v⟩ →
      ∃ p e, r.productAt (v ++ cols 1 5 l) = some p ∧ p.VendorId = v ∧ p.Id = cols 1 5 l ∧
        (productLinesWithKey (v ++ cols 1 5 l) (pre ++ l :: post)).getLast? = some e ∧
        p.Name = colsFrom 7 e.2) ∧
    ((ctxAfter Ctx.init pre).inClass = true →
      ∃ s s', run (initState m db) pre = some s ∧ step s l = some s' ∧
        s'.db.Products = s.db.Products) := by
  constructor
  · intro v hv
    have he : (ctxAfter Ctx.init pre, l) ∈ productLines Ctx.init (pre ++ l :: post) := by
      rw [productLines_append]
      apply List.mem_append_right
      simp [productLines, annotate, isProductLine, hv, hl]
    obtain ⟨a, p, e', h1, h2, h3, h4, h5, h6⟩ :=
      product_entry_of_line h he (v := v) (by rw [hv])
    exact ⟨p, e', by simp [ParseResult.productAt, h1, h2], h3, h4, h5, h6⟩
  · intro hc
    obtain ⟨sf, hs, -⟩ := parse_eq_some h
    obtain ⟨s, hs1, hs2⟩ := run_append_eq_some hs
    obtain ⟨s', hs3, -⟩ := run_cons_eq_some hs2
    have hL := link_run pre (link_init m db) hs1
    refine ⟨s, s', hs1, hs3, (step_product_frame hs3 ?_).1⟩
    rintro ⟨-, hb⟩
    rw [hL.mode, hc] at hb
    cases hb

set_option maxRecDepth 100000 in
/-- C3 at the example of the spec: at its Product line, read after the Vendor
header 0a89, and at its Subclass line, read after the Class header 02. -/
theorem product_line_registered_witness :
    (parsePCIIdsFile Memory.empty PCIDB.empty (exampleLines.take 4 ++
        "\t0001  Widget" :: exampleLines.drop 5) = some exampleResult ∧
      lineKind "\t0001  Widget" = .oneTab ∧
      ctxAfter Ctx.init (exampleLines.take 4) = ⟨false, some "0a89"⟩ ∧
      ((∀ v, ctxAfter Ctx.init (exampleLines.take 4) = ⟨false, some v⟩ →
        ∃ p e, exampleResult.productAt (v ++ cols 1 5 "\t0001  Widget") = some p ∧
          p.VendorId = v ∧ p.Id = cols 1 5 "\t0001  Widget" ∧
          (productLinesWithKey (v ++ cols 1 5 "\t0001  Widget") (exampleLines.take 4 ++
            "\t0001  Widget" :: exampleLines.drop 5)).getLast? = some e ∧
          p.Name = colsFrom 7 e.2) ∧
      ((ctxAfter Ctx.init (exampleLines.take 4)).inClass = true →
        ∃ s s', run (initState Memory.empty PCIDB.empty) (exampleLines.take 4) = some s ∧
          step s "\t0001  Widget" = some s' ∧ s'.db.Products = s.db.Products))) ∧
    (parsePCIIdsFile Memory.empty PCIDB.empty (exampleLines.take 1 ++
        "\t00  Ethernet controller" :: exampleLines.drop 2) = some exampleResult ∧
      lineKind "\t00  Ethernet controller" = .oneTab ∧
      (ctxAfter Ctx.init (exampleLines.take 1)).inClass = true ∧
      ((∀ v, ctxAfter Ctx.init (exampleLines.take 1) = ⟨false, some v⟩ →
        ∃ p e, exampleResult.productAt (v ++ cols 1 5 "\t00  Ethernet controller") = some p ∧
          p.VendorId = v ∧ p.Id = cols 1 5 "\t00  Ethernet controller" ∧
          (productLinesWithKey (v ++ cols 1 5 "\t00  Ethernet controller")
            (exampleLines.take 1 ++
              "\t00  Ethernet controller" :: exampleLines.drop 2)).getLast? = some e ∧
          p.Name = colsFrom 7 e.2) ∧
      ((ctxAfter Ctx.init (exampleLines.take 1)).inClass = true →
        ∃ s s', run (initState Memory.empty PCIDB.empty) (exampleLines.take 1) = some s ∧
          step s "\t00  Ethernet controller" = some s' ∧
          s'.db.Products = s.db.Products))) :=
  ⟨⟨by decide, by decide, by decide,
      product_line_registered Memory.empty PCIDB.empty (exampleLines.take 4) "\t0001  Widget"
        (exampleLines.drop 5) exampleResult (by decide) (by decide)⟩,
    ⟨by decide, by decide, by decide,
      product_line_registered Memory.empty PCIDB.empty (exampleLines.take 1)
        "\t00  Ethernet controller" (exampleLines.drop 2) exampleResult (by decide)
        (by decide)⟩⟩

/-- C4: in a parse that runs to completion, let `A` be a Class header with id
`c` that is followed by a later Class header `B`, the next one, and let no
later Class header repeat the id `c`.  Then `Classes[c].Subclasses` is, in file
order, the list of the records built from the one-tab lines read in class mode
between `A` and `B`, each with `Id` = columns `[1, 3)` and `Name` = column 5 to
the end of its line. -/
theorem class_subclasses_attached (m : Memory) (db : PCIDB) (pre : List String) (A : String)
    (mid : List String) (B : String) (post : List String) (r : ParseResult)
    (h : parsePCIIdsFile m db (pre ++ A :: (mid ++ B :: post)) = some r)
    (hA : lineKind A = .classHeader) (hB : lineKind B = .classHeader)
    (hmid : ∀ l ∈ mid, lineKind l ≠ .classHeader)
    (hlater : ∀ l ∈ B :: post, lineKind l = .classHeader → cols 2 4 l ≠ cols 2 4 A) :
    ∃ c, r.classAt (cols 2 4 A) = some c ∧
      r.mem.subclassIdents c.Subclasses =
        (subclassLines (ctxAfter Ctx.init (pre ++ [A])) mid).map fun l =>
          some (cols 1 3 l, colsFrom 5 l) := by
  obtain ⟨sf, hs, rfl⟩ := parse_eq_some h
  obtain ⟨s0, hs0, hs'⟩ := run_append_eq_some hs
  obtain ⟨s1, hs1, hs'⟩ := run_cons_eq_some hs'
  obtain ⟨s2, hs2, hs'⟩ := run_append_eq_some hs'
  obtain ⟨s3, hs3, hs4⟩ := run_cons_eq_some hs'
  have hQ := quiet_run hs0
  -- the header `A`
  obtain ⟨-, rfl⟩ := step_classHeader hs1 hA
  obtain ⟨e1, e2, e3, e4, -, -⟩ := classHeader_effect s0 (cols 2 4 A) (colsFrom 6 A)
  have hempty : (openClass (finalizeClass s0) (cols 2 4 A) (colsFrom 6 A)).subclasses = [] := by
    rw [e3]
    split
    · rename_i hnone; exact (hQ.noClass hnone).1
    · rfl
  have hcell : (if s0.curClass = none then s0.subclasses else []) = [] := by
    rw [← e3]; exact hempty
  rw [hcell] at e4
  -- the lines between `A` and `B`
  have hmode : (openClass (finalizeClass s0) (cols 2 4 A) (colsFrom 6 A)).inClassBlock =
      (ctxAfter Ctx.init (pre ++ [A])).inClass := by
    rw [ctxAfter_append]
    simp [ctxAfter, Ctx.read, hA, openClass]
  obtain ⟨g1, g2, g3, g4⟩ := subclasses_accumulate [] hs2 hmid hmode
    (by rw [hempty]; rfl)
  -- the header `B`
  obtain ⟨-, rfl⟩ := step_classHeader hs3 hB
  obtain ⟨b1, b2, -, -, -, b6⟩ := classHeader_effect s2 (cols 2 4 B) (colsFrom 6 B)
  rw [← g1] at e4
  have hcur : s2.curClass = some s0.mem.classes.length := by rw [g3, e1]
  have hB3 := b6 _ _ e4
  rw [if_pos hcur] at hB3
  -- the lines after `B`
  have hsettled :
      (openClass (finalizeClass s2) (cols 2 4 B) (colsFrom 6 B)).mem.classes[
          s0.mem.classes.length]? =
        some ⟨cols 2 4 A, colsFrom 6 A, s2.subclasses⟩ ∧
      (openClass (finalizeClass s2) (cols 2 4 B) (colsFrom 6 B)).curClass ≠
        some s0.mem.classes.length ∧
      (openClass (finalizeClass s2) (cols 2 4 B) (colsFrom 6 B)).db.Classes.lookup
        (cols 2 4 A) = some s0.mem.classes.length := by
    refine ⟨hB3, ?_, ?_⟩
    · rw [b1]
      intro hEq
      simp only [Option.some.injEq] at hEq
      have := lt_length_of_getElem? e4
      omega
    · rw [b2, GoMap.lookup_store, if_neg (hlater B (List.mem_cons_self _ _) hB), g2, e2,
        GoMap.lookup_store, if_pos rfl]
  have hfinal := run_invariant
    (P := fun s => s.mem.classes[s0.mem.classes.length]? =
        some ⟨cols 2 4 A, colsFrom 6 A, s2.subclasses⟩ ∧
      s.curClass ≠ some s0.mem.classes.length ∧
      s.db.Classes.lookup (cols 2 4 A) = some s0.mem.classes.length)
    (fun s l s' hl hP hst =>
      class_settled_step hst (hlater l (List.mem_cons_of_mem _ hl)) hP) hsettled hs4
  obtain ⟨k1, -, k3⟩ := hfinal
  refine ⟨⟨cols 2 4 A, colsFrom 6 A, s2.subclasses⟩, by simp [ParseResult.classAt, k3, k1], ?_⟩
  have hrest : run s2 (B :: post) = some sf := by simp [run, hs3, hs4]
  have := subclassIdents_stable hrest g4
  simpa using this

set_option maxRecDepth 100000 in
/-- C4 at the first of two Class blocks. -/
theorem class_subclasses_attached_witness :
    parsePCIIdsFile Memory.empty PCIDB.empty
      ([] ++ "C 02  Network controller" :: (["\t00  Ethernet controller", "\t01  Token ring"] ++
        "C 03  Display controller" :: ["\t00  VGA"])) = some twoClassResult ∧
    lineKind "C 02  Network controller" = .classHeader ∧
    lineKind "C 03  Display controller" = .classHeader ∧
    (∀ l ∈ ["\t00  Ethernet controller", "\t01  Token ring"], lineKind l ≠ .classHeader) ∧
    (∀ l ∈ "C 03  Display controller" :: ["\t00  VGA"], lineKind l = .classHeader →
      cols 2 4 l ≠ cols 2 4 "C 02  Network controller") ∧
    ∃ c, twoClassResult.classAt (cols 2 4 "C 02  Network controller") = some c ∧
      twoClassResult.mem.subclassIdents c.Subclasses =
        (subclassLines (ctxAfter Ctx.init ([] ++ ["C 02  Network controller"]))
          ["\t00  Ethernet controller", "\t01  Token ring"]).map fun l =>
          some (cols 1 3 l, colsFrom 5 l) :=
  ⟨by decide, by decide, by decide, by decide, by decide,
    class_subclasses_attached Memory.empty PCIDB.empty [] "C 02  Network controller"
      ["\t00  Ethernet controller", "\t01  Token ring"] "C 03  Display controller"
      ["\t00  VGA"] twoClassResult (by decide) (by decide) (by decide) (by decide) (by decide)⟩

/-- C5: in a parse that runs to completion, let `V` be a Vendor header with id
`v` that is followed by a later Vendor header `W`, the next one, and let no
later Vendor header repeat the id `v`.  Then `Vendors[v].Products` is, in file
order, the list of the records built from the one-tab lines read in vendor mode
between `V` and `W`, each with `VendorId = v`, `Id` = columns `[1, 5)` and
`Name` = column 7 to the end of its line. -/
theorem vendor_products_attached (m : Memory) (db : PCIDB) (pre : List String) (V : String)
    (mid : List String) (W : String) (post : List String) (r : ParseResult)
    (h : parsePCIIdsFile m db (pre ++ V :: (mid ++ W :: post)) = some r)
    (hV : lineKind V = .vendorHeader) (hW : lineKind W = .vendorHeader)
    (hmid : ∀ l ∈ mid, lineKind l ≠ .vendorHeader)
    (hlater : ∀ l ∈ W :: post, lineKind l = .vendorHeader → cols 0 4 l ≠ cols 0 4 V) :
    ∃ v, r.vendorAt (cols 0 4 V) = some v ∧
      r.mem.productIdents v.Products =
        (productLines (ctxAfter Ctx.init (pre ++ [V])) mid).map fun e =>
          some (cols 0 4 V, cols 1 5 e.2, colsFrom 7 e.2) := by
  obtain ⟨sf, hs, rfl⟩ := parse_eq_some h
  obtain ⟨s0, hs0, hs'⟩ := run_append_eq_some hs
  obtain ⟨s1, hs1, hs'⟩ := run_cons_eq_some hs'
  obtain ⟨s2, hs2, hs'⟩ := run_append_eq_some hs'
  obtain ⟨s3, hs3, hs4⟩ := run_cons_eq_some hs'
  have hQ := quiet_run hs0
  -- the header `V`
  obtain ⟨-, rfl⟩ := step_vendorHeader hs1 hV
  obtain ⟨e1, e2, e3, e4, -, -⟩ := vendorHeader_effect s0 (cols 0 4 V) (colsFrom 6 V)
  have hempty :
      (openVendor (finalizeVendor s0) (cols 0 4 V) (colsFrom 6 V)).vendorProducts = [] := by
    rw [e3]
    split
    · rename_i hnone; exact hQ.noVendor hnone
    · rfl
  have hcell : (if s0.curVendor = none then s0.vendorProducts else []) = [] := by
    rw [← e3]; exact hempty
  rw [hcell] at e4
  -- the lines between `V` and `W`
  have hmode : (openVendor (finalizeVendor s0) (cols 0 4 V) (colsFrom 6 V)).inClassBlock =
      (ctxAfter Ctx.init (pre ++ [V])).inClass := by
    rw [ctxAfter_append]
    simp [ctxAfter, Ctx.read, hV, openVendor]
  have hvid : ∀ a cell,
      (openVendor (finalizeVendor s0) (cols 0 4 V) (colsFrom 6 V)).curVendor = some a →
      (openVendor (finalizeVendor s0) (cols 0 4 V) (colsFrom 6 V)).mem.vendors[a]? = some cell →
      cell.Id = cols 0 4 V := by
    intro a cell ha hc
    rw [e1] at ha
    simp only [Option.some.injEq] at ha
    subst ha
    rw [e4] at hc
    simp only [Option.some.injEq] at hc
    subst hc
    rfl
  obtain ⟨g1, g2, g3, g4⟩ := products_accumulate [] hs2 hmid hmode hvid
    (by rw [hempty]; rfl)
  -- the header `W`
  obtain ⟨-, rfl⟩ := step_vendorHeader hs3 hW
  obtain ⟨b1, b2, -, -, -, b6⟩ := vendorHeader_effect s2 (cols 0 4 W) (colsFrom 6 W)
  rw [← g1] at e4
  have hcur : s2.curVendor = some s0.mem.vendors.length := by rw [g3, e1]
  have hB3 := b6 _ _ e4
  rw [if_pos hcur] at hB3
  -- the lines after `W`
  have hsettled :
      (openVendor (finalizeVendor s2) (cols 0 4 W) (colsFrom 6 W)).mem.vendors[
          s0.mem.vendors.length]? =
        some ⟨cols 0 4 V, colsFrom 6 V, s2.vendorProducts⟩ ∧
      (openVendor (finalizeVendor s2) (cols 0 4 W) (colsFrom 6 W)).curVendor ≠
        some s0.mem.vendors.length ∧
      (openVendor (finalizeVendor s2) (cols 0 4 W) (colsFrom 6 W)).db.Vendors.lookup
        (cols 0 4 V) = some s0.mem.vendors.length := by
    refine ⟨hB3, ?_, ?_⟩
    · rw [b1]
      intro hEq
      simp only [Option.some.injEq] at hEq
      have := lt_length_of_getElem? e4
      omega
    · rw [b2, GoMap.lookup_store, if_neg (hlater W (List.mem_cons_self _ _) hW), g2, e2,
        GoMap.lookup_store, if_pos rfl]
  have hfinal := run_invariant
    (P := fun s => s.mem.vendors[s0.mem.vendors.length]? =
        some ⟨cols 0 4 V, colsFrom 6 V, s2.vendorProducts⟩ ∧
      s.curVendor ≠ some s0.mem.vendors.length ∧
      s.db.Vendors.lookup (cols 0 4 V) = some s0.mem.vendors.length)
    (fun s l s' hl hP hst =>
      vendor_settled_step hst (hlater l (List.mem_cons_of_mem _ hl)) hP) hsettled hs4
  obtain ⟨k1, -, k3⟩ := hfinal
  refine ⟨⟨cols 0 4 V, colsFrom 6 V, s2.vendorProducts⟩,
    by simp [ParseResult.vendorAt, k3, k1], ?_⟩
  have hrest : run s2 (W :: post) = some sf := by simp [run, hs3, hs4]
  have := productIdents_stable hrest g4
  simpa using this

set_option maxRecDepth 100000 in
/-- C5 at the first of two Vendor blocks. -/
theorem vendor_products_attached_witness :
    parsePCIIdsFile Memory.empty PCIDB.empty
      ([] ++ "0a89  Vendor A" :: (["\t0001  Widget", "\t0002  Gadget"] ++
        "0b00  Vendor B" :: ["\t0001  Sprocket"])) = some twoBlockResult ∧
    lineKind "0a89  Vendor A" = .vendorHeader ∧
    lineKind "0b00  Vendor B" = .vendorHeader ∧
    (∀ l ∈ ["\t0001  Widget", "\t0002  Gadget"], lineKind l ≠ .vendorHeader) ∧
    (∀ l ∈ "0b00  Vendor B" :: ["\t0001  Sprocket"], lineKind l = .vendorHeader →
      cols 0 4 l ≠ cols 0 4 "0a89  Vendor A") ∧
    ∃ v, twoBlockResult.vendorAt (cols 0 4 "0a89  Vendor A") = some v ∧
      twoBlockResult.mem.productIdents v.Products =
        (productLines (ctxAfter Ctx.init ([] ++ ["0a89  Vendor A"]))
          ["\t0001  Widget", "\t0002  Gadget"]).map fun e =>
          some (cols 0 4 "0a89  Vendor A", cols 1 5 e.2, colsFrom 7 e.2) :=
  ⟨by decide, by decide, by decide, by decide, by decide,
    vendor_products_attached Memory.empty PCIDB.empty [] "0a89  Vendor A"
      ["\t0001  Widget", "\t0002  Gadget"] "0b00  Vendor B"
      ["\t0001  Sprocket"] twoBlockResult (by decide) (by decide) (by decide) (by decide)
      (by decide)⟩

/-- C6: in a parse that runs to completion and in which no two-tab line precedes
the first Product line, let `P` be a Product line whose key occurs only once in
the input and that is followed by a later Product line `Q`, the next one.  Then
`Products[k].Subsystems` is, in file order, the list of the records built from
the two-tab lines read in vendor mode between `P` and `Q`, each with `VendorId`
= columns `[2, 6)`, `Id` = columns `[7, 11)` and `Name` = column 13 to the end
of its line. -/
theorem product_subsystems_attached (m : Memory) (db : PCIDB) (pre : List String) (P : String)
    (mid : List String) (Q : String) (post : List String) (r : ParseResult)
    (h : parsePCIIdsFile m db (pre ++ P :: (mid ++ Q :: post)) = some r)
    (hfirst : twoTabBeforeFirstProduct Ctx.init (pre ++ P :: (mid ++ Q :: post)) = false)
    (hP : isProductLine (ctxAfter Ctx.init pre, P) = true)
    (hQ : isProductLine (ctxAfter Ctx.init (pre ++ P :: mid), Q) = true)
    (hmid : productLines (ctxAfter Ctx.init (pre ++ [P])) mid = [])
    (honce : (productLinesWithKey (productKeyOf (ctxAfter Ctx.init pre, P))
      (pre ++ P :: (mid ++ Q :: post))).length = 1) :
    ∃ p, r.productAt (productKeyOf (ctxAfter Ctx.init pre, P)) = some p ∧
      r.mem.productIdents p.Subsystems =
        (subsystemLines (ctxAfter Ctx.init (pre ++ [P])) mid).map fun l =>
          some (cols 2 6 l, cols 7 11 l, colsFrom 13 l) := by
  obtain ⟨sf, hs, rfl⟩ := parse_eq_some h
  obtain ⟨s0, hs0, hs'⟩ := run_append_eq_some hs
  obtain ⟨s1, hs1, hs'⟩ := run_cons_eq_some hs'
  obtain ⟨s2, hs2, hs'⟩ := run_append_eq_some hs'
  obtain ⟨s3, hs3, hs4⟩ := run_cons_eq_some hs'
  -- contexts
  have hc1 : ctxAfter Ctx.init (pre ++ [P]) = (ctxAfter Ctx.init pre).read P := by
    rw [ctxAfter_append]; rfl
  have hc2 : ctxAfter Ctx.init (pre ++ P :: mid) =
      ctxAfter ((ctxAfter Ctx.init pre).read P) mid := by
    rw [ctxAfter_append]; rfl
  rw [hc1] at hmid
  rw [hc2] at hQ
  rw [hc1]
  generalize hc0 : ctxAfter Ctx.init pre = c0 at *
  have hL0 : Link c0 s0 := by rw [← hc0]; exact link_run pre (link_init m db) hs0
  have hL1 : Link (c0.read P) s1 := link_step hL0 hs1
  have hL2 : Link (ctxAfter (c0.read P) mid) s2 := link_run mid hL1 hs2
  have hL3 : Link ((ctxAfter (c0.read P) mid).read Q) s3 := link_step hL2 hs3
  have hI0 := subsysInv_run hs0
  -- the key of `P` occurs once
  have hdecomp : productLines Ctx.init (pre ++ P :: (mid ++ Q :: post)) =
      productLines Ctx.init pre ++ ((c0, P) ::
        ((ctxAfter (c0.read P) mid, Q) ::
          productLines ((ctxAfter (c0.read P) mid).read Q) post)) := by
    rw [productLines_append, hc0, productLines_cons, hP, productLines_append, hmid,
      productLines_cons, hQ]
    simp
  have honce' := honce
  unfold productLinesWithKey at honce'
  rw [hdecomp, List.filter_append, List.filter_cons, if_pos (by simp), List.length_append,
    List.length_cons] at honce'
  have hrest : (List.filter (fun e => decide (productKeyOf e = productKeyOf (c0, P)))
      ((ctxAfter (c0.read P) mid, Q) ::
        productLines ((ctxAfter (c0.read P) mid).read Q) post)) = [] := by
    rw [← List.length_eq_zero]; omega
  have hQkey : productKeyOf (ctxAfter (c0.read P) mid, Q) ≠ productKeyOf (c0, P) := by
    intro hEq
    rw [List.filter_cons, if_pos (by simpa using hEq)] at hrest
    cases hrest
  have hpostkeys : ∀ e ∈ productLines ((ctxAfter (c0.read P) mid).read Q) post,
      productKeyOf e ≠ productKeyOf (c0, P) := by
    intro e he hEq
    have : e ∈ List.filter (fun e => decide (productKeyOf e = productKeyOf (c0, P)))
        ((ctxAfter (c0.read P) mid, Q) ::
          productLines ((ctxAfter (c0.read P) mid).read Q) post) := by
      rw [List.mem_filter]
      exact ⟨List.mem_cons_of_mem _ he, by simpa using hEq⟩
    rw [hrest] at this
    cases this
  -- the line `P`
  simp only [isProductLine, Bool.decide_and, Bool.and_eq_true, decide_eq_true_eq] at hP hQ
  have hb0 : s0.inClassBlock = false := by rw [hL0.mode]; exact hP.1
  obtain ⟨-, a, v, ha, hv, rfl⟩ := step_product hs1 hP.2 hb0
  obtain ⟨hcv, -⟩ := hL0.vendor_id ha hv
  have hkey : productKeyOf (c0, P) = v.Id ++ cols 1 5 P := by simp [productKeyOf, hcv]
  obtain ⟨e1, e2, e3, e4, -⟩ := productEntry_effect s0 v.Id (cols 1 5 P) (colsFrom 7 P)
  have hempty : (openProduct (finalizeProduct s0) v.Id (cols 1 5 P)
      (colsFrom 7 P)).productSubsystems = [] := by
    rw [e3]
    split
    · rename_i hnone
      apply hI0.noTabs
      exact no_twoTab_before_first hfirst (hI0.noProduct hnone)
    · rfl
  -- the lines between `P` and `Q`
  obtain ⟨g1, g2, g3, -, g5⟩ := subsystems_accumulate [] hs2 hmid hL1.mode
    (by rw [hempty]; rfl)
  -- the line `Q`
  have hb2 : s2.inClassBlock = false := by rw [hL2.mode]; exact hQ.1
  obtain ⟨-, a', v', ha', hv', rfl⟩ := step_product hs3 hQ.2 hb2
  obtain ⟨hcv', -⟩ := hL2.vendor_id ha' hv'
  have hkey' : productKeyOf (ctxAfter (c0.read P) mid, Q) = v'.Id ++ cols 1 5 Q := by
    simp [productKeyOf, hcv']
  obtain ⟨b1, b2, -, -, b5⟩ := productEntry_effect s2 v'.Id (cols 1 5 Q) (colsFrom 7 Q)
  have hcell2 := g3 _ _ e4
  have hcur : s2.curProduct = some s0.mem.products.length := by rw [g2, e1]
  have hB3 := b5 _ _ hcell2
  rw [if_pos hcur] at hB3
  have hlook : (openProduct (finalizeProduct s2) v'.Id (cols 1 5 Q)
      (colsFrom 7 Q)).db.Products.lookup (productKeyOf (c0, P)) =
        some s0.mem.products.length := by
    rw [b2, GoMap.lookup_store, if_neg (by rw [← hkey']; exact hQkey), g1, e2,
      GoMap.lookup_store, if_pos hkey.symm]
  have hne : (openProduct (finalizeProduct s2) v'.Id (cols 1 5 Q) (colsFrom 7 Q)).curProduct ≠
      some s0.mem.products.length := by
    rw [b1]
    intro hEq
    simp only [Option.some.injEq] at hEq
    have := lt_length_of_getElem? hcell2
    omega
  -- the lines after `Q`
  obtain ⟨k1, k3⟩ := product_settled_run hs4 hL3 hpostkeys hB3 hne hlook
  refine ⟨_, by simp only [ParseResult.productAt, k3, Option.some_bind]; exact k1, ?_⟩
  have hrest2 : run s2 (Q :: post) = some sf := by simp [run, hs3, hs4]
  have := productIdents_stable hrest2 g5
  simpa using this

set_option maxRecDepth 100000 in
/-- C6 at the first Product of a Vendor block, with two Subsystems. -/
theorem product_subsystems_attached_witness :
    parsePCIIdsFile Memory.empty PCIDB.empty
      (["0a89  Vendor A"] ++ "\t0001  Widget" ::
        (["\t\t0a89 0010  Widget Pro", "\t\t0b00 0020  Widget Lite"] ++
          "\t0002  Gadget" :: ["\t\t0a89 0030  Gadget Pro"])) = some subsystemExampleResult ∧
    twoTabBeforeFirstProduct Ctx.init (["0a89  Vendor A"] ++ "\t0001  Widget" ::
        (["\t\t0a89 0010  Widget Pro", "\t\t0b00 0020  Widget Lite"] ++
          "\t0002  Gadget" :: ["\t\t0a89 0030  Gadget Pro"])) = false ∧
    isProductLine (ctxAfter Ctx.init ["0a89  Vendor A"], "\t0001  Widget") = true ∧
    isProductLine (ctxAfter Ctx.init (["0a89  Vendor A"] ++ "\t0001  Widget" ::
      ["\t\t0a89 0010  Widget Pro", "\t\t0b00 0020  Widget Lite"]), "\t0002  Gadget") = true ∧
    productLines (ctxAfter Ctx.init (["0a89  Vendor A"] ++ ["\t0001  Widget"]))
      ["\t\t0a89 0010  Widget Pro", "\t\t0b00 0020  Widget Lite"] = [] ∧
    (productLinesWithKey (productKeyOf (ctxAfter Ctx.init ["0a89  Vendor A"], "\t0001  Widget"))
      (["0a89  Vendor A"] ++ "\t0001  Widget" ::
        (["\t\t0a89 0010  Widget Pro", "\t\t0b00 0020  Widget Lite"] ++
          "\t0002  Gadget" :: ["\t\t0a89 0030  Gadget Pro"]))).length = 1 ∧
    ∃ p, subsystemExampleResult.productAt
        (productKeyOf (ctxAfter Ctx.init ["0a89  Vendor A"], "\t0001  Widget")) = some p ∧
      subsystemExampleResult.mem.productIdents p.Subsystems =
        (subsystemLines (ctxAfter Ctx.init (["0a89  Vendor A"] ++ ["\t0001  Widget"]))
          ["\t\t0a89 0010  Widget Pro", "\t\t0b00 0020  Widget Lite"]).map fun l =>
          some (cols 2 6 l, cols 7 11 l, colsFrom 13 l) :=
  ⟨by decide, by decide, by decide, by decide, by decide, by decide,
    product_subsystems_attached Memory.empty PCIDB.empty ["0a89  Vendor A"] "\t0001  Widget"
      ["\t\t0a89 0010  Widget Pro", "\t\t0b00 0020  Widget Lite"] "\t0002  Gadget"
      ["\t\t0a89 0030  Gadget Pro"] subsystemExampleResult (by decide) (by decide) (by decide)
      (by decide) (by decide) (by decide)⟩

set_option maxRecDepth 100000 in
/-- C7 (evaluation of the code): on an input whose last block is a Class block
with a Subclass line and a ProgrammingInterface line, after a Vendor block with a
Product line and a Subsystem line, the parse returns with every one of the four
child lists empty: `Classes["02"].Subclasses`, the ProgrammingInterfaces of its
Subclass record (the only one in memory), `Vendors["0a89"].Products` and
`Products["0a890001"].Subsystems`. -/
theorem end_of_input_not_flushed :
    ∃ r, parsePCIIdsFile Memory.empty PCIDB.empty lastBlockLines = some r ∧
      (r.classAt "02").map PCIClass.Subclasses = some [] ∧
      r.mem.subclasses =
        [{ Id := "00", Name := "Ethernet controller", ProgrammingInterfaces := [] }] ∧
      (r.vendorAt "0a89").map PCIVendor.Products = some [] ∧
      (r.productAt "0a890001").map PCIProduct.Subsystems = some [] := by
  refine ⟨_, rfl, ?_⟩
  decide

/-- C8: in a parse that runs to completion, let `H` be the last Class header
(resp. Vendor header) that carries its id, whether or not earlier headers carry
the same id.  The record stored under that id in `Classes` (resp. `Vendors`) has
the Name of `H`, and its `Subclasses` (resp. `Products`) holds no record built
from a line that precedes `H`: with `s0` the state of the parser when it reaches
`H`, every pointer of the list is at or above the size the Subclass (resp.
Product) heap has in `s0`, that is, it points to a record allocated later. -/
theorem last_header_wins (m : Memory) (db : PCIDB) (pre : List String) (H : String)
    (post : List String) (r : ParseResult)
    (h : parsePCIIdsFile m db (pre ++ H :: post) = some r) :
    ∃ s0, run (initState m db) pre = some s0 ∧
      (lineKind H = .classHeader →
        (∀ l ∈ post, lineKind l = .classHeader → cols 2 4 l ≠ cols 2 4 H) →
        ∃ c, r.classAt (cols 2 4 H) = some c ∧ c.Name = colsFrom 6 H ∧
          ∀ x ∈ c.Subclasses, s0.mem.subclasses.length ≤ x) ∧
      (lineKind H = .vendorHeader →
        (∀ l ∈ post, lineKind l = .vendorHeader → cols 0 4 l ≠ cols 0 4 H) →
        ∃ v, r.vendorAt (cols 0 4 H) = some v ∧ v.Name = colsFrom 6 H ∧
          ∀ x ∈ v.Products, s0.mem.products.length ≤ x) := by
  obtain ⟨sf, hs, rfl⟩ := parse_eq_some h
  obtain ⟨s0, hs0, hs'⟩ := run_append_eq_some hs
  obtain ⟨s1, hs1, hs2⟩ := run_cons_eq_some hs'
  have hQ := quiet_run hs0
  refine ⟨s0, hs0, ?_, ?_⟩
  · intro hH hpost
    obtain ⟨-, rfl⟩ := step_classHeader hs1 hH
    obtain ⟨-, e2, e3, e4, e5, -⟩ := classHeader_effect s0 (cols 2 4 H) (colsFrom 6 H)
    have hempty : (if s0.curClass = none then s0.subclasses else []) = [] := by
      split
      · rename_i hnone; exact (hQ.noClass hnone).1
      · rfl
    rw [hempty] at e3 e4
    have hstart :
        (∃ c, (openClass (finalizeClass s0) (cols 2 4 H) (colsFrom 6 H)).mem.classes[
            s0.mem.classes.length]? = some c ∧ c.Name = colsFrom 6 H ∧
          ∀ x ∈ c.Subclasses, s0.mem.subclasses.length ≤ x) ∧
        (∀ x ∈ (openClass (finalizeClass s0) (cols 2 4 H) (colsFrom 6 H)).subclasses,
          s0.mem.subclasses.length ≤ x) ∧
        s0.mem.subclasses.length ≤
          (openClass (finalizeClass s0) (cols 2 4 H) (colsFrom 6 H)).mem.subclasses.length ∧
        (openClass (finalizeClass s0) (cols 2 4 H) (colsFrom 6 H)).db.Classes.lookup
          (cols 2 4 H) = some s0.mem.classes.length := by
      refine ⟨⟨_, e4, rfl, fun x hx => by cases hx⟩, ?_, ?_, ?_⟩
      · rw [e3]; intro x hx; cases hx
      · rw [e5]
      · rw [e2, GoMap.lookup_store, if_pos rfl]
    obtain ⟨⟨c, k1, k2, k3⟩, -, -, k6⟩ := run_invariant
      (P := fun s =>
        (∃ c, s.mem.classes[s0.mem.classes.length]? = some c ∧ c.Name = colsFrom 6 H ∧
          ∀ x ∈ c.Subclasses, s0.mem.subclasses.length ≤ x) ∧
        (∀ x ∈ s.subclasses, s0.mem.subclasses.length ≤ x) ∧
        s0.mem.subclasses.length ≤ s.mem.subclasses.length ∧
        s.db.Classes.lookup (cols 2 4 H) = some s0.mem.classes.length)
      (fun s l s' hl hP hst => class_recent_step hst (hpost l hl) hP) hstart hs2
    exact ⟨c, by simp [ParseResult.classAt, k6, k1], k2, k3⟩
  · intro hH hpost
    obtain ⟨-, rfl⟩ := step_vendorHeader hs1 hH
    obtain ⟨-, e2, e3, e4, e5, -⟩ := vendorHeader_effect s0 (cols 0 4 H) (colsFrom 6 H)
    have hempty : (if s0.curVendor = none then s0.vendorProducts else []) = [] := by
      split
      · rename_i hnone; exact hQ.noVendor hnone
      · rfl
    rw [hempty] at e3 e4
    have hstart :
        (∃ c, (openVendor (finalizeVendor s0) (cols 0 4 H) (colsFrom 6 H)).mem.vendors[
            s0.mem.vendors.length]? = some c ∧ c.Name = colsFrom 6 H ∧
          ∀ x ∈ c.Products, s0.mem.products.length ≤ x) ∧
        (∀ x ∈ (openVendor (finalizeVendor s0) (cols 0 4 H) (colsFrom 6 H)).vendorProducts,
          s0.mem.products.length ≤ x) ∧
        s0.mem.products.length ≤
          (openVendor (finalizeVendor s0) (cols 0 4 H) (colsFrom 6 H)).mem.products.length ∧
        (openVendor (finalizeVendor s0) (cols 0 4 H) (colsFrom 6 H)).db.Vendors.lookup
          (cols 0 4 H) = some s0.mem.vendors.length := by
      refine ⟨⟨_, e4, rfl, fun x hx => by cases hx⟩, ?_, ?_, ?_⟩
      · rw [e3]; intro x hx; cases hx
      · rw [e5]
      · rw [e2, GoMap.lookup_store, if_pos rfl]
    obtain ⟨⟨c, k1, k2, k3⟩, -, -, k6⟩ := run_invariant
      (P := fun s =>
        (∃ c, s.mem.vendors[s0.mem.vendors.length]? = some c ∧ c.Name = colsFrom 6 H ∧
          ∀ x ∈ c.Products, s0.mem.products.length ≤ x) ∧
        (∀ x ∈ s.vendorProducts, s0.mem.products.length ≤ x) ∧
        s0.mem.products.length ≤ s.mem.products.length ∧
        s.db.Vendors.lookup (cols 0 4 H) = some s0.mem.vendors.length)
      (fun s l s' hl hP hst => vendor_recent_step hst (hpost l hl) hP) hstart hs2
    exact ⟨c, by simp [ParseResult.vendorAt, k6, k1], k2, k3⟩

set_option maxRecDepth 100000 in
/-- C8 at two inputs in which a header repeats an id: the Class 02 and the
Vendor 0a89 are each declared twice, and the premises of both parts hold at the
second declaration. -/
theorem last_header_wins_witness :
    (parsePCIIdsFile Memory.empty PCIDB.empty
        (repeatedClassLines.take 2 ++ "C 02  Second name" :: repeatedClassLines.drop 3) =
          some repeatedClassResult ∧
      lineKind "C 02  Second name" = .classHeader ∧
      (∀ l ∈ repeatedClassLines.drop 3, lineKind l = .classHeader →
        cols 2 4 l ≠ cols 2 4 "C 02  Second name") ∧
      ∃ s0, run (initState Memory.empty PCIDB.empty) (repeatedClassLines.take 2) = some s0 ∧
        (lineKind "C 02  Second name" = .classHeader →
          (∀ l ∈ repeatedClassLines.drop 3, lineKind l = .classHeader →
            cols 2 4 l ≠ cols 2 4 "C 02  Second name") →
          ∃ c, repeatedClassResult.classAt (cols 2 4 "C 02  Second name") = some c ∧
            c.Name = colsFrom 6 "C 02  Second name" ∧
            ∀ x ∈ c.Subclasses, s0.mem.subclasses.length ≤ x) ∧
        (lineKind "C 02  Second name" = .vendorHeader →
          (∀ l ∈ repeatedClassLines.drop 3, lineKind l = .vendorHeader →
            cols 0 4 l ≠ cols 0 4 "C 02  Second name") →
          ∃ v, repeatedClassResult.vendorAt (cols 0 4 "C 02  Second name") = some v ∧
            v.Name = colsFrom 6 "C 02  Second name" ∧
            ∀ x ∈ v.Products, s0.mem.products.length ≤ x)) ∧
    (parsePCIIdsFile Memory.empty PCIDB.empty
        (repeatedVendorLines.take 2 ++ "0a89  Second name" :: repeatedVendorLines.drop 3) =
          some repeatedVendorResult ∧
      lineKind "0a89  Second name" = .vendorHeader ∧
      (∀ l ∈ repeatedVendorLines.drop 3, lineKind l = .vendorHeader →
        cols 0 4 l ≠ cols 0 4 "0a89  Second name") ∧
      ∃ s0, run (initState Memory.empty PCIDB.empty) (repeatedVendorLines.take 2) = some s0 ∧
        (lineKind "0a89  Second name" = .classHeader →
          (∀ l ∈ repeatedVendorLines.drop 3, lineKind l = .classHeader →
            cols 2 4 l ≠ cols 2 4 "0a89  Second name") →
          ∃ c, repeatedVendorResult.classAt (cols 2 4 "0a89  Second name") = some c ∧
            c.Name = colsFrom 6 "0a89  Second name" ∧
            ∀ x ∈ c.Subclasses, s0.mem.subclasses.length ≤ x) ∧
        (lineKind "0a89  Second name" = .vendorHeader →
          (∀ l ∈ repeatedVendorLines.drop 3, lineKind l = .vendorHeader →
            cols 0 4 l ≠ cols 0 4 "0a89  Second name") →
          ∃ v, repeatedVendorResult.vendorAt (cols 0 4 "0a89  Second name") = some v ∧
            v.Name = colsFrom 6 "0a89  Second name" ∧
            ∀ x ∈ v.Products, s0.mem.products.length ≤ x)) :=
  ⟨⟨by decide, by decide, by decide,
      last_header_wins Memory.empty PCIDB.empty (repeatedClassLines.take 2)
        "C 02  Second name" (repeatedClassLines.drop 3) repeatedClassResult (by decide)⟩,
    ⟨by decide, by decide, by decide,
      last_header_wins Memory.empty PCIDB.empty (repeatedVendorLines.take 2)
        "0a89  Second name" (repeatedVendorLines.drop 3) repeatedVendorResult (by decide)⟩⟩

/-- C9: in a parse that runs to completion, two Product lines produce the same
`Products` key only if their Vendor ids are equal and their product ids are
equal; and when the same product id `p` stands under Vendor headers with
different ids `v1` and `v2`, `Products` holds two different records under
`v1 ++ p` and `v2 ++ p`, the first with `VendorId = v1`, the second with
`VendorId = v2`, each with the `Name` of the last Product line of its own key. -/
theorem product_keys_scoped (m : Memory) (db : PCIDB) (lines : List String) (r : ParseResult)
    (h : parsePCIIdsFile m db lines = some r) :
    (∀ e1 ∈ productLines Ctx.init lines, ∀ e2 ∈ productLines Ctx.init lines,
      productKeyOf e1 = productKeyOf e2 →
        e1.1.vendor = e2.1.vendor ∧ cols 1 5 e1.2 = cols 1 5 e2.2) ∧
    (∀ e1 ∈ productLines Ctx.init lines, ∀ e2 ∈ productLines Ctx.init lines, ∀ v1 v2 p,
      e1.1.vendor = some v1 → e2.1.vendor = some v2 →
      cols 1 5 e1.2 = p → cols 1 5 e2.2 = p → v1 ≠ v2 →
        ∃ p1 p2 l1 l2, r.db.Products.lookup (v1 ++ p) ≠ r.db.Products.lookup (v2 ++ p) ∧
          r.productAt (v1 ++ p) = some p1 ∧ r.productAt (v2 ++ p) = some p2 ∧
          p1.VendorId = v1 ∧ p2.VendorId = v2 ∧ p1.Id = p ∧ p2.Id = p ∧
          (productLinesWithKey (v1 ++ p) lines).getLast? = some l1 ∧
          p1.Name = colsFrom 7 l1.2 ∧
          (productLinesWithKey (v2 ++ p) lines).getLast? = some l2 ∧
          p2.Name = colsFrom 7 l2.2) := by
  constructor
  · intro e1 he1 e2 he2 hkey
    obtain ⟨s, hs, -⟩ := parse_eq_some h
    obtain ⟨-, hI⟩ := link_products_run hs
    obtain ⟨v1, hv1, hw1, -⟩ := hI.wide e1 he1
    obtain ⟨v2, hv2, hw2, -⟩ := hI.wide e2 he2
    simp only [productKeyOf, hv1, hv2, Option.getD_some] at hkey
    obtain ⟨h1, h2⟩ := string_append_inj hkey (hw1.trans hw2.symm)
    exact ⟨by rw [hv1, hv2, h1], h2⟩
  · intro e1 he1 e2 he2 v1 v2 p hv1 hv2 hp1 hp2 hne
    obtain ⟨a1, p1, l1, h11, h12, h13, h14, h15, h16⟩ := product_entry_of_line h he1 hv1
    obtain ⟨a2, p2, l2, h21, h22, h23, h24, h25, h26⟩ := product_entry_of_line h he2 hv2
    rw [hp1] at h11 h14 h15
    rw [hp2] at h21 h24 h25
    refine ⟨p1, p2, l1, l2, ?_, by simp [ParseResult.productAt, h11, h12],
      by simp [ParseResult.productAt, h21, h22], h13, h23, h14, h24, h15, h16, h25, h26⟩
    rw [h11, h21]
    intro hEq
    simp only [Option.some.injEq] at hEq
    subst hEq
    rw [h12] at h22
    simp only [Option.some.injEq] at h22
    subst h22
    exact hne (h13.symm.trans h23)

set_option maxRecDepth 100000 in
/-- C9 at an input with the product id 0001 under the Vendors 0a89 and 0b00. -/
theorem product_keys_scoped_witness :
    parsePCIIdsFile Memory.empty PCIDB.empty twoVendorLines = some twoVendorResult ∧
    ((∀ e1 ∈ productLines Ctx.init twoVendorLines, ∀ e2 ∈ productLines Ctx.init twoVendorLines,
      productKeyOf e1 = productKeyOf e2 →
        e1.1.vendor = e2.1.vendor ∧ cols 1 5 e1.2 = cols 1 5 e2.2) ∧
    (∀ e1 ∈ productLines Ctx.init twoVendorLines, ∀ e2 ∈ productLines Ctx.init twoVendorLines,
      ∀ v1 v2 p, e1.1.vendor = some v1 → e2.1.vendor = some v2 →
      cols 1 5 e1.2 = p → cols 1 5 e2.2 = p → v1 ≠ v2 →
        ∃ p1 p2 l1 l2, twoVendorResult.db.Products.lookup (v1 ++ p) ≠
            twoVendorResult.db.Products.lookup (v2 ++ p) ∧
          twoVendorResult.productAt (v1 ++ p) = some p1 ∧
          twoVendorResult.productAt (v2 ++ p) = some p2 ∧
          p1.VendorId = v1 ∧ p2.VendorId = v2 ∧ p1.Id = p ∧ p2.Id = p ∧
          (productLinesWithKey (v1 ++ p) twoVendorLines).getLast? = some l1 ∧
          p1.Name = colsFrom 7 l1.2 ∧
          (productLinesWithKey (v2 ++ p) twoVendorLines).getLast? = some l2 ∧
          p2.Name = colsFrom 7 l2.2)) :=
  ⟨by decide,
    product_keys_scoped Memory.empty PCIDB.empty twoVendorLines twoVendorResult (by decide)⟩

/-- C10: on the empty line sequence, and on every line sequence of empty lines
and lines whose first character is `#`, the parse returns with a nil error and
leaves `Classes`, `Vendors` and `Products` empty. -/
theorem blank_input_empty_database (m : Memory) (db : PCIDB) (lines : List String)
    (h : ∀ l ∈ lines, l = "" ∨ firstChar l = some '#') :
    ∃ r, parsePCIIdsFile m db lines = some r ∧ r.err = none ∧
      r.db.Classes.keys = [] ∧ r.db.Vendors.keys = [] ∧ r.db.Products.keys = [] := by
  refine ⟨{ mem := (initState m db).mem, db := (initState m db).db, err := none }, ?_,
    rfl, rfl, rfl, rfl⟩
  simp [parsePCIIdsFile, run_blank _ lines h]

/-- C10 at an input of blank lines and comments. -/
theorem blank_input_empty_database_witness :
    (∀ l ∈ commentLines, l = "" ∨ firstChar l = some '#') ∧
    ∃ r, parsePCIIdsFile Memory.empty PCIDB.empty commentLines = some r ∧ r.err = none ∧
      r.db.Classes.keys = [] ∧ r.db.Vendors.keys = [] ∧ r.db.Products.keys = [] :=
  ⟨by decide, blank_input_empty_database Memory.empty PCIDB.empty commentLines (by decide)⟩

/-- C11: comments and blank lines are skipped.  Two line sequences that differ
only by empty lines and lines whose first character is `#`, inserted or deleted
at any positions (that is, that leave the same lines once those are removed),
have the same outcome: the same returned memory and Database, or a panic in both
cases. -/
theorem comments_and_blanks_skipped (m : Memory) (db : PCIDB) (L L' : List String)
    (h : (L.filter fun l => !isSkipped l) = L'.filter fun l => !isSkipped l) :
    parsePCIIdsFile m db L = parsePCIIdsFile m db L' := by
  unfold parsePCIIdsFile
  rw [← run_filter_skipped _ L, ← run_filter_skipped _ L', h]

set_option maxRecDepth 100000 in
/-- C11 at the example of the spec, with three comment or blank lines inserted. -/
theorem comments_and_blanks_skipped_witness :
    ((exampleLines.filter fun l => !isSkipped l) =
      ("# classes" :: exampleLines.take 3 ++ "" :: "#" :: exampleLines.drop 3).filter
        fun l => !isSkipped l) ∧
    parsePCIIdsFile Memory.empty PCIDB.empty exampleLines =
      parsePCIIdsFile Memory.empty PCIDB.empty
        ("# classes" :: exampleLines.take 3 ++ "" :: "#" :: exampleLines.drop 3) :=
  ⟨by decide, comments_and_blanks_skipped Memory.empty PCIDB.empty exampleLines
    ("# classes" :: exampleLines.take 3 ++ "" :: "#" :: exampleLines.drop 3) (by decide)⟩

/-- C12 (the claim as stated fails): on a Vendor header followed by a one-tab
line of four characters, which is too short for the slices of a Product line,
the parse panics: it returns nothing, so no ParseError either.  When the short
line is reached `Vendors` already holds, in place, the key of the header. -/
theorem short_line_no_parse_error :
    tooShort (ctxAfter Ctx.init ["0a89  Vendor A"], "\t00") = true ∧
    parsePCIIdsFile Memory.empty PCIDB.empty shortLineLines = none ∧
    (¬ ∃ r, parsePCIIdsFile Memory.empty PCIDB.empty shortLineLines = some r ∧ r.err ≠ none) ∧
    ∃ s, run (initState Memory.empty PCIDB.empty) ["0a89  Vendor A"] = some s ∧
      step s "\t00" = none ∧ s.db.Vendors.keys = ["0a89"] := by
  refine ⟨by decide, by decide, ?_, _, rfl, by decide, by decide⟩
  rintro ⟨r, hr, -⟩
  have : parsePCIIdsFile Memory.empty PCIDB.empty shortLineLines = none := by decide
  rw [this] at hr
  cases hr

/-- C12 (amended): on every line sequence that contains a line too short for the
column offsets its classification requires, `parsePCIIdsFile` does not return:
it panics, on a slice bound when it reaches that line (in the state the lines
before it have built), or earlier; no error value is produced. -/
theorem short_line_panics (m : Memory) (db : PCIDB) (pre : List String) (l : String)
    (post : List String) (h : tooShort (ctxAfter Ctx.init pre, l) = true) :
    parsePCIIdsFile m db (pre ++ l :: post) = none ∧
    ∀ s, run (initState m db) pre = some s → step s l = none := by
  have h2 : ∀ s, run (initState m db) pre = some s → step s l = none :=
    fun s hs => step_tooShort (link_run pre (link_init m db) hs) h
  exact ⟨run_none_of_step_none h2, h2⟩

/-- C12 (amended) at a Vendor header followed by a one-tab line of four characters. -/
theorem short_line_panics_witness :
    tooShort (ctxAfter Ctx.init ["0a89  Vendor A"], "\t00") = true ∧
    parsePCIIdsFile Memory.empty PCIDB.empty (["0a89  Vendor A"] ++ "\t00" :: []) = none ∧
    ∀ s, run (initState Memory.empty PCIDB.empty) ["0a89  Vendor A"] = some s →
      step s "\t00" = none :=
  ⟨by decide,
    short_line_panics Memory.empty PCIDB.empty ["0a89  Vendor A"] "\t00" [] (by decide)⟩

set_option maxRecDepth 100000 in
/-- C13 (the claim as stated fails): a two-tab line before any other line, hence
with no Product that could own it, is read as a Subsystem line and accepted: the
parse returns with a nil error. -/
theorem orphan_two_tab_accepted :
    productLines Ctx.init orphanLines = [] ∧ isTwoTab "\t\t0a89 0010  Widget Pro" = true ∧
    parsePCIIdsFile Memory.empty PCIDB.empty orphanLines = some orphanResult ∧
    orphanResult.err = none := by
  decide

/-- C13 (amended): a one-tab line that comes before any Class or Vendor header
makes `parsePCIIdsFile` panic (it is read as a Product line while the current
Vendor is nil), so the function does not return and produces no error value.  A
line of two tabs or more is never rejected for want of an open parent: in every
state, whatever `curSubclass` and `curProduct` are, it is read without a panic
as soon as it is long enough for its slices, and its record is appended to the
running accumulator: in class mode a ProgrammingInterface record is allocated and
its pointer appended to `progIfaces`, otherwise a Subsystem record is allocated
and its pointer appended to `productSubsystems`. -/
theorem orphan_lines (m : Memory) (db : PCIDB) (pre : List String) (l : String)
    (post : List String) (hpre : ctxAfter Ctx.init pre = Ctx.init)
    (hl : lineKind l = .oneTab) :
    parsePCIIdsFile m db (pre ++ l :: post) = none ∧
    ∀ (s : ParserState) (t : String), lineKind t = .tabs →
      (if s.inClassBlock then 6 else 13) ≤ t.length →
      ∃ s', step s t = some s' ∧
        (s.inClassBlock = true →
          s'.mem.progIfaces =
            s.mem.progIfaces ++ [{ Id := cols 2 4 t, Name := colsFrom 6 t }] ∧
          s'.progIfaces = s.progIfaces ++ [s.mem.progIfaces.length]) ∧
        (s.inClassBlock = false →
          s'.mem.products = s.mem.products ++
            [{ VendorId := cols 2 6 t, Id := cols 7 11 t, Name := colsFrom 13 t,
               Subsystems := [] }] ∧
          s'.productSubsystems = s.productSubsystems ++ [s.mem.products.length]) := by
  refine ⟨run_none_of_step_none fun s hs => ?_, fun s t hk hlen => ?_⟩
  · have hL := link_run pre (link_init m db) hs
    rw [hpre] at hL
    cases hst : step s l with
    | none => rfl
    | some s' =>
      exfalso
      obtain ⟨-, a, v, ha, -, -⟩ := step_product hst hl (by rw [hL.mode]; rfl)
      rw [hL.vendorNone rfl] at ha
      cases ha
  · obtain ⟨s', hs'⟩ := step_tabs_accepted s hk hlen
    refine ⟨s', hs', fun hb => ?_, fun hb => ?_⟩
    · obtain ⟨-, rfl⟩ := step_progIface hs' hk hb
      exact ⟨rfl, rfl⟩
    · obtain ⟨-, rfl⟩ := step_subsystem hs' hk hb
      exact ⟨rfl, rfl⟩

/-- C13 (amended) at a one-tab line that follows a comment only. -/
theorem orphan_lines_witness :
    ctxAfter Ctx.init ["# pci.ids"] = Ctx.init ∧ lineKind "\t0001  Widget" = .oneTab ∧
    parsePCIIdsFile Memory.empty PCIDB.empty
      (["# pci.ids"] ++ "\t0001  Widget" :: ["0a89  Vendor A"]) = none ∧
    ∀ (s : ParserState) (t : String), lineKind t = .tabs →
      (if s.inClassBlock then 6 else 13) ≤ t.length →
      ∃ s', step s t = some s' ∧
        (s.inClassBlock = true →
          s'.mem.progIfaces =
            s.mem.progIfaces ++ [{ Id := cols 2 4 t, Name := colsFrom 6 t }] ∧
          s'.progIfaces = s.progIfaces ++ [s.mem.progIfaces.length]) ∧
        (s.inClassBlock = false →
          s'.mem.products = s.mem.products ++
            [{ VendorId := cols 2 6 t, Id := cols 7 11 t, Name := colsFrom 13 t,
               Subsystems := [] }] ∧
          s'.productSubsystems = s.productSubsystems ++ [s.mem.products.length]) :=
  ⟨by decide, by decide,
    orphan_lines Memory.empty PCIDB.empty ["# pci.ids"] "\t0001  Widget" ["0a89  Vendor A"]
      (by decide) (by decide)⟩

/-- C14: re-parsing is idempotent and rebuilds wholesale.  For every line
sequence and every two prior states (memory and Database, populated or not), the
two parses either both panic or both return, and then the two Databases are
equal as values: the same keys, leading to records with the same fields and the
same children, level by level.  No class, vendor or product of the prior state
survives: every pointer of the three maps of the result points behind the prior
memory, to a record the parse has allocated. -/
theorem reparse_rebuilds (m1 : Memory) (db1 : PCIDB) (m2 : Memory) (db2 : PCIDB)
    (L : List String) :
    (parsePCIIdsFile m1 db1 L).map ParseResult.value =
      (parsePCIIdsFile m2 db2 L).map ParseResult.value ∧
    ∀ r, parsePCIIdsFile m1 db1 L = some r →
      (∀ k a, r.db.Classes.lookup k = some a → m1.classes.length ≤ a) ∧
      (∀ k a, r.db.Vendors.lookup k = some a → m1.vendors.length ≤ a) ∧
      (∀ k a, r.db.Products.lookup k = some a → m1.products.length ≤ a) := by
  constructor
  · rw [relocate_parse m1 db1, relocate_parse m2 db2]
    cases parsePCIIdsFile Memory.empty PCIDB.empty L with
    | none => rfl
    | some r => simp [relocate_value]
  · intro r hr
    rw [relocate_parse m1 db1] at hr
    cases hc : parsePCIIdsFile Memory.empty PCIDB.empty L with
    | none => rw [hc] at hr; cases hr
    | some rc =>
      rw [hc] at hr
      simp only [Option.map_some', Option.some.injEq] at hr
      subst hr
      refine ⟨?_, ?_, ?_⟩ <;> intro k a ha <;>
        simp only [ParseResult.relocate, PCIDB.relocate, GoMap.lookup_shift] at ha
      · cases h1 : rc.db.Classes.lookup k with
        | none => rw [h1] at ha; cases ha
        | some b =>
          rw [h1] at ha
          simp only [Option.map_some', Option.some.injEq] at ha
          omega
      · cases h1 : rc.db.Vendors.lookup k with
        | none => rw [h1] at ha; cases ha
        | some b =>
          rw [h1] at ha
          simp only [Option.map_some', Option.some.injEq] at ha
          omega
      · cases h1 : rc.db.Products.lookup k with
        | none => rw [h1] at ha; cases ha
        | some b =>
          rw [h1] at ha
          simp only [Option.map_some', Option.some.injEq] at ha
          omega

set_option maxRecDepth 100000 in
/-- C14 at the parse of two Class blocks, once from the empty state and once from
the state an earlier parse of two Vendor blocks has left: the same Database
value, in which the first Class has its two Subclasses. -/
theorem reparse_rebuilds_witness :
    (parsePCIIdsFile twoBlockResult.mem twoBlockResult.db twoClassLines).map ParseResult.value =
      some twoClassResult.value ∧
    twoClassResult.value.Vendors = [] ∧
    ((parsePCIIdsFile Memory.empty PCIDB.empty twoClassLines).map ParseResult.value =
      (parsePCIIdsFile twoBlockResult.mem twoBlockResult.db twoClassLines).map
        ParseResult.value ∧
    ∀ r, parsePCIIdsFile Memory.empty PCIDB.empty twoClassLines = some r →
      (∀ k a, r.db.Classes.lookup k = some a → Memory.empty.classes.length ≤ a) ∧
      (∀ k a, r.db.Vendors.lookup k = some a → Memory.empty.vendors.length ≤ a) ∧
      (∀ k a, r.db.Products.lookup k = some a → Memory.empty.products.length ≤ a)) :=
  ⟨by decide, by decide,
    reparse_rebuilds Memory.empty PCIDB.empty twoBlockResult.mem twoBlockResult.db
      twoClassLines⟩

set_option maxRecDepth 100000 in
/-- C15 fails on a Class header whose name field is wider than the name: the parse
of `C 02   Network controller ` (three spaces after the id, one after the name)
completes, and the Name stored under `02` is the text from column 6 to the end of
the line, ` Network controller `, with its leading and its trailing space. -/
theorem padded_name_kept :
    parsePCIIdsFile Memory.empty PCIDB.empty paddedLines = some paddedResult ∧
    paddedResult.classAt "02" =
      some { Id := "02", Name := " Network controller ", Subclasses := [] } ∧
    isTrimmed " Network controller " = false ∧
    ¬ paddedResult.allStored (fun c => isTrimmed c.Name = true)
      (fun c => isTrimmed c.Name = true) (fun c => isTrimmed c.Name = true)
      (fun c => isTrimmed c.Name = true) (fun c => isTrimmed c.Name = true) := by
  refine ⟨by decide, by decide, by decide, fun h => ?_⟩
  have h1 := (h.1 "02" { Id := "02", Name := " Network controller ", Subclasses := [] }
    (by decide)).1
  revert h1
  decide

/-- C15, amended: the column slicing removes nothing.  On every line sequence on
which `parsePCIIdsFile` runs to completion, from any prior state, every record the
Database leads to is the one built from its own line, the line of the input at
which its address was allocated, and its Name is the text of that line from the
name column to the end, whitespace included: a Class from a Class header (Name
from column 6), a Subclass from a one-tab line read in class mode (column 5), a
ProgrammingInterface from a two-tab line read in class mode (column 6), a Vendor
from a Vendor header (column 6), a Product from a one-tab line read outside
class mode (column 7) and a Subsystem from a two-tab line read outside class mode
(column 13).  The ids of the record are the id fields of the same line (the
VendorId of a Product is the id of the most recent Vendor header). -/
theorem names_are_line_remainders (m : Memory) (db : PCIDB) (L : List String)
    (r : ParseResult) (h : parsePCIIdsFile m db L = some r) :
    r.eachStored (classBuiltAt m db L) (subclassBuiltAt m db L) (progIfaceBuiltAt m db L)
      (vendorBuiltAt m db L) (productBuiltAt m db L) (subsystemBuiltAt m db L) := by
  have hN := pointersNew_parse h
  obtain ⟨s, hs, rfl⟩ := parse_eq_some h
  have hO := origin_run hs
  refine ⟨?_, ?_, ?_⟩
  · intro k a c ha hk
    have hle := hN.classMap k a ha
    refine ⟨hO.classes a c hk hle, fun x hx sc hsc => ?_⟩
    have hx' := hN.subclassesOf a c hk hle x hx
    exact ⟨hO.subclasses x sc hsc hx', fun y hy pi hpi =>
      hO.progIfaces y pi hpi (hN.progIfacesOf x sc hsc hx' y hy)⟩
  · intro k a v ha hk
    have hle := hN.vendorMap k a ha
    refine ⟨hO.vendors a v hk hle, fun x hx p hp => ?_⟩
    have hx' := hN.productsOf a v hk hle x hx
    obtain ⟨p1, h1, h2⟩ := hO.productsOf a v hk hle x hx
    have hp1 : p1 = p := Option.some.inj (h1.symm.trans hp)
    subst hp1
    refine ⟨h2, fun y hy q hq => ?_⟩
    obtain ⟨q1, h3, h4⟩ := hO.subsystemsOf x p1 hp hx' y hy
    have hq1 : q1 = q := Option.some.inj (h3.symm.trans hq)
    subst hq1
    exact h4
  · intro k a p ha hk
    have hle := hN.productMap k a ha
    obtain ⟨p1, h1, h2⟩ := hO.productMap k a ha
    have hp1 : p1 = p := Option.some.inj (h1.symm.trans hk)
    subst hp1
    refine ⟨h2, fun y hy q hq => ?_⟩
    obtain ⟨q1, h3, h4⟩ := hO.subsystemsOf a p1 hk hle y hy
    have hq1 : q1 = q := Option.some.inj (h3.symm.trans hq)
    subst hq1
    exact h4

set_option maxRecDepth 100000 in
/-- The amended C15 at two Class blocks and two Vendor blocks with padded names:
the Database leads to a record of each of the six kinds, and the Name of each is
the remainder of its line, such as ` Widget Pro ` for the Subsystem. -/
theorem names_are_line_remainders_witness :
    parsePCIIdsFile Memory.empty PCIDB.empty paddedFileLines = some paddedFileResult ∧
    paddedFileResult.mem.productIdents [1] = [some ("0a89", "0010", " Widget Pro ")] ∧
    paddedFileResult.eachStored
      (classBuiltAt Memory.empty PCIDB.empty paddedFileLines)
      (subclassBuiltAt Memory.empty PCIDB.empty paddedFileLines)
      (progIfaceBuiltAt Memory.empty PCIDB.empty paddedFileLines)
      (vendorBuiltAt Memory.empty PCIDB.empty paddedFileLines)
      (productBuiltAt Memory.empty PCIDB.empty paddedFileLines)
      (subsystemBuiltAt Memory.empty PCIDB.empty paddedFileLines) :=
  ⟨by decide, by decide,
    names_are_line_remainders Memory.empty PCIDB.empty paddedFileLines paddedFileResult
      (by decide)⟩

/-- C16: identifiers are fixed-width.  On every line sequence on which
`parsePCIIdsFile` runs to completion, from any prior state, every Class, Subclass
and ProgrammingInterface the Database leads to has an Id of exactly 2 characters,
every Vendor an Id of exactly 4, every Product and Subsystem an Id and a VendorId
of exactly 4, and every key of `Products` is exactly 8 characters long
(characters are code points: the code slices the line as runes). -/
theorem ids_fixed_width (m : Memory) (db : PCIDB) (L : List String) (r : ParseResult)
    (h : parsePCIIdsFile m db L = some r) :
    r.allStored (fun c => c.Id.length = 2) (fun c => c.Id.length = 2)
      (fun c => c.Id.length = 2) (fun c => c.Id.length = 4)
      (fun c => c.VendorId.length = 4 ∧ c.Id.length = 4) ∧
    ∀ k ∈ r.db.Products.keys, k.length = 8 := by
  refine ⟨allStored_mono (stored_from_lines h) ?_ ?_ ?_ ?_ ?_, products_keys_wide h⟩
  · rintro c ⟨l, -, -, hlen, hid, -⟩
    rw [hid]; exact length_cols (by omega) (by omega)
  · rintro c ⟨l, -, -, hlen, hid, -⟩
    rw [hid]; exact length_cols (by omega) (by omega)
  · rintro c ⟨l, -, -, hlen, hid, -⟩
    rw [hid]; exact length_cols (by omega) (by omega)
  · rintro c ⟨l, -, -, hlen, hid, -⟩
    rw [hid]; exact length_cols (by omega) (by omega)
  · rintro c (⟨l, -, -, hlen, hv, hid, -⟩ | ⟨l, -, -, hlen, hv, hid, -⟩)
    · exact ⟨hv, by rw [hid]; exact length_cols (by omega) (by omega)⟩
    · exact ⟨by rw [hv]; exact length_cols (by omega) (by omega),
        by rw [hid]; exact length_cols (by omega) (by omega)⟩

set_option maxRecDepth 100000 in
/-- C16 at the parse of the subsystem example: the Vendor, its Products and their
Subsystems have ids of four characters, and the keys of `Products` have eight. -/
theorem ids_fixed_width_witness :
    parsePCIIdsFile Memory.empty PCIDB.empty subsystemExampleLines =
      some subsystemExampleResult ∧
    subsystemExampleResult.db.Products.keys ≠ [] ∧
    (subsystemExampleResult.allStored (fun c => c.Id.length = 2) (fun c => c.Id.length = 2)
      (fun c => c.Id.length = 2) (fun c => c.Id.length = 4)
      (fun c => c.VendorId.length = 4 ∧ c.Id.length = 4) ∧
    ∀ k ∈ subsystemExampleResult.db.Products.keys, k.length = 8) :=
  ⟨by decide, by decide,
    ids_fixed_width Memory.empty PCIDB.empty subsystemExampleLines subsystemExampleResult
      (by decide)⟩

/-- C17: the parser never finalizes the last open block.  In a parse that runs
to completion, the record stored in `Classes` under the id of the last Class
header `H` of the input is the record of `H`, with an empty `Subclasses` list,
and the record stored in `Vendors` under the id of the last Vendor header is the
record of that header, with an empty `Products` list, whatever lines follow. -/
theorem last_block_left_empty (m : Memory) (db : PCIDB) (pre : List String) (H : String)
    (post : List String) (r : ParseResult)
    (h : parsePCIIdsFile m db (pre ++ H :: post) = some r) :
    (lineKind H = .classHeader → (∀ l ∈ post, lineKind l ≠ .classHeader) →
      ∃ c, r.classAt (cols 2 4 H) = some c ∧ c.Id = cols 2 4 H ∧ c.Name = colsFrom 6 H ∧
        c.Subclasses = []) ∧
    (lineKind H = .vendorHeader → (∀ l ∈ post, lineKind l ≠ .vendorHeader) →
      ∃ v, r.vendorAt (cols 0 4 H) = some v ∧ v.Id = cols 0 4 H ∧ v.Name = colsFrom 6 H ∧
        v.Products = []) := by
  obtain ⟨sf, hs, rfl⟩ := parse_eq_some h
  obtain ⟨s0, hs0, hs'⟩ := run_append_eq_some hs
  obtain ⟨s1, hs1, hs2⟩ := run_cons_eq_some hs'
  have hQ := quiet_run hs0
  constructor
  · intro hH hpost
    obtain ⟨-, rfl⟩ := step_classHeader hs1 hH
    obtain ⟨-, e2, -, e4, -, -⟩ := classHeader_effect s0 (cols 2 4 H) (colsFrom 6 H)
    have hempty : (if s0.curClass = none then s0.subclasses else []) = [] := by
      split
      · rename_i hnone; exact (hQ.noClass hnone).1
      · rfl
    rw [hempty] at e4
    obtain ⟨k1, k2⟩ := run_invariant
      (P := fun s =>
        s.mem.classes = (openClass (finalizeClass s0) (cols 2 4 H) (colsFrom 6 H)).mem.classes ∧
        s.db.Classes = (openClass (finalizeClass s0) (cols 2 4 H) (colsFrom 6 H)).db.Classes)
      (fun s l s' hl hP hst => by
        obtain ⟨f1, f2, -⟩ := step_class_frame hst (hpost l hl)
        exact ⟨f1.trans hP.1, f2.trans hP.2⟩) ⟨rfl, rfl⟩ hs2
    refine ⟨⟨cols 2 4 H, colsFrom 6 H, []⟩, ?_, rfl, rfl, rfl⟩
    simp only [ParseResult.classAt, k1, k2, e2, GoMap.lookup_store, if_true, Option.some_bind]
    exact e4
  · intro hH hpost
    obtain ⟨-, rfl⟩ := step_vendorHeader hs1 hH
    obtain ⟨-, e2, -, e4, -, -⟩ := vendorHeader_effect s0 (cols 0 4 H) (colsFrom 6 H)
    have hempty : (if s0.curVendor = none then s0.vendorProducts else []) = [] := by
      split
      · rename_i hnone; exact hQ.noVendor hnone
      · rfl
    rw [hempty] at e4
    obtain ⟨k1, k2⟩ := run_invariant
      (P := fun s =>
        s.mem.vendors = (openVendor (finalizeVendor s0) (cols 0 4 H) (colsFrom 6 H)).mem.vendors ∧
        s.db.Vendors = (openVendor (finalizeVendor s0) (cols 0 4 H) (colsFrom 6 H)).db.Vendors)
      (fun s l s' hl hP hst => by
        obtain ⟨f1, f2, -⟩ := step_vendor_frame hst (hpost l hl)
        exact ⟨f1.trans hP.1, f2.trans hP.2⟩) ⟨rfl, rfl⟩ hs2
    refine ⟨⟨cols 0 4 H, colsFrom 6 H, []⟩, ?_, rfl, rfl, rfl⟩
    simp only [ParseResult.vendorAt, k1, k2, e2, GoMap.lookup_store, if_true, Option.some_bind]
    exact e4

set_option maxRecDepth 100000 in
/-- C17 at the example of the spec: at its Class header, the last one, which a
Subclass line follows, and at its Vendor header, the last one, which a Product
line follows. -/
theorem last_block_left_empty_witness :
    (parsePCIIdsFile Memory.empty PCIDB.empty
        ([] ++ "C 02  Network controller" :: exampleLines.drop 1) = some exampleResult ∧
      lineKind "C 02  Network controller" = .classHeader ∧
      (∀ l ∈ exampleLines.drop 1, lineKind l ≠ .classHeader) ∧
      ((lineKind "C 02  Network controller" = .classHeader →
        (∀ l ∈ exampleLines.drop 1, lineKind l ≠ .classHeader) →
        ∃ c, exampleResult.classAt (cols 2 4 "C 02  Network controller") = some c ∧
          c.Id = cols 2 4 "C 02  Network controller" ∧
          c.Name = colsFrom 6 "C 02  Network controller" ∧ c.Subclasses = []) ∧
      (lineKind "C 02  Network controller" = .vendorHeader →
        (∀ l ∈ exampleLines.drop 1, lineKind l ≠ .vendorHeader) →
        ∃ v, exampleResult.vendorAt (cols 0 4 "C 02  Network controller") = some v ∧
          v.Id = cols 0 4 "C 02  Network controller" ∧
          v.Name = colsFrom 6 "C 02  Network controller" ∧ v.Products = []))) ∧
    (parsePCIIdsFile Memory.empty PCIDB.empty
        (exampleLines.take 3 ++ "0a89  BREA Technologies Inc" :: exampleLines.drop 4) =
          some exampleResult ∧
      lineKind "0a89  BREA Technologies Inc" = .vendorHeader ∧
      (∀ l ∈ exampleLines.drop 4, lineKind l ≠ .vendorHeader) ∧
      ((lineKind "0a89  BREA Technologies Inc" = .classHeader →
        (∀ l ∈ exampleLines.drop 4, lineKind l ≠ .classHeader) →
        ∃ c, exampleResult.classAt (cols 2 4 "0a89  BREA Technologies Inc") = some c ∧
          c.Id = cols 2 4 "0a89  BREA Technologies Inc" ∧
          c.Name = colsFrom 6 "0a89  BREA Technologies Inc" ∧ c.Subclasses = []) ∧
      (lineKind "0a89  BREA Technologies Inc" = .vendorHeader →
        (∀ l ∈ exampleLines.drop 4, lineKind l ≠ .vendorHeader) →
        ∃ v, exampleResult.vendorAt (cols 0 4 "0a89  BREA Technologies Inc") = some v ∧
          v.Id = cols 0 4 "0a89  BREA Technologies Inc" ∧
          v.Name = colsFrom 6 "0a89  BREA Technologies Inc" ∧ v.Products = []))) :=
  ⟨⟨by decide, by decide, by decide,
      last_block_left_empty Memory.empty PCIDB.empty [] "C 02  Network controller"
        (exampleLines.drop 1) exampleResult (by decide)⟩,
    ⟨by decide, by decide, by decide,
      last_block_left_empty Memory.empty PCIDB.empty (exampleLines.take 3)
        "0a89  BREA Technologies Inc" (exampleLines.drop 4) exampleResult (by decide)⟩⟩

set_option maxRecDepth 100000 in
/-- C18 fails when the first candidate that can be opened holds a line that is too
short: on a file system whose `/usr/share/hwdata/pci.ids` is a Vendor header
followed by a one-tab line of four characters the parser panics, nothing
recovers the panic, and `load` returns nothing, hence no nil error. -/
theorem load_panics_on_short_file :
    firstOpenable shortFile pciIdsFilePaths = some shortLineLines ∧
    parsePCIIdsFile Memory.empty PCIDB.empty shortLineLines = none ∧
    load shortFile Memory.empty PCIDB.empty = none ∧
    ¬ ∃ r, load shortFile Memory.empty PCIDB.empty = some r ∧ r.err = none := by
  refine ⟨by decide, by decide, by decide, ?_⟩
  rintro ⟨r, hr, -⟩
  have : load shortFile Memory.empty PCIDB.empty = none := by decide
  rw [this] at hr
  cases hr

/-- C18, amended: the implementation reports success whenever it returns.
Whenever `parsePCIIdsFile` returns, its error is nil; whenever `load` returns, its
error is nil.  The outcome of `load` is that of `parsePCIIdsFile` on the first
candidate path that exists and can be opened, a panic included; when there is no
such candidate `load` returns nil and leaves the Database as it was, and when that
candidate is an empty file `load` returns nil with three empty maps. -/
theorem load_reports_success_when_it_returns (fs : FileSystem) (m : Memory) (db : PCIDB) :
    (∀ L r, parsePCIIdsFile m db L = some r → r.err = none) ∧
    (∀ r, load fs m db = some r → r.err = none) ∧
    (∀ lines, firstOpenable fs pciIdsFilePaths = some lines →
      load fs m db = parsePCIIdsFile m db lines) ∧
    (firstOpenable fs pciIdsFilePaths = none →
      load fs m db = some { mem := m, db := db, err := none }) ∧
    (firstOpenable fs pciIdsFilePaths = some [] →
      ∃ r, load fs m db = some r ∧ r.err = none ∧ r.db.Classes.keys = [] ∧
        r.db.Vendors.keys = [] ∧ r.db.Products.keys = []) := by
  refine ⟨fun L r hr => parse_err_nil hr, ?_, ?_, ?_, ?_⟩
  · intro r hr
    unfold load at hr
    rw [loadLoop_eq] at hr
    cases hf : firstOpenable fs pciIdsFilePaths with
    | none =>
      rw [hf] at hr
      simp only [Option.some.injEq] at hr
      rw [← hr]
    | some lines =>
      rw [hf] at hr
      exact parse_err_nil hr
  · intro lines hf
    unfold load
    rw [loadLoop_eq, hf]
  · intro hf
    unfold load
    rw [loadLoop_eq, hf]
  · intro hf
    unfold load
    rw [loadLoop_eq, hf]
    exact ⟨_, rfl, rfl, rfl, rfl, rfl⟩

/-- The amended C18 at a file system without any file, at one whose only file is
an empty second candidate, and at one whose first candidate is the example of the
spec. -/
theorem load_reports_success_when_it_returns_witness :
    (firstOpenable noFiles pciIdsFilePaths = none ∧
      load noFiles Memory.empty PCIDB.empty =
        some { mem := Memory.empty, db := PCIDB.empty, err := none }) ∧
    (firstOpenable emptyMiscFile pciIdsFilePaths = some [] ∧
      ∃ r, load emptyMiscFile Memory.empty PCIDB.empty = some r ∧ r.err = none ∧
        r.db.Classes.keys = [] ∧ r.db.Vendors.keys = [] ∧ r.db.Products.keys = []) ∧
    (firstOpenable shortFile pciIdsFilePaths = some shortLineLines ∧
      load shortFile Memory.empty PCIDB.empty =
        parsePCIIdsFile Memory.empty PCIDB.empty shortLineLines) :=
  ⟨⟨by decide,
      (load_reports_success_when_it_returns noFiles Memory.empty PCIDB.empty).2.2.2.1
        (by decide)⟩,
    ⟨by decide,
      (load_reports_success_when_it_returns emptyMiscFile Memory.empty PCIDB.empty).2.2.2.2
        (by decide)⟩,
    ⟨by decide,
      (load_reports_success_when_it_returns shortFile Memory.empty PCIDB.empty).2.2.1
        shortLineLines (by decide)⟩⟩

/-- C19: safety under well-formedness.  `parsePCIIdsFile` runs to completion on
every line sequence in which each line that is not skipped is long enough for
its kind and context (6 for a header, 5 or 7 for a one-tab line in class or
vendor mode, 6 or 13 for another tab-initial line) and each one-tab line read
outside class mode is preceded by a Vendor header. -/
theorem well_formed_input_is_safe (m : Memory) (db : PCIDB) (lines : List String)
    (h : ∀ e ∈ annotate Ctx.init lines, wellFormedLine e = true) :
    ∃ r, parsePCIIdsFile m db lines = some r := by
  obtain ⟨s, hs⟩ := run_progress (link_init m db) h
  exact ⟨{ mem := s.mem, db := s.db, err := none }, by simp [parsePCIIdsFile, hs]⟩

set_option maxRecDepth 100000 in
/-- C19 at the example of the spec. -/
theorem well_formed_input_is_safe_witness :
    (∀ e ∈ annotate Ctx.init exampleLines, wellFormedLine e = true) ∧
    ∃ r, parsePCIIdsFile Memory.empty PCIDB.empty exampleLines = some r :=
  ⟨by decide, well_formed_input_is_safe Memory.empty PCIDB.empty exampleLines (by decide)⟩

/-- C20: leaf lines are attributed across Class headers.  In a parse that runs
to completion, let `S` be a Subclass line that is not the first Subclass line of
the input and is followed by a later Subclass line `T`, the next one.  The
record built from `S` (the one allocated when `S` is read, at the first free
address of the Subclass heap) has the `Id` and `Name` of `S`, and its
`ProgrammingInterfaces` is, in file order, the list of the records built from
the two-tab lines read in class mode between `S` and `T`, whatever Class
headers lie between them: a two-tab line directly under a new Class header,
before the first Subclass line of that Class, goes to `S`. -/
theorem prog_ifaces_attached_across_classes (m : Memory) (db : PCIDB) (pre : List String)
    (S : String) (mid : List String) (T : String) (post : List String) (r : ParseResult)
    (h : parsePCIIdsFile m db (pre ++ S :: (mid ++ T :: post)) = some r)
    (hS : isSubclassLine (ctxAfter Ctx.init pre, S) = true)
    (hT : isSubclassLine (ctxAfter Ctx.init (pre ++ S :: mid), T) = true)
    (hmid : subclassLines (ctxAfter Ctx.init (pre ++ [S])) mid = [])
    (hnotfirst : subclassLines Ctx.init pre ≠ []) :
    ∃ s0 sc, run (initState m db) pre = some s0 ∧
      r.mem.subclasses[s0.mem.subclasses.length]? = some sc ∧
      sc.Id = cols 1 3 S ∧ sc.Name = colsFrom 5 S ∧
      r.mem.progIfacesAt sc.ProgrammingInterfaces =
        (progIfaceLines (ctxAfter Ctx.init (pre ++ [S])) mid).map fun l =>
          some (PCIProgrammingInterface.mk (cols 2 4 l) (colsFrom 6 l)) := by
  obtain ⟨sf, hs, rfl⟩ := parse_eq_some h
  obtain ⟨s0, hs0, hs'⟩ := run_append_eq_some hs
  obtain ⟨s1, hs1, hs'⟩ := run_cons_eq_some hs'
  obtain ⟨s2, hs2, hs'⟩ := run_append_eq_some hs'
  obtain ⟨s3, hs3, hs4⟩ := run_cons_eq_some hs'
  have hc1 : ctxAfter Ctx.init (pre ++ [S]) = (ctxAfter Ctx.init pre).read S := by
    rw [ctxAfter_append]; rfl
  have hc2 : ctxAfter Ctx.init (pre ++ S :: mid) =
      ctxAfter ((ctxAfter Ctx.init pre).read S) mid := by
    rw [ctxAfter_append]; rfl
  rw [hc1] at hmid
  rw [hc2] at hT
  rw [hc1]
  have hseen := subclass_seen_run hs0
  generalize hc0 : ctxAfter Ctx.init pre = c0 at *
  have hL0 : Link c0 s0 := by rw [← hc0]; exact link_run pre (link_init m db) hs0
  have hL1 : Link (c0.read S) s1 := link_step hL0 hs1
  have hL2 : Link (ctxAfter (c0.read S) mid) s2 := link_run mid hL1 hs2
  simp only [isSubclassLine, Bool.decide_and, Bool.and_eq_true, decide_eq_true_eq] at hS hT
  -- the line `S`
  have hb0 : s0.inClassBlock = true := by rw [hL0.mode]; simpa using hS.1
  obtain ⟨-, rfl⟩ := step_subclass hs1 hS.2 hb0
  obtain ⟨e1, e2, e3, -, -⟩ := subclassEntry_effect s0 (cols 1 3 S) (colsFrom 5 S)
  have hcur0 : s0.curSubclass ≠ none := fun hnone => hnotfirst (hseen hnone)
  rw [if_neg hcur0] at e2 e3
  -- the lines between `S` and `T`
  obtain ⟨g1, g2, g3⟩ := progIfaces_accumulate [] hs2 hmid hL1.mode (by rw [e2]; rfl)
  -- the line `T`
  have hb2 : s2.inClassBlock = true := by rw [hL2.mode]; simpa using hT.1
  obtain ⟨-, rfl⟩ := step_subclass hs3 hT.2 hb2
  obtain ⟨b1, -, -, -, b5⟩ := subclassEntry_effect s2 (cols 1 3 T) (colsFrom 5 T)
  rw [← g1] at e3
  have hcur : s2.curSubclass = some s0.mem.subclasses.length := by rw [g2, e1]
  have hB3 := b5 _ _ e3
  rw [if_pos hcur] at hB3
  have hne : (openSubclass (finalizeSubclass s2) (cols 1 3 T) (colsFrom 5 T)).curSubclass ≠
      some s0.mem.subclasses.length := by
    rw [b1]
    intro hEq
    simp only [Option.some.injEq] at hEq
    have := lt_length_of_getElem? e3
    omega
  -- the lines after `T`
  obtain ⟨k1, -⟩ := run_invariant
    (P := fun s => s.mem.subclasses[s0.mem.subclasses.length]? =
        some { Id := cols 1 3 S, Name := colsFrom 5 S, ProgrammingInterfaces := s2.progIfaces } ∧
      s.curSubclass ≠ some s0.mem.subclasses.length)
    (fun s l s' _ hP hst => subclass_settled_step hst hP) ⟨hB3, hne⟩ hs4
  refine ⟨s0, _, hs0, k1, rfl, rfl, ?_⟩
  have hrest : run s2 (T :: post) = some sf := by simp [run, hs3, hs4]
  have := progIfacesAt_stable hrest g3
  simpa using this

set_option maxRecDepth 100000 in
/-- C20 at the second of three Subclass lines, with a Class header and a
ProgrammingInterface line directly under it before the third. -/
theorem prog_ifaces_attached_across_classes_witness :
    parsePCIIdsFile Memory.empty PCIDB.empty
      (crossClassLines.take 3 ++ "\t00  Ethernet" ::
        (["\t\t00  Interface A", "C 03  Display", "\t\t01  Interface B"] ++
          "\t00  VGA" :: [])) = some crossClassResult ∧
    isSubclassLine (ctxAfter Ctx.init (crossClassLines.take 3), "\t00  Ethernet") = true ∧
    isSubclassLine (ctxAfter Ctx.init (crossClassLines.take 3 ++ "\t00  Ethernet" ::
      ["\t\t00  Interface A", "C 03  Display", "\t\t01  Interface B"]), "\t00  VGA") = true ∧
    subclassLines (ctxAfter Ctx.init (crossClassLines.take 3 ++ ["\t00  Ethernet"]))
      ["\t\t00  Interface A", "C 03  Display", "\t\t01  Interface B"] = [] ∧
    subclassLines Ctx.init (crossClassLines.take 3) ≠ [] ∧
    ∃ s0 sc, run (initState Memory.empty PCIDB.empty) (crossClassLines.take 3) = some s0 ∧
      crossClassResult.mem.subclasses[s0.mem.subclasses.length]? = some sc ∧
      sc.Id = cols 1 3 "\t00  Ethernet" ∧ sc.Name = colsFrom 5 "\t00  Ethernet" ∧
      crossClassResult.mem.progIfacesAt sc.ProgrammingInterfaces =
        (progIfaceLines (ctxAfter Ctx.init (crossClassLines.take 3 ++ ["\t00  Ethernet"]))
          ["\t\t00  Interface A", "C 03  Display", "\t\t01  Interface B"]).map fun l =>
          some (PCIProgrammingInterface.mk (cols 2 4 l) (colsFrom 6 l)) :=
  ⟨by decide, by decide, by decide, by decide, by decide,
    prog_ifaces_attached_across_classes Memory.empty PCIDB.empty (crossClassLines.take 3)
      "\t00  Ethernet" ["\t\t00  Interface A", "C 03  Display", "\t\t01  Interface B"]
      "\t00  VGA" [] crossClassResult (by decide) (by decide) (by decide) (by decide)
      (by decide)⟩

end Pcidb
